import Mathlib

/-! Verification development for the `pas` single-header libraries.

The UTF-8 / UTF-16 codecs are embedded from `pas_unicode.h`. The ZIP archive
core is modelled from the specification (`pas_zip.h` itself is not among the
available sources; only its tests and examples are), and the archive
properties are proved about that model.

Conventions of the embedding:
* bytes, 16-bit units and code points are natural numbers; a C cast to a
  fixed-width type is an explicit `% 2^w`;
* a possibly-NULL input pointer is an `Option (List Nat)`;
* output parameters (`*out`, `*used`, `*status`) become components of the
  returned tuple.

All definitions come first, the theorems follow.
-/

/-! # Definitions -/

namespace PasUnicode

/-- Status codes of `pas_unicode.h` (`enum pasu_status`). -/
inductive pasu_status where
  | PASU_OK
  | PASU_E_INVALID
  | PASU_E_RANGE
  | PASU_E_SURROG
  | PASU_E_TRUNC
  | PASU_E_NOSPACE
  deriving DecidableEq

open pasu_status

/-- Embedding of `pasu_is_valid_scalar`: in range and not a surrogate. -/
def pasu_is_valid_scalar (cp : Nat) : Bool :=
  if cp > 0x10FFFF then false
  else if cp ≥ 0xD800 ∧ cp ≤ 0xDFFF then false
  else true

/-- Embedding of `pasu_utf8_decode`. The result is `(status, *out, *used)`.
`s` is the input pointer (`none` is NULL), `len` the number of available bytes;
byte `i` of the buffer is read as `buf.getD i 0` and is only read after the
source has checked `i < len`. -/
def pasu_utf8_decode (s : Option (List Nat)) (len : Nat) : pasu_status × Nat × Nat :=
  match s with
  | none => (PASU_E_TRUNC, 0xFFFD, 0)
  | some buf =>
    if len = 0 then (PASU_E_TRUNC, 0xFFFD, 0)
    else
      let b0 := buf.getD 0 0
      if b0 < 0x80 then (PASU_OK, b0, 1)
      else if b0 &&& 0xE0 = 0xC0 then
        if len < 2 then (PASU_E_TRUNC, 0xFFFD, 1)
        else
          let b1 := buf.getD 1 0
          if b1 &&& 0xC0 ≠ 0x80 then (PASU_E_INVALID, 0xFFFD, 1)
          else
            let cp := ((b0 &&& 0x1F) <<< 6) ||| (b1 &&& 0x3F)
            if cp < 0x80 then (PASU_E_INVALID, 0xFFFD, 1)
            else if pasu_is_valid_scalar cp = false then (PASU_E_RANGE, 0xFFFD, 2)
            else (PASU_OK, cp, 2)
      else if b0 &&& 0xF0 = 0xE0 then
        if len < 3 then (PASU_E_TRUNC, 0xFFFD, if len < 2 then 1 else 2)
        else
          let b1 := buf.getD 1 0
          let b2 := buf.getD 2 0
          if b1 &&& 0xC0 ≠ 0x80 ∨ b2 &&& 0xC0 ≠ 0x80 then (PASU_E_INVALID, 0xFFFD, 1)
          else
            let cp := ((b0 &&& 0x0F) <<< 12) ||| ((b1 &&& 0x3F) <<< 6) ||| (b2 &&& 0x3F)
            if cp < 0x800 then (PASU_E_INVALID, 0xFFFD, 1)
            else if pasu_is_valid_scalar cp = false then (PASU_E_RANGE, 0xFFFD, 3)
            else (PASU_OK, cp, 3)
      else if b0 &&& 0xF8 = 0xF0 then
        if len < 4 then
          (PASU_E_TRUNC, 0xFFFD, if len < 2 then 1 else if len < 3 then 2 else 3)
        else
          let b1 := buf.getD 1 0
          let b2 := buf.getD 2 0
          let b3 := buf.getD 3 0
          if b1 &&& 0xC0 ≠ 0x80 ∨ b2 &&& 0xC0 ≠ 0x80 ∨ b3 &&& 0xC0 ≠ 0x80 then
            (PASU_E_INVALID, 0xFFFD, 1)
          else
            let cp := ((b0 &&& 0x07) <<< 18) ||| ((b1 &&& 0x3F) <<< 12) |||
                      ((b2 &&& 0x3F) <<< 6) ||| (b3 &&& 0x3F)
            if cp < 0x10000 then (PASU_E_INVALID, 0xFFFD, 1)
            else if pasu_is_valid_scalar cp = false then (PASU_E_RANGE, 0xFFFD, 4)
            else (PASU_OK, cp, 4)
      else (PASU_E_INVALID, 0xFFFD, 1)

/-- Embedding of `pasu_utf8_encode`. The result is `(status, bytes, *used)`
where `bytes` are the bytes stored to `out[0..used)`. On an error return the
source stores nothing, which the model renders as no bytes and a count of 0.
Each `(pasu_uint8)` cast is a `% 256`. -/
def pasu_utf8_encode (cp : Nat) : pasu_status × List Nat × Nat :=
  if pasu_is_valid_scalar cp = false then
    (if cp > 0x10FFFF then PASU_E_RANGE else PASU_E_SURROG, [], 0)
  else if cp < 0x80 then (PASU_OK, [cp % 256], 1)
  else if cp < 0x800 then
    (PASU_OK, [(0xC0 ||| (cp >>> 6)) % 256, (0x80 ||| (cp &&& 0x3F)) % 256], 2)
  else if cp < 0x10000 then
    (PASU_OK, [(0xE0 ||| (cp >>> 12)) % 256,
               (0x80 ||| ((cp >>> 6) &&& 0x3F)) % 256,
               (0x80 ||| (cp &&& 0x3F)) % 256], 3)
  else
    (PASU_OK, [(0xF0 ||| (cp >>> 18)) % 256,
               (0x80 ||| ((cp >>> 12) &&& 0x3F)) % 256,
               (0x80 ||| ((cp >>> 6) &&& 0x3F)) % 256,
               (0x80 ||| (cp &&& 0x3F)) % 256], 4)

/-- Embedding of `pasu_utf16_decode`. The result is `(status, *out, *used)`.
The two subtractions happen only on the branch where `w1 ∈ [0xD800, 0xDBFF]`
and `w2 ∈ [0xDC00, 0xDFFF]`, so they cannot wrap. -/
def pasu_utf16_decode (s : Option (List Nat)) (len : Nat) : pasu_status × Nat × Nat :=
  match s with
  | none => (PASU_E_TRUNC, 0xFFFD, 0)
  | some buf =>
    if len = 0 then (PASU_E_TRUNC, 0xFFFD, 0)
    else
      let w1 := buf.getD 0 0
      if w1 < 0xD800 ∨ w1 > 0xDFFF then
        if pasu_is_valid_scalar w1 = false then (PASU_E_RANGE, 0xFFFD, 1)
        else (PASU_OK, w1, 1)
      else if w1 > 0xDBFF then (PASU_E_SURROG, 0xFFFD, 1)
      else if len < 2 then (PASU_E_TRUNC, 0xFFFD, 1)
      else
        let w2 := buf.getD 1 0
        if w2 < 0xDC00 ∨ w2 > 0xDFFF then (PASU_E_SURROG, 0xFFFD, 1)
        else
          let cp := 0x10000 + ((w1 - 0xD800) <<< 10) + (w2 - 0xDC00)
          if pasu_is_valid_scalar cp = false then (PASU_E_RANGE, 0xFFFD, 2)
          else (PASU_OK, cp, 2)

/-- Embedding of `pasu_utf16_encode`. The result is `(status, units, *used)`;
each `(pasu_uint16)` cast is a `% 65536`. -/
def pasu_utf16_encode (cp : Nat) : pasu_status × List Nat × Nat :=
  if pasu_is_valid_scalar cp = false then
    (if cp > 0x10FFFF then PASU_E_RANGE else PASU_E_SURROG, [], 0)
  else if cp < 0x10000 then (PASU_OK, [cp % 65536], 1)
  else
    let v := cp - 0x10000
    (PASU_OK, [(0xD800 + (v >>> 10)) % 65536, (0xDC00 + (v &&& 0x3FF)) % 65536], 2)

/-! ## Buffer converters, length helpers and C-string converters -/

/-- State-passing embedding of `pasu_utf8_encode`: `out` is the prior content
of the caller's `out[4]` array and `used` the prior value of `*used`. The
result is `(status, out, *used)` after the call. On the error return nothing
is stored. -/
def pasu_utf8_encode_state (cp : Nat) (out : List Nat) (used : Nat) :
    pasu_status × List Nat × Nat :=
  if pasu_is_valid_scalar cp = false then
    (if cp > 0x10FFFF then PASU_E_RANGE else PASU_E_SURROG, out, used)
  else if cp < 0x80 then (PASU_OK, out.set 0 (cp % 256), 1)
  else if cp < 0x800 then
    (PASU_OK, (out.set 0 ((0xC0 ||| (cp >>> 6)) % 256)).set 1
      ((0x80 ||| (cp &&& 0x3F)) % 256), 2)
  else if cp < 0x10000 then
    (PASU_OK, ((out.set 0 ((0xE0 ||| (cp >>> 12)) % 256)).set 1
      ((0x80 ||| ((cp >>> 6) &&& 0x3F)) % 256)).set 2
      ((0x80 ||| (cp &&& 0x3F)) % 256), 3)
  else
    (PASU_OK, (((out.set 0 ((0xF0 ||| (cp >>> 18)) % 256)).set 1
      ((0x80 ||| ((cp >>> 12) &&& 0x3F)) % 256)).set 2
      ((0x80 ||| ((cp >>> 6) &&& 0x3F)) % 256)).set 3
      ((0x80 ||| (cp &&& 0x3F)) % 256), 4)

/-- State-passing embedding of `pasu_utf16_encode`: `out` is the prior content
of the caller's `out[2]` array and `used` the prior value of `*used`. -/
def pasu_utf16_encode_state (cp : Nat) (out : List Nat) (used : Nat) :
    pasu_status × List Nat × Nat :=
  if pasu_is_valid_scalar cp = false then
    (if cp > 0x10FFFF then PASU_E_RANGE else PASU_E_SURROG, out, used)
  else if cp < 0x10000 then (PASU_OK, out.set 0 (cp % 65536), 1)
  else
    let v := cp - 0x10000
    (PASU_OK, (out.set 0 ((0xD800 + (v >>> 10)) % 65536)).set 1
      ((0xDC00 + (v &&& 0x3FF)) % 65536), 2)

/-- Embedding of the `while (i < src_len)` loop of `pasu_utf8_to_utf16`. The
state is `(i, j, dst)`; `src + i` is `src.drop i`. The first argument bounds
the number of iterations: every iteration that continues advances `i` by at
least 1, so `src_len - i` iterations are enough. The result is
`(return value, *status, dst)`. -/
def pasu_utf8_to_utf16_loop (src : List Nat) (src_len dst_capacity : Nat) :
    Nat → Nat → Nat → List Nat → Nat × pasu_status × List Nat
  | 0, _, j, dst => (j, PASU_OK, dst)
  | fuel + 1, i, j, dst =>
    if i < src_len then
      let d := pasu_utf8_decode (some (src.drop i)) (src_len - i)
      if d.1 ≠ PASU_OK then (j, d.1, dst)
      else
        let e := pasu_utf16_encode d.2.1
        if e.1 ≠ PASU_OK then (j, e.1, dst)
        else if j + e.2.2 > dst_capacity then (j, PASU_E_NOSPACE, dst)
        else
          let dst1 := dst.set j (e.2.1.getD 0 0)
          if e.2.2 = 2 then
            pasu_utf8_to_utf16_loop src src_len dst_capacity fuel (i + d.2.2) (j + 1 + 1)
              (dst1.set (j + 1) (e.2.1.getD 1 0))
          else
            pasu_utf8_to_utf16_loop src src_len dst_capacity fuel (i + d.2.2) (j + 1) dst1
    else (j, PASU_OK, dst)

/-- Embedding of `pasu_utf8_to_utf16`. `src` is the source pointer (`none` is
NULL), `dst` the destination memory. The result is
`(return value, *status, dst)`. -/
def pasu_utf8_to_utf16 (src : Option (List Nat)) (src_len : Nat) (dst : List Nat)
    (dst_capacity : Nat) : Nat × pasu_status × List Nat :=
  match src with
  | none => if src_len ≠ 0 then (0, PASU_E_INVALID, dst) else (0, PASU_OK, dst)
  | some s => pasu_utf8_to_utf16_loop s src_len dst_capacity src_len 0 0 dst

/-- Embedding of the stores `dst[j++] = tmp[0]; if (used8 > 1) dst[j++] =
tmp[1]; if (used8 > 2) ...; if (used8 > 3) ...` shared by
`pasu_utf16_to_utf8` and `pasu_utf32_to_utf8`. The result is `(dst, j)`. -/
def store_utf8 (dst : List Nat) (j : Nat) (tmp : List Nat) (used8 : Nat) : List Nat × Nat :=
  let s1 : List Nat × Nat := (dst.set j (tmp.getD 0 0), j + 1)
  let s2 : List Nat × Nat := if used8 > 1 then (s1.1.set s1.2 (tmp.getD 1 0), s1.2 + 1) else s1
  let s3 : List Nat × Nat := if used8 > 2 then (s2.1.set s2.2 (tmp.getD 2 0), s2.2 + 1) else s2
  if used8 > 3 then (s3.1.set s3.2 (tmp.getD 3 0), s3.2 + 1) else s3

/-- Embedding of the loop of `pasu_utf16_to_utf8`. -/
def pasu_utf16_to_utf8_loop (src : List Nat) (src_len dst_capacity : Nat) :
    Nat → Nat → Nat → List Nat → Nat × pasu_status × List Nat
  | 0, _, j, dst => (j, PASU_OK, dst)
  | fuel + 1, i, j, dst =>
    if i < src_len then
      let d := pasu_utf16_decode (some (src.drop i)) (src_len - i)
      if d.1 ≠ PASU_OK then (j, d.1, dst)
      else
        let e := pasu_utf8_encode d.2.1
        if e.1 ≠ PASU_OK then (j, e.1, dst)
        else if j + e.2.2 > dst_capacity then (j, PASU_E_NOSPACE, dst)
        else
          let s := store_utf8 dst j e.2.1 e.2.2
          pasu_utf16_to_utf8_loop src src_len dst_capacity fuel (i + d.2.2) s.2 s.1
    else (j, PASU_OK, dst)

/-- Embedding of `pasu_utf16_to_utf8`. -/
def pasu_utf16_to_utf8 (src : Option (List Nat)) (src_len : Nat) (dst : List Nat)
    (dst_capacity : Nat) : Nat × pasu_status × List Nat :=
  match src with
  | none => if src_len ≠ 0 then (0, PASU_E_INVALID, dst) else (0, PASU_OK, dst)
  | some s => pasu_utf16_to_utf8_loop s src_len dst_capacity src_len 0 0 dst

/-- Embedding of the loop of `pasu_utf8_length`. The state is `(pos, count)`;
the result is `(return value, *status)`. -/
def pasu_utf8_length_loop (str : List Nat) (len : Nat) : Nat → Nat → Nat → Nat × pasu_status
  | 0, _, count => (count, PASU_OK)
  | fuel + 1, pos, count =>
    if pos < len then
      let d := pasu_utf8_decode (some (str.drop pos)) (len - pos)
      if d.1 ≠ PASU_OK then (count, d.1)
      else pasu_utf8_length_loop str len fuel (pos + d.2.2) (count + 1)
    else (count, PASU_OK)

/-- Embedding of `pasu_utf8_length`. -/
def pasu_utf8_length (str : Option (List Nat)) (len : Nat) : Nat × pasu_status :=
  match str with
  | none => if len ≠ 0 then (0, PASU_E_INVALID) else (0, PASU_OK)
  | some s => pasu_utf8_length_loop s len len 0 0

/-- Embedding of the loop of `pasu_utf8_to_utf32`. -/
def pasu_utf8_to_utf32_loop (src : List Nat) (src_len dst_capacity : Nat) :
    Nat → Nat → Nat → List Nat → Nat × pasu_status × List Nat
  | 0, _, j, dst => (j, PASU_OK, dst)
  | fuel + 1, i, j, dst =>
    if i < src_len then
      let d := pasu_utf8_decode (some (src.drop i)) (src_len - i)
      if d.1 ≠ PASU_OK then (j, d.1, dst)
      else if j ≥ dst_capacity then (j, PASU_E_NOSPACE, dst)
      else
        pasu_utf8_to_utf32_loop src src_len dst_capacity fuel (i + d.2.2) (j + 1)
          (dst.set j d.2.1)
    else (j, PASU_OK, dst)

/-- Embedding of `pasu_utf8_to_utf32`. -/
def pasu_utf8_to_utf32 (src : Option (List Nat)) (src_len : Nat) (dst : List Nat)
    (dst_capacity : Nat) : Nat × pasu_status × List Nat :=
  match src with
  | none => if src_len ≠ 0 then (0, PASU_E_INVALID, dst) else (0, PASU_OK, dst)
  | some s => pasu_utf8_to_utf32_loop s src_len dst_capacity src_len 0 0 dst

/-- Embedding of the loop of `pasu_utf32_to_utf8`; `cp = src[i++]` reads
`src.getD i 0`. -/
def pasu_utf32_to_utf8_loop (src : List Nat) (src_len dst_capacity : Nat) :
    Nat → Nat → Nat → List Nat → Nat × pasu_status × List Nat
  | 0, _, j, dst => (j, PASU_OK, dst)
  | fuel + 1, i, j, dst =>
    if i < src_len then
      let e := pasu_utf8_encode (src.getD i 0)
      if e.1 ≠ PASU_OK then (j, e.1, dst)
      else if j + e.2.2 > dst_capacity then (j, PASU_E_NOSPACE, dst)
      else
        let s := store_utf8 dst j e.2.1 e.2.2
        pasu_utf32_to_utf8_loop src src_len dst_capacity fuel (i + 1) s.2 s.1
    else (j, PASU_OK, dst)

/-- Embedding of `pasu_utf32_to_utf8`. -/
def pasu_utf32_to_utf8 (src : Option (List Nat)) (src_len : Nat) (dst : List Nat)
    (dst_capacity : Nat) : Nat × pasu_status × List Nat :=
  match src with
  | none => if src_len ≠ 0 then (0, PASU_E_INVALID, dst) else (0, PASU_OK, dst)
  | some s => pasu_utf32_to_utf8_loop s src_len dst_capacity src_len 0 0 dst

/-- Embedding of the loop of `pasu_utf16_to_utf32`. -/
def pasu_utf16_to_utf32_loop (src : List Nat) (src_len dst_capacity : Nat) :
    Nat → Nat → Nat → List Nat → Nat × pasu_status × List Nat
  | 0, _, j, dst => (j, PASU_OK, dst)
  | fuel + 1, i, j, dst =>
    if i < src_len then
      let d := pasu_utf16_decode (some (src.drop i)) (src_len - i)
      if d.1 ≠ PASU_OK then (j, d.1, dst)
      else if j ≥ dst_capacity then (j, PASU_E_NOSPACE, dst)
      else
        pasu_utf16_to_utf32_loop src src_len dst_capacity fuel (i + d.2.2) (j + 1)
          (dst.set j d.2.1)
    else (j, PASU_OK, dst)

/-- Embedding of `pasu_utf16_to_utf32`. -/
def pasu_utf16_to_utf32 (src : Option (List Nat)) (src_len : Nat) (dst : List Nat)
    (dst_capacity : Nat) : Nat × pasu_status × List Nat :=
  match src with
  | none => if src_len ≠ 0 then (0, PASU_E_INVALID, dst) else (0, PASU_OK, dst)
  | some s => pasu_utf16_to_utf32_loop s src_len dst_capacity src_len 0 0 dst

/-- Embedding of the loop of `pasu_utf32_to_utf16`. -/
def pasu_utf32_to_utf16_loop (src : List Nat) (src_len dst_capacity : Nat) :
    Nat → Nat → Nat → List Nat → Nat × pasu_status × List Nat
  | 0, _, j, dst => (j, PASU_OK, dst)
  | fuel + 1, i, j, dst =>
    if i < src_len then
      let e := pasu_utf16_encode (src.getD i 0)
      if e.1 ≠ PASU_OK then (j, e.1, dst)
      else if j + e.2.2 > dst_capacity then (j, PASU_E_NOSPACE, dst)
      else
        let dst1 := dst.set j (e.2.1.getD 0 0)
        if e.2.2 = 2 then
          pasu_utf32_to_utf16_loop src src_len dst_capacity fuel (i + 1) (j + 1 + 1)
            (dst1.set (j + 1) (e.2.1.getD 1 0))
        else
          pasu_utf32_to_utf16_loop src src_len dst_capacity fuel (i + 1) (j + 1) dst1
    else (j, PASU_OK, dst)

/-- Embedding of `pasu_utf32_to_utf16`. -/
def pasu_utf32_to_utf16 (src : Option (List Nat)) (src_len : Nat) (dst : List Nat)
    (dst_capacity : Nat) : Nat × pasu_status × List Nat :=
  match src with
  | none => if src_len ≠ 0 then (0, PASU_E_INVALID, dst) else (0, PASU_OK, dst)
  | some s => pasu_utf32_to_utf16_loop s src_len dst_capacity src_len 0 0 dst

/-- Embedding of the loop of `pasu_utf32_length`. The state is `i`; the result
is `(return value, *status)`. -/
def pasu_utf32_length_loop (str : List Nat) (len : Nat) : Nat → Nat → Nat × pasu_status
  | 0, _ => (len, PASU_OK)
  | fuel + 1, i =>
    if i < len then
      let cp := str.getD i 0
      if pasu_is_valid_scalar cp = false then
        (i, if cp > 0x10FFFF then PASU_E_RANGE
            else if cp ≥ 0xD800 ∧ cp ≤ 0xDFFF then PASU_E_SURROG
            else PASU_E_RANGE)
      else pasu_utf32_length_loop str len fuel (i + 1)
    else (len, PASU_OK)

/-- Embedding of `pasu_utf32_length`. -/
def pasu_utf32_length (str : Option (List Nat)) (len : Nat) : Nat × pasu_status :=
  match str with
  | none => if len ≠ 0 then (0, PASU_E_INVALID) else (0, PASU_OK)
  | some s => pasu_utf32_length_loop s len len 0

/-- Embedding of the scan `while (src[src_len] != 0) ++src_len;` of the
C-string helpers. The list is the memory at `src` up to its terminator; the
scan also stops where the list ends. -/
def pasu_cstr_len : List Nat → Nat
  | [] => 0
  | b :: rest => if b ≠ 0 then pasu_cstr_len rest + 1 else 0

/-- Embedding of the body shared, word for word, by the six C-string
converters, `convert` being the buffer converter each of them calls. `src`
and `dst` are pointers (`none` is NULL). The result is
`(return value, *status, dst)`. -/
def cstr_convert
    (convert : Option (List Nat) → Nat → List Nat → Nat → Nat × pasu_status × List Nat)
    (src dst : Option (List Nat)) (dst_capacity : Nat) :
    Nat × pasu_status × Option (List Nat) :=
  match dst with
  | none => (0, PASU_E_NOSPACE, none)
  | some d =>
    if dst_capacity = 0 then (0, PASU_E_NOSPACE, some d)
    else
      match src with
      | none => (0, PASU_E_INVALID, some (d.set 0 0))
      | some s =>
        let src_len := pasu_cstr_len s
        if src_len = 0 then (0, PASU_OK, some (d.set 0 0))
        else if dst_capacity ≤ 1 then (0, PASU_E_NOSPACE, some (d.set 0 0))
        else
          let r := convert (some s) src_len d (dst_capacity - 1)
          let written := if r.1 ≥ dst_capacity then dst_capacity - 1 else r.1
          (written, r.2.1, some (r.2.2.set written 0))

/-- Embedding of `pasu_utf8_to_utf16_cstr`. -/
def pasu_utf8_to_utf16_cstr (src dst : Option (List Nat)) (dst_capacity : Nat) :
    Nat × pasu_status × Option (List Nat) :=
  cstr_convert pasu_utf8_to_utf16 src dst dst_capacity

/-- Embedding of `pasu_utf16_to_utf8_cstr`. -/
def pasu_utf16_to_utf8_cstr (src dst : Option (List Nat)) (dst_capacity : Nat) :
    Nat × pasu_status × Option (List Nat) :=
  cstr_convert pasu_utf16_to_utf8 src dst dst_capacity

/-- Embedding of `pasu_utf8_to_utf32_cstr`. -/
def pasu_utf8_to_utf32_cstr (src dst : Option (List Nat)) (dst_capacity : Nat) :
    Nat × pasu_status × Option (List Nat) :=
  cstr_convert pasu_utf8_to_utf32 src dst dst_capacity

/-- Embedding of `pasu_utf32_to_utf8_cstr`. -/
def pasu_utf32_to_utf8_cstr (src dst : Option (List Nat)) (dst_capacity : Nat) :
    Nat × pasu_status × Option (List Nat) :=
  cstr_convert pasu_utf32_to_utf8 src dst dst_capacity

/-- Embedding of `pasu_utf16_to_utf32_cstr`. -/
def pasu_utf16_to_utf32_cstr (src dst : Option (List Nat)) (dst_capacity : Nat) :
    Nat × pasu_status × Option (List Nat) :=
  cstr_convert pasu_utf16_to_utf32 src dst dst_capacity

/-- Embedding of `pasu_utf32_to_utf16_cstr`. -/
def pasu_utf32_to_utf16_cstr (src dst : Option (List Nat)) (dst_capacity : Nat) :
    Nat × pasu_status × Option (List Nat) :=
  cstr_convert pasu_utf32_to_utf16 src dst dst_capacity

/-! ## Specification of a conversion as a list of produced units -/

/-- Specification-side view of the six converter loops: `step` turns the rest
of the source into `(status, units produced, elements consumed)`, and the loop
appends the units to `out` as long as they fit in `cap`. The state is
`(i, out)`, the result `(out, status)`. -/
def conv_run (step : List Nat → Nat → pasu_status × List Nat × Nat) (src : List Nat)
    (src_len cap : Nat) : Nat → Nat → List Nat → List Nat × pasu_status
  | 0, _, out => (out, PASU_OK)
  | fuel + 1, i, out =>
    if i < src_len then
      let r := step (src.drop i) (src_len - i)
      if r.1 ≠ PASU_OK then (out, r.1)
      else if out.length + r.2.1.length > cap then (out, PASU_E_NOSPACE)
      else conv_run step src src_len cap fuel (i + r.2.2) (out ++ r.2.1)
    else (out, PASU_OK)

/-- Specification-side view of a whole converter call: the units produced and
the status, NULL source included. -/
def conv_top (step : List Nat → Nat → pasu_status × List Nat × Nat)
    (src : Option (List Nat)) (src_len cap : Nat) : List Nat × pasu_status :=
  match src with
  | none => ([], if src_len ≠ 0 then PASU_E_INVALID else PASU_OK)
  | some s => conv_run step s src_len cap src_len 0 []

/-- One iteration of `pasu_utf8_to_utf16`: decode one code point, encode it. -/
def step_8_16 (s : List Nat) (n : Nat) : pasu_status × List Nat × Nat :=
  let d := pasu_utf8_decode (some s) n
  if d.1 ≠ PASU_OK then (d.1, [], d.2.2)
  else ((pasu_utf16_encode d.2.1).1, (pasu_utf16_encode d.2.1).2.1, d.2.2)

/-- One iteration of `pasu_utf16_to_utf8`. -/
def step_16_8 (s : List Nat) (n : Nat) : pasu_status × List Nat × Nat :=
  let d := pasu_utf16_decode (some s) n
  if d.1 ≠ PASU_OK then (d.1, [], d.2.2)
  else ((pasu_utf8_encode d.2.1).1, (pasu_utf8_encode d.2.1).2.1, d.2.2)

/-- One iteration of `pasu_utf8_to_utf32`. -/
def step_8_32 (s : List Nat) (n : Nat) : pasu_status × List Nat × Nat :=
  let d := pasu_utf8_decode (some s) n
  (d.1, [d.2.1], d.2.2)

/-- One iteration of `pasu_utf16_to_utf32`. -/
def step_16_32 (s : List Nat) (n : Nat) : pasu_status × List Nat × Nat :=
  let d := pasu_utf16_decode (some s) n
  (d.1, [d.2.1], d.2.2)

/-- One iteration of `pasu_utf32_to_utf8`. -/
def step_32_8 (s : List Nat) (_n : Nat) : pasu_status × List Nat × Nat :=
  ((pasu_utf8_encode (s.getD 0 0)).1, (pasu_utf8_encode (s.getD 0 0)).2.1, 1)

/-- One iteration of `pasu_utf32_to_utf16`. -/
def step_32_16 (s : List Nat) (_n : Nat) : pasu_status × List Nat × Nat :=
  ((pasu_utf16_encode (s.getD 0 0)).1, (pasu_utf16_encode (s.getD 0 0)).2.1, 1)

/-- Specification-side: the concatenation of the encodings `enc cp` of the
code points of a list, in order. -/
def encode_all (enc : Nat → List Nat) : List Nat → List Nat
  | [] => []
  | cp :: rest => enc cp ++ encode_all enc rest

end PasUnicode

namespace PasZip

/-- Modelled from the spec: `pas_zip.h` is not among the sources. The status
codes of the archive core. The tests name `PAS_ZIP_OK`, `PAS_ZIP_E_INVALID` and
`PAS_ZIP_E_NOSPACE`; the fourth is the spec's "unsupported compression method".
-/
inductive pas_zip_status where
  | PAS_ZIP_OK
  | PAS_ZIP_E_INVALID
  | PAS_ZIP_E_NOSPACE
  | PAS_ZIP_E_UNSUPPORTED
  deriving DecidableEq

open pas_zip_status

/-- Modelled from the spec: `pas_zip.h` is not among the sources. Byte Cursor
(§4.1), 16-bit little-endian write. The field holds 16 bits, so the value is
stored modulo `2^16`. -/
def le16 (v : Nat) : List Nat := [v % 256, v / 256 % 256]

/-- Modelled from the spec: `pas_zip.h` is not among the sources. Byte Cursor
(§4.1), 32-bit little-endian write. -/
def le32 (v : Nat) : List Nat :=
  [v % 256, v / 256 % 256, v / 65536 % 256, v / 16777216 % 256]

/-- Modelled from the spec: `pas_zip.h` is not among the sources. Byte Cursor
(§4.1), 16-bit little-endian read at `off` with an explicit upper bound; an
access whose end would exceed the bound fails closed. -/
def read_u16 (buf : List Nat) (off bound : Nat) : Option Nat :=
  if off + 2 ≤ bound ∧ bound ≤ buf.length then
    some (buf.getD off 0 + 256 * buf.getD (off + 1) 0)
  else none

/-- Modelled from the spec: `pas_zip.h` is not among the sources. Byte Cursor
(§4.1), 32-bit little-endian read. -/
def read_u32 (buf : List Nat) (off bound : Nat) : Option Nat :=
  if off + 4 ≤ bound ∧ bound ≤ buf.length then
    some (buf.getD off 0 + 256 * buf.getD (off + 1) 0 + 65536 * buf.getD (off + 2) 0
          + 16777216 * buf.getD (off + 3) 0)
  else none

/-- Modelled from the spec: `pas_zip.h` is not among the sources. Byte Cursor
(§4.1), bounds-checked view of `len` bytes at `off`. -/
def read_bytes (buf : List Nat) (off len bound : Nat) : Option (List Nat) :=
  if off + len ≤ bound ∧ bound ≤ buf.length then some ((buf.drop off).take len)
  else none

/-- Modelled from the spec: `pas_zip.h` is not among the sources. Byte Cursor
(§4.1), bounds-checked append of `bytes` to the `out` bytes written so far into
a destination of capacity `cap`; a write that would exceed the capacity fails
closed. -/
def emit (cap : Nat) (out bytes : List Nat) : Option (List Nat) :=
  if out.length + bytes.length ≤ cap then some (out ++ bytes) else none

/-- Modelled from the spec: `pas_zip.h` is not among the sources. Signature of
a local file header, bytes `50 4B 03 04` (§6). -/
def LOCAL_SIG : Nat := 0x04034b50

/-- Modelled from the spec: `pas_zip.h` is not among the sources. Signature of
a central directory file header, bytes `50 4B 01 02` (§6). -/
def CENTRAL_SIG : Nat := 0x02014b50

/-- Modelled from the spec: `pas_zip.h` is not among the sources. Signature of
the end-of-central-directory record, bytes `50 4B 05 06` (§6). -/
def EOCD_SIG : Nat := 0x06054b50

/-- Modelled from the spec: `pas_zip.h` is not among the sources. One bit step
of the reflected CRC-32 (polynomial `0xEDB88320`) behind the "computed CRC-32"
of §4.6. -/
def crc32_bit (crc : Nat) : Nat :=
  if crc % 2 = 1 then (crc / 2) ^^^ 0xEDB88320 else crc / 2

/-- Modelled from the spec: `pas_zip.h` is not among the sources. CRC-32 update
with one byte: eight bit steps. -/
def crc32_byte (crc b : Nat) : Nat :=
  crc32_bit (crc32_bit (crc32_bit (crc32_bit (crc32_bit (crc32_bit (crc32_bit
    (crc32_bit (crc ^^^ b))))))))

/-- Modelled from the spec: `pas_zip.h` is not among the sources. The "computed
CRC-32" of a payload (§4.6), the standard ZIP checksum. -/
def crc32 (data : List Nat) : Nat :=
  (data.foldl crc32_byte 0xFFFFFFFF) ^^^ 0xFFFFFFFF

/-- Modelled from the spec: `pas_zip.h` is not among the sources. The 30-byte
local file header (§6, §4.6): signature, version needed, flags, method = store,
time, date, CRC-32, compressed size, uncompressed size, name length, extra
length. -/
def local_header (name payload : List Nat) : List Nat :=
  le32 LOCAL_SIG ++ le16 20 ++ le16 0 ++ le16 0 ++ le16 0 ++ le16 0 ++
  le32 (crc32 payload) ++ le32 payload.length ++ le32 payload.length ++
  le16 name.length ++ le16 0

/-- Modelled from the spec: `pas_zip.h` is not among the sources. The 46-byte
central directory file header (§6, §4.6), mirroring the local header fields
plus the entry's local offset. -/
def central_header (name payload : List Nat) (offset : Nat) : List Nat :=
  le32 CENTRAL_SIG ++ le16 20 ++ le16 20 ++ le16 0 ++ le16 0 ++ le16 0 ++ le16 0 ++
  le32 (crc32 payload) ++ le32 payload.length ++ le32 payload.length ++
  le16 name.length ++ le16 0 ++ le16 0 ++ le16 0 ++ le16 0 ++ le32 0 ++ le32 offset

/-- Modelled from the spec: `pas_zip.h` is not among the sources. The 22-byte
end-of-central-directory record (§6, §4.6): entry count, central-directory size
and offset, empty comment. -/
def eocd_record (count cd_size cd_offset : Nat) : List Nat :=
  le32 EOCD_SIG ++ le16 0 ++ le16 0 ++ le16 count ++ le16 count ++
  le32 cd_size ++ le32 cd_offset ++ le16 0

/-- Modelled from the spec: `pas_zip.h` is not among the sources. Archive
Builder (§4.6), first pass. For each entry, in input order, writes the local
file header, the name and the raw payload, and records the entry's local header
offset. -/
def write_locals (cap : Nat) :
    List (List Nat × List Nat) → List Nat → Option (List Nat × List Nat)
  | [], out => some (out, [])
  | (name, payload) :: rest, out =>
    match emit cap out (local_header name payload) with
    | none => none
    | some out1 =>
      match emit cap out1 name with
      | none => none
      | some out2 =>
        match emit cap out2 payload with
        | none => none
        | some out3 =>
          match write_locals cap rest out3 with
          | none => none
          | some (outN, offs) => some (outN, out.length :: offs)

/-- Modelled from the spec: `pas_zip.h` is not among the sources. Archive
Builder (§4.6), second pass. Writes one central-directory record per entry, in
input order, with the offsets recorded by the first pass. -/
def write_centrals (cap : Nat) :
    List (List Nat × List Nat) → List Nat → List Nat → Option (List Nat)
  | (name, payload) :: rest, off :: offs, out =>
    match emit cap out (central_header name payload off) with
    | none => none
    | some out1 =>
      match emit cap out1 name with
      | none => none
      | some out2 => write_centrals cap rest offs out2
  | _, _, out => some out

/-- Modelled from the spec: `pas_zip.h` is not among the sources. Archive
Builder (§4.6), `pas_zip_create`. `files` are the parallel `names` / `payloads`
/ `sizes` arrays (the size of a payload is its length), `dst_capacity` the
capacity of the destination. The result is `(written, status,
dst[0..written))`. It fails with "insufficient output space" the moment a write
would exceed the capacity and then returns 0; no name length, payload size or
archive size is validated. -/
def pas_zip_create (files : List (List Nat × List Nat)) (dst_capacity : Nat) :
    Nat × pas_zip_status × List Nat :=
  match write_locals dst_capacity files [] with
  | none => (0, PAS_ZIP_E_NOSPACE, [])
  | some (out, offs) =>
    match write_centrals dst_capacity files offs out with
    | none => (0, PAS_ZIP_E_NOSPACE, [])
    | some out2 =>
      match emit dst_capacity out2
          (eocd_record files.length (out2.length - out.length) out.length) with
      | none => (0, PAS_ZIP_E_NOSPACE, [])
      | some out3 => (out3.length, PAS_ZIP_OK, out3)

/-- Specification-side size in bytes of the archive for `files`:
30 + name + payload per local record, 46 + name per central record, and the
22-byte trailer. -/
def archive_size (files : List (List Nat × List Nat)) : Nat :=
  (files.map (fun f => 30 + f.1.length + f.2.length)).sum +
  (files.map (fun f => 46 + f.1.length)).sum + 22

/-- Modelled from the spec: `pas_zip.h` is not among the sources. Entry (§3):
name, compression method, CRC-32, compressed and uncompressed size, local
header offset, and the archive buffer the entry is a view into. -/
structure pas_zip_file_t where
  name : List Nat
  method : Nat
  crc32 : Nat
  comp_size : Nat
  uncomp_size : Nat
  local_offset : Nat
  archive : List Nat
  deriving DecidableEq

/-- Modelled from the spec: `pas_zip.h` is not among the sources. Archive
handle (§3): the caller's buffer plus the entry table. -/
structure pas_zip_t where
  data : List Nat
  entries : List pas_zip_file_t
  num_entries : Nat
  deriving DecidableEq

/-- Modelled from the spec: `pas_zip.h` is not among the sources. EOCD Locator
(§4.2), the backward scan. Tries offset `pos`, then `pos - 1`, ..., for at most
`steps` further offsets, and returns the first (highest) offset holding the
EOCD signature. -/
def eocd_scan (buf : List Nat) : Nat → Nat → Option Nat
  | pos, 0 => if read_u32 buf pos buf.length = some EOCD_SIG then some pos else none
  | pos, steps + 1 =>
    if read_u32 buf pos buf.length = some EOCD_SIG then some pos
    else if pos = 0 then none
    else eocd_scan buf (pos - 1) steps

/-- Modelled from the spec: `pas_zip.h` is not among the sources. EOCD Locator
(§4.2). Fails if `n < 22`; otherwise searches the trailing `22 + 65535` bytes
from the highest possible offset downward. -/
def find_eocd (buf : List Nat) : Option Nat :=
  if buf.length < 22 then none else eocd_scan buf (buf.length - 22) 65535

/-- Modelled from the spec: `pas_zip.h` is not among the sources. Central
Directory Parser (§4.3), one record at `pos`. Validates the signature, reads
the fixed 46-byte header and the name, and rejects a record that runs past the
declared end of the central directory or whose payload range (invariant of §3)
does not lie inside the buffer. Returns the entry and the offset of the next
record. -/
def parse_cd_record (buf : List Nat) (cd_end pos : Nat) : Option (pas_zip_file_t × Nat) :=
  (read_u32 buf pos cd_end).bind fun sig =>
  if sig ≠ CENTRAL_SIG then none
  else
    (read_u16 buf (pos + 10) cd_end).bind fun method =>
    (read_u32 buf (pos + 16) cd_end).bind fun crc =>
    (read_u32 buf (pos + 20) cd_end).bind fun csize =>
    (read_u32 buf (pos + 24) cd_end).bind fun usize =>
    (read_u16 buf (pos + 28) cd_end).bind fun nlen =>
    (read_u16 buf (pos + 30) cd_end).bind fun elen =>
    (read_u16 buf (pos + 32) cd_end).bind fun clen =>
    (read_u32 buf (pos + 42) cd_end).bind fun off =>
    (read_bytes buf (pos + 46) nlen cd_end).bind fun name =>
      if pos + 46 + nlen + elen + clen > cd_end then none
      else if off + 30 + nlen + elen + csize > buf.length then none
      else some ({ name := name, method := method, crc32 := crc, comp_size := csize,
                   uncomp_size := usize, local_offset := off, archive := buf },
                 pos + 46 + nlen + elen + clen)

/-- Modelled from the spec: `pas_zip.h` is not among the sources. Central
Directory Parser (§4.3), the sequential walk from `pos` to the declared end
`cd_end`. `fuel` bounds the number of records; every record is at least 46
bytes long, so `cd_end - pos` is enough. -/
def parse_cd (buf : List Nat) (cd_end : Nat) : Nat → Nat → Option (List pas_zip_file_t)
  | 0, pos => if pos = cd_end then some [] else none
  | fuel + 1, pos =>
    if pos = cd_end then some []
    else
      match parse_cd_record buf cd_end pos with
      | none => none
      | some (e, next) =>
        match parse_cd buf cd_end fuel next with
        | none => none
        | some es => some (e :: es)

/-- Modelled from the spec: `pas_zip.h` is not among the sources. `open` on a
non-null buffer (§4.2, §4.3): locate the EOCD, read the entry count,
central-directory size and offset, walk the central directory, and reject when
the parsed record count disagrees with the declared one. -/
def open_buffer (buf : List Nat) : Option pas_zip_t × pas_zip_status :=
  match find_eocd buf with
  | none => (none, PAS_ZIP_E_INVALID)
  | some e =>
    match read_u16 buf (e + 10) buf.length, read_u32 buf (e + 12) buf.length,
          read_u32 buf (e + 16) buf.length with
    | some count, some cd_size, some cd_off =>
      if cd_off + cd_size > buf.length then (none, PAS_ZIP_E_INVALID)
      else
        match parse_cd buf (cd_off + cd_size) cd_size cd_off with
        | none => (none, PAS_ZIP_E_INVALID)
        | some entries =>
          if entries.length = count then
            (some { data := buf, entries := entries, num_entries := count }, PAS_ZIP_OK)
          else (none, PAS_ZIP_E_INVALID)
    | _, _, _ => (none, PAS_ZIP_E_INVALID)

/-- Modelled from the spec: `pas_zip.h` is not among the sources.
`pas_zip_open(data, size, &status)`. `data` is the buffer pointer (`none` is
NULL) and `size` the number of bytes of it that form the archive. A null buffer
is rejected at the boundary (§7). -/
def pas_zip_open (data : Option (List Nat)) (size : Nat) : Option pas_zip_t × pas_zip_status :=
  match data with
  | none => (none, PAS_ZIP_E_INVALID)
  | some buf => open_buffer (buf.take size)

/-- Modelled from the spec: `pas_zip.h` is not among the sources.
`pas_zip_find` (§4.4): linear scan of the entry table returning the first entry
whose name is byte-for-byte equal. -/
def pas_zip_find (zip : pas_zip_t) (name : List Nat) : Option pas_zip_file_t :=
  zip.entries.find? (fun e => decide (e.name = name))

/-- Modelled from the spec: `pas_zip.h` is not among the sources.
`pas_zip_size` (§6), the uncompressed size. -/
def pas_zip_size (file : pas_zip_file_t) : Nat := file.uncomp_size

/-- Modelled from the spec: `pas_zip.h` is not among the sources.
`pas_zip_is_compressed` (§6): method `0` is store. -/
def pas_zip_is_compressed (file : pas_zip_file_t) : Bool := decide (file.method ≠ 0)

/-- Modelled from the spec: `pas_zip.h` is not among the sources. Extractor
(§4.5), re-validation of the local file header at the entry's recorded offset:
its signature must be right and its declared sizes must match the
central-directory copy. Returns the offset of the payload (right after the
header, the name and the extra field). -/
def check_local_header (file : pas_zip_file_t) : Option Nat :=
  let buf := file.archive
  let off := file.local_offset
  (read_u32 buf off buf.length).bind fun sig =>
  (read_u32 buf (off + 18) buf.length).bind fun csize =>
  (read_u32 buf (off + 22) buf.length).bind fun usize =>
  (read_u16 buf (off + 26) buf.length).bind fun nlen =>
  (read_u16 buf (off + 28) buf.length).bind fun elen =>
    if sig ≠ LOCAL_SIG ∨ csize ≠ file.comp_size ∨ usize ≠ file.uncomp_size then none
    else some (off + 30 + nlen + elen)

/-- Modelled from the spec: `pas_zip.h` is not among the sources. The pluggable
Deflate codec (§4.5, §9), a black box from the compressed bytes, the
destination and its capacity to `(written, status, destination)`. -/
abbrev pas_zip_codec := List Nat → List Nat → Nat → Nat × pas_zip_status × List Nat

/-- Modelled from the spec: `pas_zip.h` is not among the sources. Extractor
(§4.5), `pas_zip_extract`. `codec` is the configured Deflate backend, if any;
`dst` is the destination buffer and `dst_capacity` its capacity. The result is
`(written, status, dst)`. -/
def pas_zip_extract (codec : Option pas_zip_codec) (file : pas_zip_file_t)
    (dst : List Nat) (dst_capacity : Nat) : Nat × pas_zip_status × List Nat :=
  match check_local_header file with
  | none => (0, PAS_ZIP_E_INVALID, dst)
  | some start =>
    if file.method = 0 then
      if dst_capacity < file.uncomp_size then (0, PAS_ZIP_E_NOSPACE, dst)
      else
        match read_bytes file.archive start file.uncomp_size file.archive.length with
        | none => (0, PAS_ZIP_E_INVALID, dst)
        | some bytes => (file.uncomp_size, PAS_ZIP_OK, bytes ++ dst.drop file.uncomp_size)
    else if file.method = 8 then
      match codec with
      | none => (0, PAS_ZIP_E_UNSUPPORTED, dst)
      | some decode =>
        match read_bytes file.archive start file.comp_size file.archive.length with
        | none => (0, PAS_ZIP_E_INVALID, dst)
        | some comp =>
          match decode comp dst dst_capacity with
          | (n, PAS_ZIP_OK, dst1) => (n, PAS_ZIP_OK, dst1)
          | (_, st, dst1) => (0, st, dst1)
    else (0, PAS_ZIP_E_UNSUPPORTED, dst)

/-! ## Layout of the archive written by `pas_zip_create` -/

/-- The local records (header, name, payload) of `files`, concatenated. -/
def local_section : List (List Nat × List Nat) → List Nat
  | [] => []
  | (name, payload) :: rest =>
    local_header name payload ++ (name ++ (payload ++ local_section rest))

/-- The central records of `files`, the first local record being at `off`. -/
def central_section (off : Nat) : List (List Nat × List Nat) → List Nat
  | [] => []
  | (name, payload) :: rest =>
    central_header name payload off ++
      (name ++ central_section (off + 30 + name.length + payload.length) rest)

/-- The local header offsets of `files`, the first local record being at `off`. -/
def local_offsets (off : Nat) : List (List Nat × List Nat) → List Nat
  | [] => []
  | (name, payload) :: rest =>
    off :: local_offsets (off + 30 + name.length + payload.length) rest

/-- The bytes of the archive for `files`: local records, central directory,
end-of-central-directory record. -/
def archive_bytes (files : List (List Nat × List Nat)) : List Nat :=
  local_section files ++ (central_section 0 files ++
    eocd_record files.length (central_section 0 files).length (local_section files).length)

/-- The entry table expected for `files` in the buffer `buf`, the first local
record being at `off`. -/
def entries_of (buf : List Nat) (off : Nat) : List (List Nat × List Nat) → List pas_zip_file_t
  | [] => []
  | (name, payload) :: rest =>
    { name := name, method := 0, crc32 := crc32 payload % 4294967296,
      comp_size := payload.length, uncomp_size := payload.length,
      local_offset := off, archive := buf } ::
      entries_of buf (off + 30 + name.length + payload.length) rest

/-- The range in which every header field holds its value exactly: names
shorter than `2^16` bytes, fewer than `2^16` entries, archive smaller than
`2^32` bytes. -/
def in_range (files : List (List Nat × List Nat)) : Prop :=
  (∀ f ∈ files, f.1.length < 65536) ∧ files.length < 65536 ∧
  archive_size files < 4294967296

/-- The three entries of `tests/pas_zip/test_find.c`: `foo.txt` ↦ `a`,
`bar.bin` ↦ `bb`, `baz` ↦ `ccc`. -/
def test_find_files : List (List Nat × List Nat) :=
  [([102, 111, 111, 46, 116, 120, 116], [97]),
   ([98, 97, 114, 46, 98, 105, 110], [98, 98]),
   ([98, 97, 122], [99, 99, 99])]

/-- The single entry of `tests/pas_zip/test_extract.c`: `test.txt` ↦ `Hello, ZIP!`. -/
def test_extract_files : List (List Nat × List Nat) :=
  [([116, 101, 115, 116, 46, 116, 120, 116], [72, 101, 108, 108, 111, 44, 32, 90, 73, 80, 33])]

/-- A single entry whose name is `2^16` bytes long (65536 times `a`), with an
empty payload. -/
def long_name_files : List (List Nat × List Nat) :=
  [(List.replicate 65536 97, [])]

/-- The archive of the single entry `a` ↦ `01 02 03` with the first byte of
its local file header signature overwritten by 0; the central directory and
the trailer are intact. -/
def corrupt_local_archive : List Nat :=
  [0, 75, 3, 4, 20, 0, 0, 0, 0, 0, 0, 0, 0, 0, 29, 128, 188, 85, 3, 0, 0, 0, 3, 0, 0, 0,
   1, 0, 0, 0, 97, 1, 2, 3,
   80, 75, 1, 2, 20, 0, 20, 0, 0, 0, 0, 0, 0, 0, 0, 0, 29, 128, 188, 85, 3, 0, 0, 0,
   3, 0, 0, 0, 1, 0, 0, 0, 0, 0, 0, 0, 0, 0, 0, 0, 0, 0, 0, 0, 0, 0, 97,
   80, 75, 5, 6, 0, 0, 0, 0, 1, 0, 1, 0, 47, 0, 0, 0, 34, 0, 0, 0, 0, 0]

instance in_range_decidable (files : List (List Nat × List Nat)) : Decidable (in_range files) := by
  unfold in_range
  infer_instance

/-! ## Archives that reach `2^32` bytes -/

end PasZip

/-! # Theorems -/

namespace PasUnicode

open pasu_status

/-! ## Bit-level facts used by the codec proofs -/

theorem and_3F (x : Nat) : x &&& 0x3F = x % 64 := Nat.and_pow_two_sub_one_eq_mod x 6

theorem and_1F (x : Nat) : x &&& 0x1F = x % 32 := Nat.and_pow_two_sub_one_eq_mod x 5

theorem and_0F (x : Nat) : x &&& 0x0F = x % 16 := Nat.and_pow_two_sub_one_eq_mod x 4

theorem and_07 (x : Nat) : x &&& 0x07 = x % 8 := Nat.and_pow_two_sub_one_eq_mod x 3

theorem and_3FF (x : Nat) : x &&& 0x3FF = x % 1024 := Nat.and_pow_two_sub_one_eq_mod x 10

theorem or_80 (q : Nat) (h : q < 64) : 0x80 ||| q = 128 + q :=
  (Nat.mul_add_lt_is_or (show q < 2 ^ 6 from h) 2).symm

theorem or_C0 (q : Nat) (h : q < 32) : 0xC0 ||| q = 192 + q :=
  (Nat.mul_add_lt_is_or (show q < 2 ^ 5 from h) 6).symm

theorem or_E0 (q : Nat) (h : q < 16) : 0xE0 ||| q = 224 + q :=
  (Nat.mul_add_lt_is_or (show q < 2 ^ 4 from h) 14).symm

theorem or_F0 (q : Nat) (h : q < 8) : 0xF0 ||| q = 240 + q :=
  (Nat.mul_add_lt_is_or (show q < 2 ^ 3 from h) 30).symm

theorem shl_or_6 (x y : Nat) (hy : y < 64) : (x <<< 6) ||| y = x * 64 + y := by
  rw [Nat.shiftLeft_eq, Nat.mul_comm x]
  exact (Nat.mul_add_lt_is_or (show y < 2 ^ 6 from hy) x).symm

theorem shl_or_12 (x y z : Nat) (hy : y < 64) (hz : z < 64) :
    (x <<< 12) ||| (y <<< 6) ||| z = x * 4096 + y * 64 + z := by
  have h1 : (x <<< 12) ||| (y <<< 6) = x * 4096 + y * 64 := by
    rw [Nat.shiftLeft_eq, Nat.shiftLeft_eq, Nat.mul_comm x]
    exact (Nat.mul_add_lt_is_or (show y * 2 ^ 6 < 2 ^ 12 by omega) x).symm
  rw [h1]
  have h2 : x * 4096 + y * 64 = 2 ^ 6 * (x * 64 + y) := by omega
  rw [h2]
  exact (Nat.mul_add_lt_is_or (show z < 2 ^ 6 from hz) _).symm

theorem shl_or_18 (x y z w : Nat) (hy : y < 64) (hz : z < 64) (hw : w < 64) :
    (x <<< 18) ||| (y <<< 12) ||| (z <<< 6) ||| w
      = x * 262144 + y * 4096 + z * 64 + w := by
  have h1 : (x <<< 18) ||| (y <<< 12) = x * 262144 + y * 4096 := by
    rw [Nat.shiftLeft_eq, Nat.shiftLeft_eq, Nat.mul_comm x]
    exact (Nat.mul_add_lt_is_or (show y * 2 ^ 12 < 2 ^ 18 by omega) x).symm
  rw [h1]
  have h2 : x * 262144 + y * 4096 = 2 ^ 12 * (x * 64 + y) := by omega
  have h3 : (z <<< 6) = z * 64 := Nat.shiftLeft_eq z 6
  rw [h2, h3]
  have h4 : 2 ^ 12 * (x * 64 + y) ||| z * 64 = 2 ^ 12 * (x * 64 + y) + z * 64 :=
    (Nat.mul_add_lt_is_or (show z * 64 < 2 ^ 12 by omega) _).symm
  rw [h4]
  have h5 : 2 ^ 12 * (x * 64 + y) + z * 64 = 2 ^ 6 * (x * 4096 + y * 64 + z) := by omega
  rw [h5]
  have h6 := (Nat.mul_add_lt_is_or (show w < 2 ^ 6 from hw) (x * 4096 + y * 64 + z)).symm
  rw [h6]

set_option maxRecDepth 100000 in
theorem byte_cont (b : Nat) (h : b < 256) : (b &&& 0xC0 = 0x80) ↔ (128 ≤ b ∧ b < 192) := by
  revert b; decide

set_option maxRecDepth 100000 in
theorem byte_lead2 (b : Nat) (h : b < 256) : (b &&& 0xE0 = 0xC0) ↔ (192 ≤ b ∧ b < 224) := by
  revert b; decide

set_option maxRecDepth 100000 in
theorem byte_lead3 (b : Nat) (h : b < 256) : (b &&& 0xF0 = 0xE0) ↔ (224 ≤ b ∧ b < 240) := by
  revert b; decide

set_option maxRecDepth 100000 in
theorem byte_lead4 (b : Nat) (h : b < 256) : (b &&& 0xF8 = 0xF0) ↔ (240 ≤ b ∧ b < 248) := by
  revert b; decide

theorem valid_scalar_iff (cp : Nat) :
    pasu_is_valid_scalar cp = true ↔ (cp ≤ 0x10FFFF ∧ ¬ (0xD800 ≤ cp ∧ cp ≤ 0xDFFF)) := by
  unfold pasu_is_valid_scalar
  split_ifs <;> simp <;> omega

theorem utf8_encode_decode_1 (cp : Nat) (t : List Nat) (h : cp < 0x80) :
    pasu_utf8_encode cp = (PASU_OK, [cp], 1) ∧
    pasu_utf8_decode (some ([cp] ++ t)) ([cp] ++ t).length = (PASU_OK, cp, 1) := by
  have hv : pasu_is_valid_scalar cp = true := (valid_scalar_iff cp).2 (by omega)
  constructor
  · simp only [pasu_utf8_encode, hv]
    have : cp % 256 = cp := by omega
    simp [h, this]
  · simp [pasu_utf8_decode, h]

theorem utf8_encode_decode_2 (cp : Nat) (t : List Nat) (h1 : 0x80 ≤ cp) (h2 : cp < 0x800) :
    ∃ b0 b1, pasu_utf8_encode cp = (PASU_OK, [b0, b1], 2) ∧
    pasu_utf8_decode (some ([b0, b1] ++ t)) ([b0, b1] ++ t).length = (PASU_OK, cp, 2) := by
  have hv : pasu_is_valid_scalar cp = true := (valid_scalar_iff cp).2 (by omega)
  have e0 : (0xC0 ||| (cp >>> 6)) % 256 = 192 + cp / 64 := by
    rw [Nat.shiftRight_eq_div_pow, or_C0 _ (by omega)]; omega
  have e1 : (0x80 ||| (cp &&& 0x3F)) % 256 = 128 + cp % 64 := by
    rw [and_3F, or_80 _ (by omega)]; omega
  refine ⟨192 + cp / 64, 128 + cp % 64, ?_, ?_⟩
  · simp only [pasu_utf8_encode, hv, e0, e1]
    simp [show ¬ cp < 0x80 by omega, h2]
  · have c0 : (192 + cp / 64) &&& 0xE0 = 0xC0 :=
      (byte_lead2 _ (by omega)).2 (by omega)
    have c1 : (128 + cp % 64) &&& 0xC0 = 0x80 :=
      (byte_cont _ (by omega)).2 (by omega)
    have d : (((192 + cp / 64) &&& 0x1F) <<< 6) ||| ((128 + cp % 64) &&& 0x3F) = cp := by
      rw [and_1F, and_3F, shl_or_6 _ _ (by omega)]; omega
    simp only [pasu_utf8_decode, List.cons_append, List.nil_append, List.length_cons,
      List.getD_cons_zero, List.getD_cons_succ, c0, c1, d, hv]
    simp [show ¬ (192 + cp / 64 < 128) by omega, show ¬ cp < 128 by omega]

theorem utf8_encode_decode_3 (cp : Nat) (t : List Nat) (h1 : 0x800 ≤ cp) (h2 : cp < 0x10000)
    (hv : pasu_is_valid_scalar cp = true) :
    ∃ b0 b1 b2, pasu_utf8_encode cp = (PASU_OK, [b0, b1, b2], 3) ∧
    pasu_utf8_decode (some ([b0, b1, b2] ++ t)) ([b0, b1, b2] ++ t).length
      = (PASU_OK, cp, 3) := by
  have e0 : (0xE0 ||| (cp >>> 12)) % 256 = 224 + cp / 4096 := by
    rw [Nat.shiftRight_eq_div_pow, or_E0 _ (by omega)]; omega
  have e1 : (0x80 ||| ((cp >>> 6) &&& 0x3F)) % 256 = 128 + cp / 64 % 64 := by
    rw [Nat.shiftRight_eq_div_pow, and_3F, or_80 _ (by omega)]; omega
  have e2 : (0x80 ||| (cp &&& 0x3F)) % 256 = 128 + cp % 64 := by
    rw [and_3F, or_80 _ (by omega)]; omega
  refine ⟨224 + cp / 4096, 128 + cp / 64 % 64, 128 + cp % 64, ?_, ?_⟩
  · simp only [pasu_utf8_encode, hv, e0, e1, e2]
    simp [show ¬ cp < 0x80 by omega, show ¬ cp < 0x800 by omega, h2]
  · have n0 : ¬ ((224 + cp / 4096) &&& 0xE0 = 0xC0) := fun h =>
      absurd ((byte_lead2 _ (by omega)).1 h) (by omega)
    have c0 : (224 + cp / 4096) &&& 0xF0 = 0xE0 :=
      (byte_lead3 _ (by omega)).2 (by omega)
    have c1 : (128 + cp / 64 % 64) &&& 0xC0 = 0x80 :=
      (byte_cont _ (by omega)).2 (by omega)
    have c2 : (128 + cp % 64) &&& 0xC0 = 0x80 :=
      (byte_cont _ (by omega)).2 (by omega)
    have d : (((224 + cp / 4096) &&& 0x0F) <<< 12) |||
        (((128 + cp / 64 % 64) &&& 0x3F) <<< 6) ||| ((128 + cp % 64) &&& 0x3F) = cp := by
      rw [and_0F, and_3F, and_3F, shl_or_12 _ _ _ (by omega) (by omega)]; omega
    simp only [pasu_utf8_decode, List.cons_append, List.nil_append, List.length_cons,
      List.getD_cons_zero, List.getD_cons_succ, n0, c0, c1, c2, d, hv]
    simp [show ¬ (224 + cp / 4096 < 128) by omega, show ¬ cp < 2048 by omega]

theorem utf8_encode_decode_4 (cp : Nat) (t : List Nat) (h1 : 0x10000 ≤ cp)
    (h2 : cp ≤ 0x10FFFF) :
    ∃ b0 b1 b2 b3, pasu_utf8_encode cp = (PASU_OK, [b0, b1, b2, b3], 4) ∧
    pasu_utf8_decode (some ([b0, b1, b2, b3] ++ t)) ([b0, b1, b2, b3] ++ t).length
      = (PASU_OK, cp, 4) := by
  have hv : pasu_is_valid_scalar cp = true := (valid_scalar_iff cp).2 (by omega)
  have e0 : (0xF0 ||| (cp >>> 18)) % 256 = 240 + cp / 262144 := by
    rw [Nat.shiftRight_eq_div_pow, or_F0 _ (by omega)]; omega
  have e1 : (0x80 ||| ((cp >>> 12) &&& 0x3F)) % 256 = 128 + cp / 4096 % 64 := by
    rw [Nat.shiftRight_eq_div_pow, and_3F, or_80 _ (by omega)]; omega
  have e2 : (0x80 ||| ((cp >>> 6) &&& 0x3F)) % 256 = 128 + cp / 64 % 64 := by
    rw [Nat.shiftRight_eq_div_pow, and_3F, or_80 _ (by omega)]; omega
  have e3 : (0x80 ||| (cp &&& 0x3F)) % 256 = 128 + cp % 64 := by
    rw [and_3F, or_80 _ (by omega)]; omega
  refine ⟨240 + cp / 262144, 128 + cp / 4096 % 64, 128 + cp / 64 % 64, 128 + cp % 64, ?_, ?_⟩
  · simp only [pasu_utf8_encode, hv, e0, e1, e2, e3]
    simp [show ¬ cp < 0x80 by omega, show ¬ cp < 0x800 by omega,
      show ¬ cp < 0x10000 by omega]
  · have n0 : ¬ ((240 + cp / 262144) &&& 0xE0 = 0xC0) := fun h =>
      absurd ((byte_lead2 _ (by omega)).1 h) (by omega)
    have n1 : ¬ ((240 + cp / 262144) &&& 0xF0 = 0xE0) := fun h =>
      absurd ((byte_lead3 _ (by omega)).1 h) (by omega)
    have c0 : (240 + cp / 262144) &&& 0xF8 = 0xF0 :=
      (byte_lead4 _ (by omega)).2 (by omega)
    have c1 : (128 + cp / 4096 % 64) &&& 0xC0 = 0x80 :=
      (byte_cont _ (by omega)).2 (by omega)
    have c2 : (128 + cp / 64 % 64) &&& 0xC0 = 0x80 :=
      (byte_cont _ (by omega)).2 (by omega)
    have c3 : (128 + cp % 64) &&& 0xC0 = 0x80 :=
      (byte_cont _ (by omega)).2 (by omega)
    have d : (((240 + cp / 262144) &&& 0x07) <<< 18) |||
        (((128 + cp / 4096 % 64) &&& 0x3F) <<< 12) |||
        (((128 + cp / 64 % 64) &&& 0x3F) <<< 6) ||| ((128 + cp % 64) &&& 0x3F) = cp := by
      rw [and_07, and_3F, and_3F, and_3F,
        shl_or_18 _ _ _ _ (by omega) (by omega) (by omega)]; omega
    simp only [pasu_utf8_decode, List.cons_append, List.nil_append, List.length_cons,
      List.getD_cons_zero, List.getD_cons_succ, n0, n1, c0, c1, c2, c3, d, hv]
    simp [show ¬ (240 + cp / 262144 < 128) by omega, show ¬ cp < 65536 by omega]

/-- C2. UTF-8 round trip, encode then decode: for every valid Unicode scalar
value `cp` and every sequence `t` of trailing bytes, `pasu_utf8_encode cp`
returns `PASU_OK` with `n` bytes `b` (and `1 ≤ n ≤ 4`), and `pasu_utf8_decode`
on `b ++ t` returns `PASU_OK` with `*out = cp` and `*used = n`. -/
theorem utf8_encode_then_decode (cp : Nat) (t : List Nat)
    (hv : pasu_is_valid_scalar cp = true) :
    ∃ b : List Nat,
      pasu_utf8_encode cp = (PASU_OK, b, b.length) ∧
      1 ≤ b.length ∧ b.length ≤ 4 ∧
      pasu_utf8_decode (some (b ++ t)) (b ++ t).length = (PASU_OK, cp, b.length) := by
  have hr := (valid_scalar_iff cp).1 hv
  by_cases h1 : cp < 0x80
  · obtain ⟨he, hd⟩ := utf8_encode_decode_1 cp t h1
    exact ⟨[cp], he, by simp, by simp, hd⟩
  · by_cases h2 : cp < 0x800
    · obtain ⟨b0, b1, he, hd⟩ := utf8_encode_decode_2 cp t (by omega) h2
      exact ⟨[b0, b1], he, by simp, by simp, hd⟩
    · by_cases h3 : cp < 0x10000
      · obtain ⟨b0, b1, b2, he, hd⟩ := utf8_encode_decode_3 cp t (by omega) h3 hv
        exact ⟨[b0, b1, b2], he, by simp, by simp, hd⟩
      · obtain ⟨b0, b1, b2, b3, he, hd⟩ := utf8_encode_decode_4 cp t (by omega) hr.1
        exact ⟨[b0, b1, b2, b3], he, by simp, by simp, hd⟩

/-- Witness for C2 at U+20AC (three bytes) followed by one trailing byte. -/
theorem utf8_encode_then_decode_witness :
    pasu_is_valid_scalar 0x20AC = true ∧
    ∃ b : List Nat,
      pasu_utf8_encode 0x20AC = (PASU_OK, b, b.length) ∧
      1 ≤ b.length ∧ b.length ≤ 4 ∧
      pasu_utf8_decode (some (b ++ [0x41])) (b ++ [0x41]).length
        = (PASU_OK, 0x20AC, b.length) :=
  ⟨by decide, utf8_encode_then_decode 0x20AC [0x41] (by decide)⟩

theorem utf8_canon_2 (b0 b1 : Nat) (h0 : b0 < 256) (h1 : b1 < 256)
    (c0 : b0 &&& 0xE0 = 0xC0) (c1 : b1 &&& 0xC0 = 0x80)
    (hge : ¬ (((b0 &&& 0x1F) <<< 6) ||| (b1 &&& 0x3F)) < 0x80) :
    pasu_is_valid_scalar (((b0 &&& 0x1F) <<< 6) ||| (b1 &&& 0x3F)) = true ∧
    pasu_utf8_encode (((b0 &&& 0x1F) <<< 6) ||| (b1 &&& 0x3F)) = (PASU_OK, [b0, b1], 2) := by
  have r0 := (byte_lead2 b0 h0).1 c0
  have r1 := (byte_cont b1 h1).1 c1
  have d : ((b0 &&& 0x1F) <<< 6) ||| (b1 &&& 0x3F) = b0 % 32 * 64 + b1 % 64 := by
    rw [and_1F, and_3F, shl_or_6 _ _ (by omega)]
  rw [d] at hge ⊢
  generalize hcp : b0 % 32 * 64 + b1 % 64 = cp at hge ⊢
  have hv : pasu_is_valid_scalar cp = true := (valid_scalar_iff cp).2 (by omega)
  have e0 : (0xC0 ||| (cp >>> 6)) % 256 = b0 := by
    rw [Nat.shiftRight_eq_div_pow, or_C0 _ (by omega)]; omega
  have e1 : (0x80 ||| (cp &&& 0x3F)) % 256 = b1 := by
    rw [and_3F, or_80 _ (by omega)]; omega
  refine ⟨hv, ?_⟩
  simp only [pasu_utf8_encode, hv, e0, e1]
  simp [show ¬ cp < 0x80 by omega, show cp < 0x800 by omega]

theorem utf8_canon_3 (b0 b1 b2 : Nat) (h0 : b0 < 256) (h1 : b1 < 256) (h2 : b2 < 256)
    (c0 : b0 &&& 0xF0 = 0xE0) (c1 : b1 &&& 0xC0 = 0x80) (c2 : b2 &&& 0xC0 = 0x80)
    (hge : ¬ (((b0 &&& 0x0F) <<< 12) ||| ((b1 &&& 0x3F) <<< 6) ||| (b2 &&& 0x3F)) < 0x800)
    (hv : pasu_is_valid_scalar
      (((b0 &&& 0x0F) <<< 12) ||| ((b1 &&& 0x3F) <<< 6) ||| (b2 &&& 0x3F)) = true) :
    pasu_utf8_encode (((b0 &&& 0x0F) <<< 12) ||| ((b1 &&& 0x3F) <<< 6) ||| (b2 &&& 0x3F))
      = (PASU_OK, [b0, b1, b2], 3) := by
  have r0 := (byte_lead3 b0 h0).1 c0
  have r1 := (byte_cont b1 h1).1 c1
  have r2 := (byte_cont b2 h2).1 c2
  have d : ((b0 &&& 0x0F) <<< 12) ||| ((b1 &&& 0x3F) <<< 6) ||| (b2 &&& 0x3F)
      = b0 % 16 * 4096 + b1 % 64 * 64 + b2 % 64 := by
    rw [and_0F, and_3F, and_3F, shl_or_12 _ _ _ (by omega) (by omega)]
  rw [d] at hge hv ⊢
  generalize hcp : b0 % 16 * 4096 + b1 % 64 * 64 + b2 % 64 = cp at hge hv ⊢
  have e0 : (0xE0 ||| (cp >>> 12)) % 256 = b0 := by
    rw [Nat.shiftRight_eq_div_pow, or_E0 _ (by omega)]; omega
  have e1 : (0x80 ||| ((cp >>> 6) &&& 0x3F)) % 256 = b1 := by
    rw [Nat.shiftRight_eq_div_pow, and_3F, or_80 _ (by omega)]; omega
  have e2 : (0x80 ||| (cp &&& 0x3F)) % 256 = b2 := by
    rw [and_3F, or_80 _ (by omega)]; omega
  simp only [pasu_utf8_encode, hv, e0, e1, e2]
  simp [show ¬ cp < 0x80 by omega, show ¬ cp < 0x800 by omega, show cp < 0x10000 by omega]

theorem utf8_canon_4 (b0 b1 b2 b3 : Nat) (h0 : b0 < 256) (h1 : b1 < 256) (h2 : b2 < 256)
    (h3 : b3 < 256)
    (c0 : b0 &&& 0xF8 = 0xF0) (c1 : b1 &&& 0xC0 = 0x80) (c2 : b2 &&& 0xC0 = 0x80)
    (c3 : b3 &&& 0xC0 = 0x80)
    (hge : ¬ (((b0 &&& 0x07) <<< 18) ||| ((b1 &&& 0x3F) <<< 12) |||
              ((b2 &&& 0x3F) <<< 6) ||| (b3 &&& 0x3F)) < 0x10000)
    (hv : pasu_is_valid_scalar
      (((b0 &&& 0x07) <<< 18) ||| ((b1 &&& 0x3F) <<< 12) |||
              ((b2 &&& 0x3F) <<< 6) ||| (b3 &&& 0x3F)) = true) :
    pasu_utf8_encode (((b0 &&& 0x07) <<< 18) ||| ((b1 &&& 0x3F) <<< 12) |||
              ((b2 &&& 0x3F) <<< 6) ||| (b3 &&& 0x3F))
      = (PASU_OK, [b0, b1, b2, b3], 4) := by
  have r0 := (byte_lead4 b0 h0).1 c0
  have r1 := (byte_cont b1 h1).1 c1
  have r2 := (byte_cont b2 h2).1 c2
  have r3 := (byte_cont b3 h3).1 c3
  have d : ((b0 &&& 0x07) <<< 18) ||| ((b1 &&& 0x3F) <<< 12) |||
              ((b2 &&& 0x3F) <<< 6) ||| (b3 &&& 0x3F)
      = b0 % 8 * 262144 + b1 % 64 * 4096 + b2 % 64 * 64 + b3 % 64 := by
    rw [and_07, and_3F, and_3F, and_3F, shl_or_18 _ _ _ _ (by omega) (by omega) (by omega)]
  rw [d] at hge hv ⊢
  generalize hcp : b0 % 8 * 262144 + b1 % 64 * 4096 + b2 % 64 * 64 + b3 % 64 = cp
    at hge hv ⊢
  have hr := (valid_scalar_iff cp).1 hv
  have e0 : (0xF0 ||| (cp >>> 18)) % 256 = b0 := by
    rw [Nat.shiftRight_eq_div_pow, or_F0 _ (by omega)]; omega
  have e1 : (0x80 ||| ((cp >>> 12) &&& 0x3F)) % 256 = b1 := by
    rw [Nat.shiftRight_eq_div_pow, and_3F, or_80 _ (by omega)]; omega
  have e2 : (0x80 ||| ((cp >>> 6) &&& 0x3F)) % 256 = b2 := by
    rw [Nat.shiftRight_eq_div_pow, and_3F, or_80 _ (by omega)]; omega
  have e3 : (0x80 ||| (cp &&& 0x3F)) % 256 = b3 := by
    rw [and_3F, or_80 _ (by omega)]; omega
  simp only [pasu_utf8_encode, hv, e0, e1, e2, e3]
  simp [show ¬ cp < 0x80 by omega, show ¬ cp < 0x800 by omega, show ¬ cp < 0x10000 by omega]

theorem getD_lt_of_all (buf : List Nat) (B i : Nat) (hB : 0 < B) (hb : ∀ b ∈ buf, b < B) :
    buf.getD i 0 < B := by
  by_cases h : i < buf.length
  · rw [List.getD_eq_getElem _ _ h]
    exact hb _ (List.getElem_mem h)
  · rw [List.getD_eq_default _ _ (by omega)]
    exact hB

theorem take_one_getD (buf : List Nat) (h : 1 ≤ buf.length) :
    buf.take 1 = [buf.getD 0 0] := by
  rcases buf with _ | ⟨b0, r⟩
  · simp at h
  · simp

theorem take_two_getD (buf : List Nat) (h : 2 ≤ buf.length) :
    buf.take 2 = [buf.getD 0 0, buf.getD 1 0] := by
  rcases buf with _ | ⟨b0, _ | ⟨b1, r⟩⟩
  · simp at h
  · simp at h
  · simp

theorem take_three_getD (buf : List Nat) (h : 3 ≤ buf.length) :
    buf.take 3 = [buf.getD 0 0, buf.getD 1 0, buf.getD 2 0] := by
  rcases buf with _ | ⟨b0, _ | ⟨b1, _ | ⟨b2, r⟩⟩⟩
  · simp at h
  · simp at h
  · simp at h
  · simp

theorem take_four_getD (buf : List Nat) (h : 4 ≤ buf.length) :
    buf.take 4 = [buf.getD 0 0, buf.getD 1 0, buf.getD 2 0, buf.getD 3 0] := by
  rcases buf with _ | ⟨b0, _ | ⟨b1, _ | ⟨b2, _ | ⟨b3, r⟩⟩⟩⟩
  · simp at h
  · simp at h
  · simp at h
  · simp at h
  · simp

set_option maxHeartbeats 400000 in
theorem utf8_canon_cases (buf : List Nat) (len cp n : Nat)
    (hb : ∀ b ∈ buf, b < 256) (hlen : len ≤ buf.length)
    (hd : pasu_utf8_decode (some buf) len = (PASU_OK, cp, n)) :
    pasu_is_valid_scalar cp = true ∧ pasu_utf8_encode cp = (PASU_OK, buf.take n, n) := by
  have g0 := getD_lt_of_all buf 256 0 (by omega) hb
  have g1 := getD_lt_of_all buf 256 1 (by omega) hb
  have g2 := getD_lt_of_all buf 256 2 (by omega) hb
  have g3 := getD_lt_of_all buf 256 3 (by omega) hb
  unfold pasu_utf8_decode at hd
  simp only at hd
  split_ifs at hd with hl0 a1 a2 a3 a4 a5 a6 a7 a8 a9 a10 a11 a12 a13 a14 a15 a16 a17 a18 a19
  all_goals first
    | (exfalso; simp at hd; done)
    | skip
  · -- one byte
    obtain ⟨h1, h2⟩ : buf.getD 0 0 = cp ∧ 1 = n := by simpa using hd
    subst h1 h2
    rw [take_one_getD buf (by omega)]
    have hv : pasu_is_valid_scalar (buf.getD 0 0) = true :=
      (valid_scalar_iff _).2 (by omega)
    exact ⟨hv, (utf8_encode_decode_1 _ [] a1).1⟩
  · -- two bytes
    obtain ⟨h1, h2⟩ :
        (buf.getD 0 0 &&& 31) <<< 6 ||| buf.getD 1 0 &&& 63 = cp ∧ 2 = n := by
      simpa using hd
    subst h1 h2
    rw [take_two_getD buf (by omega)]
    exact utf8_canon_2 _ _ g0 g1 a2 (by simpa using a4) a5
  · -- three bytes
    obtain ⟨h1, h2⟩ :
        (buf.getD 0 0 &&& 15) <<< 12 ||| (buf.getD 1 0 &&& 63) <<< 6 |||
          buf.getD 2 0 &&& 63 = cp ∧ 3 = n := by
      simpa using hd
    subst h1 h2
    rw [take_three_getD buf (by omega)]
    have hv := Bool.eq_true_of_not_eq_false a12
    have c12 : buf.getD 1 0 &&& 192 = 128 ∧ buf.getD 2 0 &&& 192 = 128 := by
      simpa [not_or] using a10
    exact ⟨hv, utf8_canon_3 _ _ _ g0 g1 g2 a7 c12.1 c12.2 a11 hv⟩
  · -- four bytes
    obtain ⟨h1, h2⟩ :
        (buf.getD 0 0 &&& 7) <<< 18 ||| (buf.getD 1 0 &&& 63) <<< 12 |||
          (buf.getD 2 0 &&& 63) <<< 6 ||| buf.getD 3 0 &&& 63 = cp ∧ 4 = n := by
      simpa using hd
    subst h1 h2
    rw [take_four_getD buf (by omega)]
    have hv := Bool.eq_true_of_not_eq_false a19
    have c123 : buf.getD 1 0 &&& 192 = 128 ∧ buf.getD 2 0 &&& 192 = 128 ∧
        buf.getD 3 0 &&& 192 = 128 := by
      simpa [not_or] using a17
    exact ⟨hv, utf8_canon_4 _ _ _ _ g0 g1 g2 g3 a13 c123.1 c123.2.1 c123.2.2 a18 hv⟩

/-- C3. UTF-8 decoding accepts only the canonical (shortest-form) encoding: for
every byte buffer (all elements below 256, `len` within the buffer) on which
`pasu_utf8_decode` returns `PASU_OK` with code point `cp` and `*used = n`, `cp`
is a valid Unicode scalar value and `pasu_utf8_encode cp` returns `PASU_OK`
and produces exactly the first `n` bytes of the buffer. -/
theorem utf8_decode_canonical (buf : List Nat) (len cp n : Nat)
    (hb : ∀ b ∈ buf, b < 256) (hlen : len ≤ buf.length)
    (hd : pasu_utf8_decode (some buf) len = (PASU_OK, cp, n)) :
    pasu_is_valid_scalar cp = true ∧ pasu_utf8_encode cp = (PASU_OK, buf.take n, n) :=
  utf8_canon_cases buf len cp n hb hlen hd

/-- Witness for C3 on the buffer `E2 82 AC 41` (U+20AC followed by `A`). -/
theorem utf8_decode_canonical_witness :
    pasu_is_valid_scalar 0x20AC = true ∧
    pasu_utf8_encode 0x20AC = (PASU_OK, [0xE2, 0x82, 0xAC, 0x41].take 3, 3) :=
  utf8_decode_canonical [0xE2, 0x82, 0xAC, 0x41] 4 0x20AC 3 (by decide) (by decide)
    (by decide)

theorem utf16_decode_pair (w1 w2 : Nat) (t : List Nat)
    (h1 : 0xD800 ≤ w1 ∧ w1 ≤ 0xDBFF) (h2 : 0xDC00 ≤ w2 ∧ w2 ≤ 0xDFFF)
    (hv : pasu_is_valid_scalar (0x10000 + ((w1 - 0xD800) <<< 10) + (w2 - 0xDC00)) = true) :
    pasu_utf16_decode (some (w1 :: w2 :: t)) (w1 :: w2 :: t).length
      = (PASU_OK, 0x10000 + ((w1 - 0xD800) <<< 10) + (w2 - 0xDC00), 2) := by
  unfold pasu_utf16_decode
  simp only [List.getD_cons_zero, List.getD_cons_succ, List.length_cons]
  rw [if_neg (by omega), if_neg (by omega), if_neg (by omega), if_neg (by omega),
    if_neg (by omega), if_neg (by simp [hv])]

theorem utf16_encode_decode (cp : Nat) (t : List Nat)
    (hv : pasu_is_valid_scalar cp = true) :
    ∃ u : List Nat,
      pasu_utf16_encode cp = (PASU_OK, u, u.length) ∧
      (u.length = 1 ∨ u.length = 2) ∧
      pasu_utf16_decode (some (u ++ t)) (u ++ t).length = (PASU_OK, cp, u.length) := by
  have hr := (valid_scalar_iff cp).1 hv
  by_cases h1 : cp < 0x10000
  · refine ⟨[cp], ?_, Or.inl rfl, ?_⟩
    · have : cp % 65536 = cp := by omega
      simp only [pasu_utf16_encode, hv]
      simp [h1, this]
    · have hc : cp < 0xD800 ∨ cp > 0xDFFF := by omega
      simp only [pasu_utf16_decode, List.cons_append, List.nil_append, List.length_cons,
        List.getD_cons_zero, hv]
      simp [hc]
  · have e0 : (0xD800 + ((cp - 0x10000) >>> 10)) % 65536 = 0xD800 + (cp - 0x10000) / 1024 := by
      rw [Nat.shiftRight_eq_div_pow]; omega
    have e1 : (0xDC00 + ((cp - 0x10000) &&& 0x3FF)) % 65536 = 0xDC00 + (cp - 0x10000) % 1024 := by
      rw [and_3FF]; omega
    have d : 0x10000 + ((0xD800 + (cp - 0x10000) / 1024 - 0xD800) <<< 10)
        + (0xDC00 + (cp - 0x10000) % 1024 - 0xDC00) = cp := by
      rw [Nat.shiftLeft_eq]; omega
    refine ⟨[0xD800 + (cp - 0x10000) / 1024, 0xDC00 + (cp - 0x10000) % 1024], ?_,
      Or.inr rfl, ?_⟩
    · simp only [pasu_utf16_encode, hv, e0, e1]
      simp [h1]
    · have hv2 : pasu_is_valid_scalar (0x10000 +
          ((0xD800 + (cp - 0x10000) / 1024 - 0xD800) <<< 10) +
          (0xDC00 + (cp - 0x10000) % 1024 - 0xDC00)) = true := by
        rw [d]; exact hv
      have hp := utf16_decode_pair (0xD800 + (cp - 0x10000) / 1024)
        (0xDC00 + (cp - 0x10000) % 1024) t (by omega) (by omega) hv2
      rw [d] at hp
      exact hp

theorem utf16_decode_encode (s : List Nat) (len cp n : Nat)
    (hs : ∀ u ∈ s, u < 65536) (hlen : len ≤ s.length)
    (hd : pasu_utf16_decode (some s) len = (PASU_OK, cp, n)) :
    pasu_utf16_encode cp = (PASU_OK, s.take n, n) := by
  have g0 := getD_lt_of_all s 65536 0 (by omega) hs
  have g1 := getD_lt_of_all s 65536 1 (by omega) hs
  unfold pasu_utf16_decode at hd
  simp only at hd
  split_ifs at hd with hl0 a1 a2 a3 a4 a5 a6
  all_goals first
    | (exfalso; simp at hd; done)
    | skip
  · obtain ⟨h1, h2⟩ : s.getD 0 0 = cp ∧ 1 = n := by simpa using hd
    subst h1 h2
    rw [take_one_getD s (by omega)]
    have hv := Bool.eq_true_of_not_eq_false a2
    generalize s.getD 0 0 = w at *
    have : w % 65536 = w := by omega
    simp only [pasu_utf16_encode, hv]
    simp [g0, this]
  · obtain ⟨h1, h2⟩ :
        0x10000 + ((s.getD 0 0 - 0xD800) <<< 10) + (s.getD 1 0 - 0xDC00) = cp ∧ 2 = n := by
      simpa using hd
    subst h1 h2
    rw [take_two_getD s (by omega)]
    have hv := Bool.eq_true_of_not_eq_false a6
    generalize s.getD 0 0 = w1 at *
    generalize s.getD 1 0 = w2 at *
    rw [Nat.shiftLeft_eq] at hv ⊢
    generalize hcp : 0x10000 + (w1 - 0xD800) * 2 ^ 10 + (w2 - 0xDC00) = c at hv ⊢
    have e0 : (0xD800 + ((c - 0x10000) >>> 10)) % 65536 = w1 := by
      rw [Nat.shiftRight_eq_div_pow]; omega
    have e1 : (0xDC00 + ((c - 0x10000) &&& 0x3FF)) % 65536 = w2 := by
      rw [and_3FF]; omega
    simp only [pasu_utf16_encode, hv, e0, e1]
    simp [show ¬ c < 0x10000 by omega]

/-- C4. UTF-16 round trip. Encode then decode: for every valid Unicode scalar
value `cp` and every sequence `t` of trailing units, `pasu_utf16_encode cp`
returns `PASU_OK` with `n` units `u` (`n = 1` or `n = 2`) and
`pasu_utf16_decode` on `u ++ t` returns `PASU_OK` with `*out = cp` and
`*used = n`. Decode then encode: whenever `pasu_utf16_decode` returns `PASU_OK`
with `(cp, n)` on a buffer of 16-bit units, `pasu_utf16_encode cp` yields
exactly the first `n` units of the input. -/
theorem utf16_round_trip :
    (∀ (cp : Nat) (t : List Nat), pasu_is_valid_scalar cp = true →
      ∃ u : List Nat,
        pasu_utf16_encode cp = (PASU_OK, u, u.length) ∧
        (u.length = 1 ∨ u.length = 2) ∧
        pasu_utf16_decode (some (u ++ t)) (u ++ t).length = (PASU_OK, cp, u.length)) ∧
    (∀ (s : List Nat) (len cp n : Nat), (∀ u ∈ s, u < 65536) → len ≤ s.length →
      pasu_utf16_decode (some s) len = (PASU_OK, cp, n) →
      pasu_utf16_encode cp = (PASU_OK, s.take n, n)) :=
  ⟨utf16_encode_decode, utf16_decode_encode⟩

/-- Witness for C4 at U+1F600 (a surrogate pair) in both directions. -/
theorem utf16_round_trip_witness :
    (∃ u : List Nat,
        pasu_utf16_encode 0x1F600 = (PASU_OK, u, u.length) ∧
        (u.length = 1 ∨ u.length = 2) ∧
        pasu_utf16_decode (some (u ++ [0x41])) (u ++ [0x41]).length
          = (PASU_OK, 0x1F600, u.length)) ∧
    pasu_utf16_encode 0x1F600 = (PASU_OK, [0xD83D, 0xDE00, 0x41].take 2, 2) :=
  ⟨utf16_round_trip.1 0x1F600 [0x41] (by decide),
   utf16_round_trip.2 [0xD83D, 0xDE00, 0x41] 3 0x1F600 2 (by decide) (by decide) (by decide)⟩

/-! ## Status of the encoders and of a failed decode -/

/-- C15. `pasu_utf8_encode` and `pasu_utf16_encode` return `PASU_OK` if and
only if `cp` is a valid Unicode scalar value; they return `PASU_E_RANGE`
exactly when `cp > 0x10FFFF` and `PASU_E_SURROG` exactly when
`0xD800 ≤ cp ≤ 0xDFFF`, and on either error they store nothing to `out` and
leave `*used` unchanged. -/
theorem encode_status (cp : Nat) (out : List Nat) (used : Nat) :
    (((pasu_utf8_encode_state cp out used).1 = PASU_OK ↔ pasu_is_valid_scalar cp = true) ∧
     ((pasu_utf8_encode_state cp out used).1 = PASU_E_RANGE ↔ cp > 0x10FFFF) ∧
     ((pasu_utf8_encode_state cp out used).1 = PASU_E_SURROG ↔ (0xD800 ≤ cp ∧ cp ≤ 0xDFFF)) ∧
     ((pasu_utf8_encode_state cp out used).1 ≠ PASU_OK →
        (pasu_utf8_encode_state cp out used).2 = (out, used))) ∧
    (((pasu_utf16_encode_state cp out used).1 = PASU_OK ↔ pasu_is_valid_scalar cp = true) ∧
     ((pasu_utf16_encode_state cp out used).1 = PASU_E_RANGE ↔ cp > 0x10FFFF) ∧
     ((pasu_utf16_encode_state cp out used).1 = PASU_E_SURROG ↔ (0xD800 ≤ cp ∧ cp ≤ 0xDFFF)) ∧
     ((pasu_utf16_encode_state cp out used).1 ≠ PASU_OK →
        (pasu_utf16_encode_state cp out used).2 = (out, used))) := by
  by_cases hv : pasu_is_valid_scalar cp = true
  · have hr := (valid_scalar_iff cp).1 hv
    have h8 : (pasu_utf8_encode_state cp out used).1 = PASU_OK := by
      unfold pasu_utf8_encode_state
      rw [if_neg (by simp [hv])]
      split_ifs <;> rfl
    have h16 : (pasu_utf16_encode_state cp out used).1 = PASU_OK := by
      unfold pasu_utf16_encode_state
      rw [if_neg (by simp [hv])]
      split_ifs <;> rfl
    rw [h8, h16]
    refine ⟨⟨⟨fun _ => hv, fun _ => rfl⟩, ⟨fun h => absurd h (by simp), fun h => by omega⟩,
      ⟨fun h => absurd h (by simp), fun h => by omega⟩, fun h => absurd rfl h⟩,
      ⟨⟨fun _ => hv, fun _ => rfl⟩, ⟨fun h => absurd h (by simp), fun h => by omega⟩,
      ⟨fun h => absurd h (by simp), fun h => by omega⟩, fun h => absurd rfl h⟩⟩
  · have hf : pasu_is_valid_scalar cp = false := by simpa using hv
    have hr : ¬ (cp ≤ 0x10FFFF ∧ ¬ (0xD800 ≤ cp ∧ cp ≤ 0xDFFF)) :=
      fun h => hv ((valid_scalar_iff cp).2 h)
    have h8 : pasu_utf8_encode_state cp out used
        = (if cp > 0x10FFFF then PASU_E_RANGE else PASU_E_SURROG, out, used) := by
      unfold pasu_utf8_encode_state
      rw [if_pos hf]
    have h16 : pasu_utf16_encode_state cp out used
        = (if cp > 0x10FFFF then PASU_E_RANGE else PASU_E_SURROG, out, used) := by
      unfold pasu_utf16_encode_state
      rw [if_pos hf]
    rw [h8, h16]
    by_cases hbig : cp > 0x10FFFF
    · rw [if_pos hbig]
      refine ⟨⟨⟨fun h => absurd h (by simp), fun h => absurd h hv⟩, ⟨fun _ => hbig, fun _ => rfl⟩,
        ⟨fun h => absurd h (by simp), fun h => by omega⟩, fun _ => rfl⟩,
        ⟨⟨fun h => absurd h (by simp), fun h => absurd h hv⟩, ⟨fun _ => hbig, fun _ => rfl⟩,
        ⟨fun h => absurd h (by simp), fun h => by omega⟩, fun _ => rfl⟩⟩
    · rw [if_neg hbig]
      have hs : 0xD800 ≤ cp ∧ cp ≤ 0xDFFF := by omega
      refine ⟨⟨⟨fun h => absurd h (by simp), fun h => absurd h hv⟩,
        ⟨fun h => absurd h (by simp), fun h => absurd h hbig⟩,
        ⟨fun _ => hs, fun _ => rfl⟩, fun _ => rfl⟩,
        ⟨⟨fun h => absurd h (by simp), fun h => absurd h hv⟩,
        ⟨fun h => absurd h (by simp), fun h => absurd h hbig⟩,
        ⟨fun _ => hs, fun _ => rfl⟩, fun _ => rfl⟩⟩

/-- Witness for C15: the surrogate `0xD800` and the out-of-range `0x110000`
are refused by both encoders, which leave `out` and `*used` as they were. -/
theorem encode_status_witness :
    ((pasu_utf8_encode_state 0xD800 [1, 2, 3, 4] 7).1 ≠ PASU_OK ∧
      (pasu_utf8_encode_state 0xD800 [1, 2, 3, 4] 7).2 = ([1, 2, 3, 4], 7)) ∧
    ((pasu_utf16_encode_state 0x110000 [1, 2] 7).1 ≠ PASU_OK ∧
      (pasu_utf16_encode_state 0x110000 [1, 2] 7).2 = ([1, 2], 7)) :=
  ⟨⟨by decide, (encode_status 0xD800 [1, 2, 3, 4] 7).1.2.2.2 (by decide)⟩,
   ⟨by decide, (encode_status 0x110000 [1, 2] 7).2.2.2.2 (by decide)⟩⟩

/-- The state-passing encoder and the value-returning one agree: same status,
and on success the same count and the same bytes at the front of `out`. -/
theorem utf8_encode_state_agrees (cp : Nat) (out : List Nat) (used : Nat)
    (hout : 4 ≤ out.length) :
    (pasu_utf8_encode_state cp out used).1 = (pasu_utf8_encode cp).1 ∧
    ((pasu_utf8_encode cp).1 = PASU_OK →
      (pasu_utf8_encode_state cp out used).2.2 = (pasu_utf8_encode cp).2.2 ∧
      (pasu_utf8_encode_state cp out used).2.1
        = (pasu_utf8_encode cp).2.1 ++ out.drop (pasu_utf8_encode cp).2.2) := by
  rcases out with _ | ⟨o0, _ | ⟨o1, _ | ⟨o2, _ | ⟨o3, rest⟩⟩⟩⟩ <;>
    simp only [List.length_nil, List.length_cons] at hout <;> try omega
  unfold pasu_utf8_encode_state pasu_utf8_encode
  split_ifs <;> simp

/-- The same agreement for the UTF-16 encoder. -/
theorem utf16_encode_state_agrees (cp : Nat) (out : List Nat) (used : Nat)
    (hout : 2 ≤ out.length) :
    (pasu_utf16_encode_state cp out used).1 = (pasu_utf16_encode cp).1 ∧
    ((pasu_utf16_encode cp).1 = PASU_OK →
      (pasu_utf16_encode_state cp out used).2.2 = (pasu_utf16_encode cp).2.2 ∧
      (pasu_utf16_encode_state cp out used).2.1
        = (pasu_utf16_encode cp).2.1 ++ out.drop (pasu_utf16_encode cp).2.2) := by
  rcases out with _ | ⟨o0, _ | ⟨o1, rest⟩⟩ <;>
    simp only [List.length_nil, List.length_cons] at hout <;> try omega
  unfold pasu_utf16_encode_state pasu_utf16_encode
  split_ifs <;> simp

set_option maxHeartbeats 400000 in
theorem utf8_decode_ok_or_replacement (s : Option (List Nat)) (len : Nat)
    (r : pasu_status × Nat × Nat) (hr : pasu_utf8_decode s len = r) :
    r.1 = PASU_OK ∨ r.2.1 = 0xFFFD := by
  unfold pasu_utf8_decode at hr
  cases s with
  | none => subst hr; exact Or.inr rfl
  | some buf =>
    simp only at hr
    split_ifs at hr <;> subst hr <;> first | exact Or.inl rfl | exact Or.inr rfl

theorem utf16_decode_ok_or_replacement (s : Option (List Nat)) (len : Nat)
    (r : pasu_status × Nat × Nat) (hr : pasu_utf16_decode s len = r) :
    r.1 = PASU_OK ∨ r.2.1 = 0xFFFD := by
  unfold pasu_utf16_decode at hr
  cases s with
  | none => subst hr; exact Or.inr rfl
  | some buf =>
    simp only at hr
    split_ifs at hr <;> subst hr <;> first | exact Or.inl rfl | exact Or.inr rfl

theorem utf8_decode_error_out (s : Option (List Nat)) (len : Nat)
    (h : (pasu_utf8_decode s len).1 ≠ PASU_OK) : (pasu_utf8_decode s len).2.1 = 0xFFFD :=
  (utf8_decode_ok_or_replacement s len _ rfl).resolve_left h

theorem utf16_decode_error_out (s : Option (List Nat)) (len : Nat)
    (h : (pasu_utf16_decode s len).1 ≠ PASU_OK) : (pasu_utf16_decode s len).2.1 = 0xFFFD :=
  (utf16_decode_ok_or_replacement s len _ rfl).resolve_left h

/-- C16. On every error return of `pasu_utf8_decode` and of
`pasu_utf16_decode` (any status other than `PASU_OK`, for every input
including NULL or empty), `*out` is the replacement character `0xFFFD`. -/
theorem decode_error_replacement (s : Option (List Nat)) (len : Nat) :
    ((pasu_utf8_decode s len).1 ≠ PASU_OK → (pasu_utf8_decode s len).2.1 = 0xFFFD) ∧
    ((pasu_utf16_decode s len).1 ≠ PASU_OK → (pasu_utf16_decode s len).2.1 = 0xFFFD) :=
  ⟨utf8_decode_error_out s len, utf16_decode_error_out s len⟩

/-- Witness for C16: a truncated two-byte sequence, and a lone low surrogate. -/
theorem decode_error_replacement_witness :
    ((pasu_utf8_decode (some [0xC3]) 1).1 ≠ PASU_OK ∧
      (pasu_utf8_decode (some [0xC3]) 1).2.1 = 0xFFFD) ∧
    ((pasu_utf16_decode (some [0xDC00]) 1).1 ≠ PASU_OK ∧
      (pasu_utf16_decode (some [0xDC00]) 1).2.1 = 0xFFFD) :=
  ⟨⟨by decide, (decode_error_replacement (some [0xC3]) 1).1 (by decide)⟩,
   ⟨by decide, (decode_error_replacement (some [0xDC00]) 1).2 (by decide)⟩⟩

/-! ## Progress of the decoders; `pasu_utf32_length` -/

theorem getD_take_lt (l : List Nat) (i n : Nat) (h : i < n) :
    (l.take n).getD i 0 = l.getD i 0 := by
  simp only [List.getD_eq_getElem?_getD, List.getElem?_take, h, if_true]

set_option maxHeartbeats 400000 in
theorem utf8_decode_used_bounds (buf : List Nat) (len : Nat) (hlen : 1 ≤ len)
    (r : pasu_status × Nat × Nat) (hr : pasu_utf8_decode (some buf) len = r) :
    1 ≤ r.2.2 ∧ r.2.2 ≤ len := by
  unfold pasu_utf8_decode at hr
  simp only at hr
  split_ifs at hr <;> subst hr <;> simp only <;> omega

set_option maxHeartbeats 400000 in
theorem utf8_decode_take (buf : List Nat) (len : Nat) :
    pasu_utf8_decode (some (buf.take len)) len = pasu_utf8_decode (some buf) len := by
  rcases len with _ | _ | _ | _ | n
  · simp [pasu_utf8_decode]
  · simp [pasu_utf8_decode, getD_take_lt]
  · simp [pasu_utf8_decode, getD_take_lt]
  · simp [pasu_utf8_decode, getD_take_lt]
  · simp [pasu_utf8_decode, getD_take_lt]

theorem utf16_decode_used_bounds (buf : List Nat) (len : Nat) (hlen : 1 ≤ len)
    (r : pasu_status × Nat × Nat) (hr : pasu_utf16_decode (some buf) len = r) :
    1 ≤ r.2.2 ∧ r.2.2 ≤ len := by
  unfold pasu_utf16_decode at hr
  simp only at hr
  split_ifs at hr <;> subst hr <;> simp only <;> omega

theorem utf16_decode_take (buf : List Nat) (len : Nat) :
    pasu_utf16_decode (some (buf.take len)) len = pasu_utf16_decode (some buf) len := by
  rcases len with _ | _ | n
  · simp [pasu_utf16_decode]
  · simp [pasu_utf16_decode, getD_take_lt]
  · simp [pasu_utf16_decode, getD_take_lt]

/-- C17. Decoding always makes progress and never over-reads: for every
non-null buffer and `len ≥ 1`, `pasu_utf8_decode` sets `*used` to a value `n`
with `1 ≤ n ≤ len` whatever status it returns; its result depends only on the
first `len` bytes of the buffer (it reads no byte at index `≥ len`); and
`*used` is 0 only when the buffer is NULL or `len = 0`. -/
theorem utf8_decode_progress :
    (∀ (buf : List Nat) (len : Nat), 1 ≤ len →
      1 ≤ (pasu_utf8_decode (some buf) len).2.2 ∧
      (pasu_utf8_decode (some buf) len).2.2 ≤ len) ∧
    (∀ (buf buf2 : List Nat) (len : Nat), buf.take len = buf2.take len →
      pasu_utf8_decode (some buf) len = pasu_utf8_decode (some buf2) len) ∧
    (∀ (s : Option (List Nat)) (len : Nat), (pasu_utf8_decode s len).2.2 = 0 →
      s = none ∨ len = 0) := by
  refine ⟨fun buf len h => utf8_decode_used_bounds buf len h _ rfl, ?_, ?_⟩
  · intro buf buf2 len h
    rw [← utf8_decode_take buf len, ← utf8_decode_take buf2 len, h]
  · intro s len h
    cases s with
    | none => exact Or.inl rfl
    | some buf =>
      by_cases hl : len = 0
      · exact Or.inr hl
      · have := utf8_decode_used_bounds buf len (by omega) _ rfl
        omega

/-- Witness for C17: a three-byte lead with only two bytes available consumes
2 of the 2 bytes, whatever follows in memory. -/
theorem utf8_decode_progress_witness :
    (1 ≤ (pasu_utf8_decode (some [0xE2, 0x82, 0xAC]) 2).2.2 ∧
      (pasu_utf8_decode (some [0xE2, 0x82, 0xAC]) 2).2.2 ≤ 2) ∧
    pasu_utf8_decode (some [0xE2, 0x82, 0xAC]) 2 = pasu_utf8_decode (some [0xE2, 0x82, 0x41]) 2 :=
  ⟨utf8_decode_progress.1 [0xE2, 0x82, 0xAC] 2 (by decide),
   utf8_decode_progress.2.1 [0xE2, 0x82, 0xAC] [0xE2, 0x82, 0x41] 2 (by decide)⟩

/-- The status `pasu_utf32_length` reports for an invalid element. -/
theorem utf32_error_status (cp : Nat) :
    ((if cp > 0x10FFFF then PASU_E_RANGE
      else if cp ≥ 0xD800 ∧ cp ≤ 0xDFFF then PASU_E_SURROG else PASU_E_RANGE) ≠ PASU_OK) ∧
    (cp > 0x10FFFF → (if cp > 0x10FFFF then PASU_E_RANGE
      else if cp ≥ 0xD800 ∧ cp ≤ 0xDFFF then PASU_E_SURROG else PASU_E_RANGE) = PASU_E_RANGE) ∧
    ((0xD800 ≤ cp ∧ cp ≤ 0xDFFF) → (if cp > 0x10FFFF then PASU_E_RANGE
      else if cp ≥ 0xD800 ∧ cp ≤ 0xDFFF then PASU_E_SURROG else PASU_E_RANGE)
        = PASU_E_SURROG) := by
  refine ⟨?_, ?_, ?_⟩
  · split_ifs <;> simp
  · intro hb; rw [if_pos hb]
  · intro hs; rw [if_neg (by omega), if_pos hs]

theorem utf32_length_loop_all_valid (str : List Nat) (len : Nat) :
    ∀ (fuel i : Nat), (∀ k, i ≤ k → k < len → pasu_is_valid_scalar (str.getD k 0) = true) →
      pasu_utf32_length_loop str len fuel i = (len, PASU_OK) := by
  intro fuel
  induction fuel with
  | zero => intro i _; rfl
  | succ f ih =>
    intro i h
    unfold pasu_utf32_length_loop
    by_cases hi : i < len
    · rw [if_pos hi]
      simp only
      rw [if_neg (by rw [h i (Nat.le_refl _) hi]; simp)]
      exact ih (i + 1) (fun k hk hkl => h k (by omega) hkl)
    · rw [if_neg hi]

theorem utf32_length_loop_first_invalid (str : List Nat) (len k : Nat) (hk : k < len)
    (hbad : pasu_is_valid_scalar (str.getD k 0) = false) :
    ∀ (fuel i : Nat), i ≤ k → k - i < fuel →
      (∀ m, i ≤ m → m < k → pasu_is_valid_scalar (str.getD m 0) = true) →
      pasu_utf32_length_loop str len fuel i =
        (k, if str.getD k 0 > 0x10FFFF then PASU_E_RANGE
            else if str.getD k 0 ≥ 0xD800 ∧ str.getD k 0 ≤ 0xDFFF then PASU_E_SURROG
            else PASU_E_RANGE) := by
  intro fuel
  induction fuel with
  | zero => intro i _ h; omega
  | succ f ih =>
    intro i hik hf h
    unfold pasu_utf32_length_loop
    rw [if_pos (by omega)]
    simp only
    by_cases heq : i = k
    · subst heq
      rw [if_pos hbad]
    · rw [if_neg (by rw [h i (Nat.le_refl _) (by omega)]; simp)]
      exact ih (i + 1) (by omega) (by omega) (fun m hm hmk => h m (by omega) hmk)

/-- C19. `pasu_utf32_length` returns `len` with `PASU_OK` if and only if every
element of the buffer is a valid Unicode scalar value; otherwise it returns
the index of the first invalid element and reports `PASU_E_RANGE` when that
element is `> 0x10FFFF` and `PASU_E_SURROG` when it is in `0xD800..0xDFFF`. -/
theorem utf32_length_spec (str : List Nat) (len : Nat) :
    (pasu_utf32_length (some str) len = (len, PASU_OK) ↔
      ∀ i, i < len → pasu_is_valid_scalar (str.getD i 0) = true) ∧
    (∀ k, k < len → pasu_is_valid_scalar (str.getD k 0) = false →
      (∀ m, m < k → pasu_is_valid_scalar (str.getD m 0) = true) →
      (pasu_utf32_length (some str) len).1 = k ∧
      (str.getD k 0 > 0x10FFFF → (pasu_utf32_length (some str) len).2 = PASU_E_RANGE) ∧
      ((0xD800 ≤ str.getD k 0 ∧ str.getD k 0 ≤ 0xDFFF) →
        (pasu_utf32_length (some str) len).2 = PASU_E_SURROG)) := by
  have hfirst : ∀ k, k < len → pasu_is_valid_scalar (str.getD k 0) = false →
      (∀ m, m < k → pasu_is_valid_scalar (str.getD m 0) = true) →
      pasu_utf32_length (some str) len =
        (k, if str.getD k 0 > 0x10FFFF then PASU_E_RANGE
            else if str.getD k 0 ≥ 0xD800 ∧ str.getD k 0 ≤ 0xDFFF then PASU_E_SURROG
            else PASU_E_RANGE) := by
    intro k hk hbad hm
    exact utf32_length_loop_first_invalid str len k hk hbad len 0 (Nat.zero_le _) (by omega)
      (fun m _ hmk => hm m hmk)
  refine ⟨⟨?_, ?_⟩, ?_⟩
  · intro h
    by_contra hne
    have hex : ∃ k, k < len ∧ pasu_is_valid_scalar (str.getD k 0) = false := by
      by_contra hno
      apply hne
      intro i hi
      by_contra hv
      exact hno ⟨i, hi, by simpa using hv⟩
    classical
    have hk := Nat.find_spec hex
    have hmin : ∀ m, m < Nat.find hex → pasu_is_valid_scalar (str.getD m 0) = true := by
      intro m hm
      have := Nat.find_min hex hm
      by_contra hv
      exact this ⟨by omega, by simpa using hv⟩
    have := hfirst (Nat.find hex) hk.1 hk.2 hmin
    rw [h] at this
    have hst := (Prod.mk.inj this).2
    exact (utf32_error_status _).1 hst.symm
  · intro h
    exact utf32_length_loop_all_valid str len len 0 (fun k _ hk => h k hk)
  · intro k hk hbad hm
    rw [hfirst k hk hbad hm]
    exact ⟨rfl, (utf32_error_status _).2.1, (utf32_error_status _).2.2⟩

/-- Witness for C19: a surrogate at index 2 of a four-element buffer. -/
theorem utf32_length_spec_witness :
    (pasu_utf32_length (some [0x48, 0x20AC, 0xD800, 0x41]) 4).1 = 2 ∧
    (pasu_utf32_length (some [0x48, 0x20AC, 0xD800, 0x41]) 4).2 = PASU_E_SURROG :=
  have h := (utf32_length_spec [0x48, 0x20AC, 0xD800, 0x41] 4).2 2 (by decide) (by decide)
    (by decide)
  ⟨h.1, h.2.2 (by decide)⟩

/-! ## Stores into the destination buffer in closed form -/

theorem set_closed (dst : List Nat) (j a : Nat) (h : j < dst.length) :
    dst.set j a = dst.take j ++ [a] ++ dst.drop (j + 1) := by
  induction dst generalizing j with
  | nil => simp at h
  | cons x xs ih =>
    cases j with
    | zero => simp
    | succ k =>
      simp only [List.length_cons] at h
      simp only [List.set_cons_succ, List.take_succ_cons, List.drop_succ_cons,
        List.cons_append, ih k (by omega), List.append_assoc]

/-- Storing one more element behind the `o` already stored at `j`. -/
theorem set_extend (dst : List Nat) (j : Nat) (o : List Nat) (a : Nat)
    (h : j + o.length < dst.length) :
    (dst.take j ++ o ++ dst.drop (j + o.length)).set (j + o.length) a
      = dst.take j ++ (o ++ [a]) ++ dst.drop (j + o.length + 1) := by
  have hl : (dst.take j ++ o).length = j + o.length := by
    simp only [List.length_append, List.length_take]
    omega
  cases hdr : dst.drop (j + o.length) with
  | nil =>
    have := congrArg List.length hdr
    simp only [List.length_drop, List.length_nil] at this
    omega
  | cons x xs =>
    have hxs : dst.drop (j + o.length + 1) = xs := by
      rw [← List.drop_drop, hdr]
      rfl
    rw [hxs, ← hl, List.set_append_right _ _ (Nat.le_refl _), Nat.sub_self, List.set_cons_zero]
    simp only [List.append_assoc, List.singleton_append]

theorem store_two (dst : List Nat) (j a b : Nat) (h : j + 2 ≤ dst.length) :
    (dst.set j a).set (j + 1) b = dst.take j ++ [a, b] ++ dst.drop (j + 2) := by
  rw [set_closed dst j a (by omega)]
  exact set_extend dst j [a] b (by simp only [List.length_cons, List.length_nil]; omega)

theorem store_three (dst : List Nat) (j a b c : Nat) (h : j + 3 ≤ dst.length) :
    ((dst.set j a).set (j + 1) b).set (j + 1 + 1) c
      = dst.take j ++ [a, b, c] ++ dst.drop (j + 3) := by
  rw [store_two dst j a b (by omega)]
  exact set_extend dst j [a, b] c (by simp only [List.length_cons, List.length_nil]; omega)

theorem store_four (dst : List Nat) (j a b c d : Nat) (h : j + 4 ≤ dst.length) :
    (((dst.set j a).set (j + 1) b).set (j + 1 + 1) c).set (j + 1 + 1 + 1) d
      = dst.take j ++ [a, b, c, d] ++ dst.drop (j + 4) := by
  rw [store_three dst j a b c (by omega)]
  exact set_extend dst j [a, b, c] d (by simp only [List.length_cons, List.length_nil]; omega)

/-- Closed form of the stores of `store_utf8` for one to four bytes. -/
theorem store_utf8_closed (dst : List Nat) (j : Nat) (tmp : List Nat)
    (h1 : 1 ≤ tmp.length) (h4 : tmp.length ≤ 4) (hj : j + tmp.length ≤ dst.length) :
    store_utf8 dst j tmp tmp.length
      = (dst.take j ++ tmp ++ dst.drop (j + tmp.length), j + tmp.length) := by
  rcases tmp with _ | ⟨a, _ | ⟨b, _ | ⟨c, _ | ⟨d, _ | ⟨e, r⟩⟩⟩⟩⟩
  · simp at h1
  · have e : store_utf8 dst j [a] 1 = (dst.set j a, j + 1) := rfl
    exact e.trans (by rw [set_closed dst j a (by simpa using hj)]; rfl)
  · have e : store_utf8 dst j [a, b] 2 = ((dst.set j a).set (j + 1) b, j + 1 + 1) := rfl
    exact e.trans (by rw [store_two dst j a b (by simpa using hj)]; rfl)
  · have e : store_utf8 dst j [a, b, c] 3
        = (((dst.set j a).set (j + 1) b).set (j + 1 + 1) c, j + 1 + 1 + 1) := rfl
    exact e.trans (by rw [store_three dst j a b c (by simpa using hj)]; rfl)
  · have e : store_utf8 dst j [a, b, c, d] 4
        = ((((dst.set j a).set (j + 1) b).set (j + 1 + 1) c).set (j + 1 + 1 + 1) d,
            j + 1 + 1 + 1 + 1) := rfl
    exact e.trans (by rw [store_four dst j a b c d (by simpa using hj)]; rfl)
  · simp only [List.length_cons] at h4
    omega

/-! ## The converter loops compute `conv_run` -/

theorem closed_take (dst : List Nat) (j : Nat) (o : List Nat) (h : j + o.length ≤ dst.length) :
    (dst.take j ++ o ++ dst.drop (j + o.length)).take (j + o.length) = dst.take j ++ o := by
  have hl : (dst.take j ++ o).length = j + o.length := by
    simp only [List.length_append, List.length_take]
    omega
  rw [List.take_append_eq_append_take, List.take_of_length_le (by omega), hl, Nat.sub_self,
    List.take_zero, List.append_nil]

theorem closed_drop (dst : List Nat) (j : Nat) (o : List Nat) (n : Nat)
    (h : j + o.length ≤ dst.length) (hn : j + o.length ≤ n) :
    (dst.take j ++ o ++ dst.drop (j + o.length)).drop n = dst.drop n := by
  have hl : (dst.take j ++ o).length = j + o.length := by
    simp only [List.length_append, List.length_take]
    omega
  rw [List.drop_append_eq_append_drop, List.drop_eq_nil_of_le (by omega), hl, List.nil_append,
    List.drop_drop]
  congr 1
  omega

theorem closed_length (dst : List Nat) (j : Nat) (o : List Nat) (h : j + o.length ≤ dst.length) :
    (dst.take j ++ o ++ dst.drop (j + o.length)).length = dst.length := by
  simp only [List.length_append, List.length_take, List.length_drop]
  omega

theorem encode_error_ne_ok (cp : Nat) :
    (if cp > 0x10FFFF then PASU_E_RANGE else PASU_E_SURROG) ≠ PASU_OK := by
  split_ifs <;> simp

theorem utf16_encode_shape (cp : Nat) (h : (pasu_utf16_encode cp).1 = PASU_OK) :
    (∃ a, pasu_utf16_encode cp = (PASU_OK, [a], 1)) ∨
    (∃ a b, pasu_utf16_encode cp = (PASU_OK, [a, b], 2)) := by
  unfold pasu_utf16_encode at h ⊢
  by_cases hv : pasu_is_valid_scalar cp = false
  · rw [if_pos hv] at h
    exact absurd h (encode_error_ne_ok cp)
  · rw [if_neg hv]
    by_cases h2 : cp < 0x10000
    · rw [if_pos h2]; exact Or.inl ⟨_, rfl⟩
    · rw [if_neg h2]; exact Or.inr ⟨_, _, rfl⟩

theorem utf8_encode_shape (cp : Nat) (h : (pasu_utf8_encode cp).1 = PASU_OK) :
    (pasu_utf8_encode cp).2.2 = (pasu_utf8_encode cp).2.1.length ∧
    1 ≤ (pasu_utf8_encode cp).2.1.length ∧ (pasu_utf8_encode cp).2.1.length ≤ 4 := by
  unfold pasu_utf8_encode at h ⊢
  by_cases hv : pasu_is_valid_scalar cp = false
  · rw [if_pos hv] at h
    exact absurd h (encode_error_ne_ok cp)
  · rw [if_neg hv]
    split_ifs <;> simp

theorem conv_run_extends (step : List Nat → Nat → pasu_status × List Nat × Nat)
    (src : List Nat) (src_len cap : Nat) :
    ∀ (fuel i : Nat) (out : List Nat),
      ∃ t, (conv_run step src src_len cap fuel i out).1 = out ++ t ∧
        (out.length ≤ cap → out.length + t.length ≤ cap) := by
  intro fuel
  induction fuel with
  | zero => intro i out; exact ⟨[], by simp [conv_run], by simp⟩
  | succ f ih =>
    intro i out
    unfold conv_run
    by_cases hi : i < src_len
    · rw [if_pos hi]
      simp only
      by_cases hs : (step (src.drop i) (src_len - i)).1 ≠ PASU_OK
      · rw [if_pos hs]; exact ⟨[], by simp, by simp⟩
      · rw [if_neg hs]
        by_cases hc : out.length + (step (src.drop i) (src_len - i)).2.1.length > cap
        · rw [if_pos hc]; exact ⟨[], by simp, by simp⟩
        · rw [if_neg hc]
          obtain ⟨t, ht, hcap⟩ := ih (i + (step (src.drop i) (src_len - i)).2.2)
            (out ++ (step (src.drop i) (src_len - i)).2.1)
          refine ⟨(step (src.drop i) (src_len - i)).2.1 ++ t, by rw [ht, List.append_assoc], ?_⟩
          intro _
          have := hcap (by rw [List.length_append]; omega)
          simp only [List.length_append] at this ⊢
          omega
    · rw [if_neg hi]; exact ⟨[], by simp, by simp⟩

theorem conv_run_length_ge (step : List Nat → Nat → pasu_status × List Nat × Nat)
    (src : List Nat) (src_len cap fuel i : Nat) (out : List Nat) :
    out.length ≤ (conv_run step src src_len cap fuel i out).1.length := by
  obtain ⟨t, ht, -⟩ := conv_run_extends step src src_len cap fuel i out
  rw [ht, List.length_append]
  omega

theorem conv_run_length_le (step : List Nat → Nat → pasu_status × List Nat × Nat)
    (src : List Nat) (src_len cap fuel i : Nat) (out : List Nat) (h : out.length ≤ cap) :
    (conv_run step src src_len cap fuel i out).1.length ≤ cap := by
  obtain ⟨t, ht, hc⟩ := conv_run_extends step src src_len cap fuel i out
  rw [ht, List.length_append]
  exact hc h

/-- The continuation of a loop after the units `o` were stored at `j`. -/
theorem bridge_continue (dst : List Nat) (j : Nat) (o : List Nat) (h : j + o.length ≤ dst.length)
    (p : List Nat × pasu_status) (hp : j + o.length ≤ p.1.length) :
    (p.1.length, p.2,
      p.1 ++ (dst.take j ++ o ++ dst.drop (j + o.length)).drop p.1.length)
      = (p.1.length, p.2, p.1 ++ dst.drop p.1.length) := by
  rw [closed_drop dst j o _ h hp]

theorem bridge_exit (dst : List Nat) (j : Nat) (st : pasu_status) (h : j ≤ dst.length) :
    (j, st, dst) = ((dst.take j).length, st, dst.take j ++ dst.drop (dst.take j).length) := by
  have : (dst.take j).length = j := by rw [List.length_take]; omega
  rw [this, List.take_append_drop]

/-- The loop of `pasu_utf8_to_utf16` computes `conv_run step_8_16`. -/
theorem utf8_to_utf16_loop_eq (src : List Nat) (src_len cap : Nat) :
    ∀ (fuel i j : Nat) (dst : List Nat), j ≤ cap → cap ≤ dst.length →
      pasu_utf8_to_utf16_loop src src_len cap fuel i j dst =
        ((conv_run step_8_16 src src_len cap fuel i (dst.take j)).1.length,
         (conv_run step_8_16 src src_len cap fuel i (dst.take j)).2,
         (conv_run step_8_16 src src_len cap fuel i (dst.take j)).1 ++
           dst.drop (conv_run step_8_16 src src_len cap fuel i (dst.take j)).1.length) := by
  intro fuel
  induction fuel with
  | zero =>
    intro i j dst hj hc
    exact bridge_exit dst j PASU_OK (by omega)
  | succ f ih =>
    intro i j dst hj hc
    have htl : (dst.take j).length = j := by rw [List.length_take]; omega
    unfold pasu_utf8_to_utf16_loop conv_run
    by_cases hi : i < src_len
    · rw [if_pos hi, if_pos hi]
      simp only [step_8_16]
      by_cases hd : (pasu_utf8_decode (some (src.drop i)) (src_len - i)).1 ≠ PASU_OK
      · rw [if_pos hd, if_pos hd, if_pos hd]
        exact bridge_exit dst j _ (by omega)
      · rw [if_neg hd, if_neg hd]
        by_cases he : (pasu_utf16_encode
            (pasu_utf8_decode (some (src.drop i)) (src_len - i)).2.1).1 ≠ PASU_OK
        · rw [if_pos he, if_pos he]
          exact bridge_exit dst j _ (by omega)
        · rw [if_neg he, if_neg he]
          rcases utf16_encode_shape _ (not_not.1 he) with ⟨a, ha⟩ | ⟨a, b, hab⟩
          · rw [ha]
            simp only [List.length_cons, List.length_nil, htl, List.getD_cons_zero]
            by_cases hcap : j + 1 > cap
            · rw [if_pos hcap, if_pos hcap]
              exact bridge_exit dst j _ (by omega)
            · rw [if_neg hcap, if_neg hcap, if_neg (by omega)]
              rw [set_closed dst j a (by omega)]
              have hj1 : j + [a].length ≤ dst.length := by
                simp only [List.length_cons, List.length_nil]; omega
              have hcl : (dst.take j ++ [a] ++ dst.drop (j + 1)).length = dst.length :=
                closed_length dst j [a] hj1
              rw [ih _ (j + 1) _ (by omega) (by rw [hcl]; exact hc)]
              rw [show j + 1 = j + [a].length from rfl, closed_take dst j [a] hj1]
              exact bridge_continue dst j [a] hj1 _
                (by
                  have := conv_run_length_ge step_8_16 src src_len cap f
                    (i + (pasu_utf8_decode (some (src.drop i)) (src_len - i)).2.2)
                    (dst.take j ++ [a])
                  simp only [List.length_append, htl] at this
                  exact this)
          · rw [hab]
            simp only [List.length_cons, List.length_nil, htl, List.getD_cons_zero,
              List.getD_cons_succ]
            by_cases hcap : j + 2 > cap
            · rw [if_pos hcap, if_pos hcap]
              exact bridge_exit dst j _ (by omega)
            · rw [if_neg hcap, if_neg hcap, if_pos trivial]
              rw [store_two dst j a b (by omega)]
              have hj1 : j + [a, b].length ≤ dst.length := by
                simp only [List.length_cons, List.length_nil]; omega
              have hcl : (dst.take j ++ [a, b] ++ dst.drop (j + 2)).length = dst.length :=
                closed_length dst j [a, b] hj1
              rw [ih _ (j + 1 + 1) _ (by omega) (by rw [hcl]; exact hc)]
              rw [show j + 1 + 1 = j + [a, b].length from rfl, closed_take dst j [a, b] hj1]
              exact bridge_continue dst j [a, b] hj1 _
                (by
                  have := conv_run_length_ge step_8_16 src src_len cap f
                    (i + (pasu_utf8_decode (some (src.drop i)) (src_len - i)).2.2)
                    (dst.take j ++ [a, b])
                  simp only [List.length_append, htl] at this
                  exact this)
    · rw [if_neg hi, if_neg hi]
      exact bridge_exit dst j PASU_OK (by omega)

theorem getD_drop_zero (src : List Nat) (i : Nat) : (src.drop i).getD 0 0 = src.getD i 0 := by
  simp only [List.getD_eq_getElem?_getD, List.getElem?_drop, Nat.add_zero]

/-- The loop of `pasu_utf32_to_utf16` computes `conv_run step_32_16`. -/
theorem utf32_to_utf16_loop_eq (src : List Nat) (src_len cap : Nat) :
    ∀ (fuel i j : Nat) (dst : List Nat), j ≤ cap → cap ≤ dst.length →
      pasu_utf32_to_utf16_loop src src_len cap fuel i j dst =
        ((conv_run step_32_16 src src_len cap fuel i (dst.take j)).1.length,
         (conv_run step_32_16 src src_len cap fuel i (dst.take j)).2,
         (conv_run step_32_16 src src_len cap fuel i (dst.take j)).1 ++
           dst.drop (conv_run step_32_16 src src_len cap fuel i (dst.take j)).1.length) := by
  intro fuel
  induction fuel with
  | zero =>
    intro i j dst hj hc
    exact bridge_exit dst j PASU_OK (by omega)
  | succ f ih =>
    intro i j dst hj hc
    have htl : (dst.take j).length = j := by rw [List.length_take]; omega
    unfold pasu_utf32_to_utf16_loop conv_run
    by_cases hi : i < src_len
    · rw [if_pos hi, if_pos hi]
      simp only [step_32_16, getD_drop_zero]
      by_cases he : (pasu_utf16_encode (src.getD i 0)).1 ≠ PASU_OK
      · rw [if_pos he, if_pos he]
        exact bridge_exit dst j _ (by omega)
      · rw [if_neg he, if_neg he]
        rcases utf16_encode_shape _ (not_not.1 he) with ⟨a, ha⟩ | ⟨a, b, hab⟩
        · rw [ha]
          simp only [List.length_cons, List.length_nil, htl, List.getD_cons_zero]
          by_cases hcap : j + 1 > cap
          · rw [if_pos hcap, if_pos hcap]
            exact bridge_exit dst j _ (by omega)
          · rw [if_neg hcap, if_neg hcap, if_neg (by omega)]
            rw [set_closed dst j a (by omega)]
            have hj1 : j + [a].length ≤ dst.length := by
              simp only [List.length_cons, List.length_nil]; omega
            have hcl : (dst.take j ++ [a] ++ dst.drop (j + 1)).length = dst.length :=
              closed_length dst j [a] hj1
            rw [ih _ (j + 1) _ (by omega) (by rw [hcl]; exact hc)]
            rw [show j + 1 = j + [a].length from rfl, closed_take dst j [a] hj1]
            exact bridge_continue dst j [a] hj1 _
              (by
                have := conv_run_length_ge step_32_16 src src_len cap f (i + 1)
                  (dst.take j ++ [a])
                simp only [List.length_append, htl] at this
                exact this)
        · rw [hab]
          simp only [List.length_cons, List.length_nil, htl, List.getD_cons_zero,
            List.getD_cons_succ]
          by_cases hcap : j + 2 > cap
          · rw [if_pos hcap, if_pos hcap]
            exact bridge_exit dst j _ (by omega)
          · rw [if_neg hcap, if_neg hcap, if_pos trivial]
            rw [store_two dst j a b (by omega)]
            have hj1 : j + [a, b].length ≤ dst.length := by
              simp only [List.length_cons, List.length_nil]; omega
            have hcl : (dst.take j ++ [a, b] ++ dst.drop (j + 2)).length = dst.length :=
              closed_length dst j [a, b] hj1
            rw [ih _ (j + 1 + 1) _ (by omega) (by rw [hcl]; exact hc)]
            rw [show j + 1 + 1 = j + [a, b].length from rfl, closed_take dst j [a, b] hj1]
            exact bridge_continue dst j [a, b] hj1 _
              (by
                have := conv_run_length_ge step_32_16 src src_len cap f (i + 1)
                  (dst.take j ++ [a, b])
                simp only [List.length_append, htl] at this
                exact this)
    · rw [if_neg hi, if_neg hi]
      exact bridge_exit dst j PASU_OK (by omega)

/-- The loop of `pasu_utf8_to_utf32` computes `conv_run step_8_32`. -/
theorem utf8_to_utf32_loop_eq (src : List Nat) (src_len cap : Nat) :
    ∀ (fuel i j : Nat) (dst : List Nat), j ≤ cap → cap ≤ dst.length →
      pasu_utf8_to_utf32_loop src src_len cap fuel i j dst =
        ((conv_run step_8_32 src src_len cap fuel i (dst.take j)).1.length,
         (conv_run step_8_32 src src_len cap fuel i (dst.take j)).2,
         (conv_run step_8_32 src src_len cap fuel i (dst.take j)).1 ++
           dst.drop (conv_run step_8_32 src src_len cap fuel i (dst.take j)).1.length) := by
  intro fuel
  induction fuel with
  | zero =>
    intro i j dst hj hc
    exact bridge_exit dst j PASU_OK (by omega)
  | succ f ih =>
    intro i j dst hj hc
    have htl : (dst.take j).length = j := by rw [List.length_take]; omega
    unfold pasu_utf8_to_utf32_loop conv_run
    by_cases hi : i < src_len
    · rw [if_pos hi, if_pos hi]
      simp only [step_8_32, List.length_cons, List.length_nil, htl]
      by_cases hd : (pasu_utf8_decode (some (src.drop i)) (src_len - i)).1 ≠ PASU_OK
      · rw [if_pos hd, if_pos hd]
        exact bridge_exit dst j _ (by omega)
      · rw [if_neg hd, if_neg hd]
        by_cases hcap : j ≥ cap
        · rw [if_pos hcap, if_pos (by omega)]
          exact bridge_exit dst j _ (by omega)
        · rw [if_neg hcap, if_neg (by omega)]
          rw [set_closed dst j _ (by omega)]
          have hj1 : j + [(pasu_utf8_decode (some (src.drop i)) (src_len - i)).2.1].length
              ≤ dst.length := by
            simp only [List.length_cons, List.length_nil]; omega
          have hcl := closed_length dst j _ hj1
          have hct := closed_take dst j _ hj1
          simp only [List.length_cons, List.length_nil] at hcl hct
          rw [ih _ (j + 1) _ (by omega) (by rw [hcl]; exact hc), hct]
          exact bridge_continue dst j _ hj1 _
            (by
              have := conv_run_length_ge step_8_32 src src_len cap f
                (i + (pasu_utf8_decode (some (src.drop i)) (src_len - i)).2.2)
                (dst.take j ++ [(pasu_utf8_decode (some (src.drop i)) (src_len - i)).2.1])
              simp only [List.length_append, htl] at this
              exact this)
    · rw [if_neg hi, if_neg hi]
      exact bridge_exit dst j PASU_OK (by omega)

/-- The loop of `pasu_utf16_to_utf32` computes `conv_run step_16_32`. -/
theorem utf16_to_utf32_loop_eq (src : List Nat) (src_len cap : Nat) :
    ∀ (fuel i j : Nat) (dst : List Nat), j ≤ cap → cap ≤ dst.length →
      pasu_utf16_to_utf32_loop src src_len cap fuel i j dst =
        ((conv_run step_16_32 src src_len cap fuel i (dst.take j)).1.length,
         (conv_run step_16_32 src src_len cap fuel i (dst.take j)).2,
         (conv_run step_16_32 src src_len cap fuel i (dst.take j)).1 ++
           dst.drop (conv_run step_16_32 src src_len cap fuel i (dst.take j)).1.length) := by
  intro fuel
  induction fuel with
  | zero =>
    intro i j dst hj hc
    exact bridge_exit dst j PASU_OK (by omega)
  | succ f ih =>
    intro i j dst hj hc
    have htl : (dst.take j).length = j := by rw [List.length_take]; omega
    unfold pasu_utf16_to_utf32_loop conv_run
    by_cases hi : i < src_len
    · rw [if_pos hi, if_pos hi]
      simp only [step_16_32, List.length_cons, List.length_nil, htl]
      by_cases hd : (pasu_utf16_decode (some (src.drop i)) (src_len - i)).1 ≠ PASU_OK
      · rw [if_pos hd, if_pos hd]
        exact bridge_exit dst j _ (by omega)
      · rw [if_neg hd, if_neg hd]
        by_cases hcap : j ≥ cap
        · rw [if_pos hcap, if_pos (by omega)]
          exact bridge_exit dst j _ (by omega)
        · rw [if_neg hcap, if_neg (by omega)]
          rw [set_closed dst j _ (by omega)]
          have hj1 : j + [(pasu_utf16_decode (some (src.drop i)) (src_len - i)).2.1].length
              ≤ dst.length := by
            simp only [List.length_cons, List.length_nil]; omega
          have hcl := closed_length dst j _ hj1
          have hct := closed_take dst j _ hj1
          simp only [List.length_cons, List.length_nil] at hcl hct
          rw [ih _ (j + 1) _ (by omega) (by rw [hcl]; exact hc), hct]
          exact bridge_continue dst j _ hj1 _
            (by
              have := conv_run_length_ge step_16_32 src src_len cap f
                (i + (pasu_utf16_decode (some (src.drop i)) (src_len - i)).2.2)
                (dst.take j ++ [(pasu_utf16_decode (some (src.drop i)) (src_len - i)).2.1])
              simp only [List.length_append, htl] at this
              exact this)
    · rw [if_neg hi, if_neg hi]
      exact bridge_exit dst j PASU_OK (by omega)

/-- The loop of `pasu_utf16_to_utf8` computes `conv_run step_16_8`. -/
theorem utf16_to_utf8_loop_eq (src : List Nat) (src_len cap : Nat) :
    ∀ (fuel i j : Nat) (dst : List Nat), j ≤ cap → cap ≤ dst.length →
      pasu_utf16_to_utf8_loop src src_len cap fuel i j dst =
        ((conv_run step_16_8 src src_len cap fuel i (dst.take j)).1.length,
         (conv_run step_16_8 src src_len cap fuel i (dst.take j)).2,
         (conv_run step_16_8 src src_len cap fuel i (dst.take j)).1 ++
           dst.drop (conv_run step_16_8 src src_len cap fuel i (dst.take j)).1.length) := by
  intro fuel
  induction fuel with
  | zero =>
    intro i j dst hj hc
    exact bridge_exit dst j PASU_OK (by omega)
  | succ f ih =>
    intro i j dst hj hc
    have htl : (dst.take j).length = j := by rw [List.length_take]; omega
    unfold pasu_utf16_to_utf8_loop conv_run
    by_cases hi : i < src_len
    · rw [if_pos hi, if_pos hi]
      simp only [step_16_8, htl]
      by_cases hd : (pasu_utf16_decode (some (src.drop i)) (src_len - i)).1 ≠ PASU_OK
      · rw [if_pos hd, if_pos hd, if_pos hd]
        exact bridge_exit dst j _ (by omega)
      · rw [if_neg hd, if_neg hd]
        by_cases he : (pasu_utf8_encode
            (pasu_utf16_decode (some (src.drop i)) (src_len - i)).2.1).1 ≠ PASU_OK
        · rw [if_pos he, if_pos he]
          exact bridge_exit dst j _ (by omega)
        · rw [if_neg he, if_neg he]
          obtain ⟨hu, h1, h4⟩ := utf8_encode_shape _ (not_not.1 he)
          rw [hu]
          generalize (pasu_utf8_encode
            (pasu_utf16_decode (some (src.drop i)) (src_len - i)).2.1).2.1 = o at h1 h4 ⊢
          by_cases hcap : j + o.length > cap
          · rw [if_pos hcap, if_pos hcap]
            exact bridge_exit dst j _ (by omega)
          · rw [if_neg hcap, if_neg hcap]
            have hj1 : j + o.length ≤ dst.length := by omega
            rw [store_utf8_closed dst j o h1 h4 hj1]
            simp only
            rw [ih _ (j + o.length) _ (by omega) (by rw [closed_length dst j o hj1]; exact hc),
              closed_take dst j o hj1]
            exact bridge_continue dst j o hj1 _
              (by
                have := conv_run_length_ge step_16_8 src src_len cap f
                  (i + (pasu_utf16_decode (some (src.drop i)) (src_len - i)).2.2)
                  (dst.take j ++ o)
                simp only [List.length_append, htl] at this
                exact this)
    · rw [if_neg hi, if_neg hi]
      exact bridge_exit dst j PASU_OK (by omega)

/-- The loop of `pasu_utf32_to_utf8` computes `conv_run step_32_8`. -/
theorem utf32_to_utf8_loop_eq (src : List Nat) (src_len cap : Nat) :
    ∀ (fuel i j : Nat) (dst : List Nat), j ≤ cap → cap ≤ dst.length →
      pasu_utf32_to_utf8_loop src src_len cap fuel i j dst =
        ((conv_run step_32_8 src src_len cap fuel i (dst.take j)).1.length,
         (conv_run step_32_8 src src_len cap fuel i (dst.take j)).2,
         (conv_run step_32_8 src src_len cap fuel i (dst.take j)).1 ++
           dst.drop (conv_run step_32_8 src src_len cap fuel i (dst.take j)).1.length) := by
  intro fuel
  induction fuel with
  | zero =>
    intro i j dst hj hc
    exact bridge_exit dst j PASU_OK (by omega)
  | succ f ih =>
    intro i j dst hj hc
    have htl : (dst.take j).length = j := by rw [List.length_take]; omega
    unfold pasu_utf32_to_utf8_loop conv_run
    by_cases hi : i < src_len
    · rw [if_pos hi, if_pos hi]
      simp only [step_32_8, getD_drop_zero, htl]
      by_cases he : (pasu_utf8_encode (src.getD i 0)).1 ≠ PASU_OK
      · rw [if_pos he, if_pos he]
        exact bridge_exit dst j _ (by omega)
      · rw [if_neg he, if_neg he]
        obtain ⟨hu, h1, h4⟩ := utf8_encode_shape _ (not_not.1 he)
        rw [hu]
        generalize (pasu_utf8_encode (src.getD i 0)).2.1 = o at h1 h4 ⊢
        by_cases hcap : j + o.length > cap
        · rw [if_pos hcap, if_pos hcap]
          exact bridge_exit dst j _ (by omega)
        · rw [if_neg hcap, if_neg hcap]
          have hj1 : j + o.length ≤ dst.length := by omega
          rw [store_utf8_closed dst j o h1 h4 hj1]
          simp only
          rw [ih _ (j + o.length) _ (by omega) (by rw [closed_length dst j o hj1]; exact hc),
            closed_take dst j o hj1]
          exact bridge_continue dst j o hj1 _
            (by
              have := conv_run_length_ge step_32_8 src src_len cap f (i + 1) (dst.take j ++ o)
              simp only [List.length_append, htl] at this
              exact this)
    · rw [if_neg hi, if_neg hi]
      exact bridge_exit dst j PASU_OK (by omega)

/-! ## The converters stay within the capacity -/

theorem conv_top_length_le (step : List Nat → Nat → pasu_status × List Nat × Nat)
    (src : Option (List Nat)) (src_len cap : Nat) :
    (conv_top step src src_len cap).1.length ≤ cap := by
  cases src with
  | none => simp [conv_top]
  | some s => exact conv_run_length_le step s src_len cap src_len 0 [] (Nat.zero_le _)

/-- A converter whose loop computes `conv_run step` computes `conv_top step`. -/
theorem top_of_loop (step : List Nat → Nat → pasu_status × List Nat × Nat)
    (loop : List Nat → Nat → Nat → Nat → Nat → Nat → List Nat → Nat × pasu_status × List Nat)
    (hloop : ∀ (src : List Nat) (src_len cap fuel i j : Nat) (dst : List Nat), j ≤ cap →
      cap ≤ dst.length →
      loop src src_len cap fuel i j dst =
        ((conv_run step src src_len cap fuel i (dst.take j)).1.length,
         (conv_run step src src_len cap fuel i (dst.take j)).2,
         (conv_run step src src_len cap fuel i (dst.take j)).1 ++
           dst.drop (conv_run step src src_len cap fuel i (dst.take j)).1.length))
    (src : Option (List Nat)) (src_len cap : Nat) (dst : List Nat) (h : cap ≤ dst.length) :
    (match src with
      | none => if src_len ≠ 0 then (0, PASU_E_INVALID, dst) else (0, PASU_OK, dst)
      | some s => loop s src_len cap src_len 0 0 dst) =
      ((conv_top step src src_len cap).1.length, (conv_top step src src_len cap).2,
        (conv_top step src src_len cap).1 ++ dst.drop (conv_top step src src_len cap).1.length) := by
  cases src with
  | none =>
    by_cases h0 : src_len ≠ 0
    · simp [conv_top, h0]
    · simp [conv_top, h0]
  | some s =>
    have := hloop s src_len cap src_len 0 0 dst (Nat.zero_le _) h
    rw [List.take_zero] at this
    exact this

theorem utf8_to_utf16_eq (src : Option (List Nat)) (src_len cap : Nat) (dst : List Nat)
    (h : cap ≤ dst.length) :
    pasu_utf8_to_utf16 src src_len dst cap =
      ((conv_top step_8_16 src src_len cap).1.length, (conv_top step_8_16 src src_len cap).2,
        (conv_top step_8_16 src src_len cap).1 ++
          dst.drop (conv_top step_8_16 src src_len cap).1.length) :=
  top_of_loop step_8_16 pasu_utf8_to_utf16_loop utf8_to_utf16_loop_eq src src_len cap dst h

theorem utf16_to_utf8_eq (src : Option (List Nat)) (src_len cap : Nat) (dst : List Nat)
    (h : cap ≤ dst.length) :
    pasu_utf16_to_utf8 src src_len dst cap =
      ((conv_top step_16_8 src src_len cap).1.length, (conv_top step_16_8 src src_len cap).2,
        (conv_top step_16_8 src src_len cap).1 ++
          dst.drop (conv_top step_16_8 src src_len cap).1.length) :=
  top_of_loop step_16_8 pasu_utf16_to_utf8_loop utf16_to_utf8_loop_eq src src_len cap dst h

theorem utf8_to_utf32_eq (src : Option (List Nat)) (src_len cap : Nat) (dst : List Nat)
    (h : cap ≤ dst.length) :
    pasu_utf8_to_utf32 src src_len dst cap =
      ((conv_top step_8_32 src src_len cap).1.length, (conv_top step_8_32 src src_len cap).2,
        (conv_top step_8_32 src src_len cap).1 ++
          dst.drop (conv_top step_8_32 src src_len cap).1.length) :=
  top_of_loop step_8_32 pasu_utf8_to_utf32_loop utf8_to_utf32_loop_eq src src_len cap dst h

theorem utf32_to_utf8_eq (src : Option (List Nat)) (src_len cap : Nat) (dst : List Nat)
    (h : cap ≤ dst.length) :
    pasu_utf32_to_utf8 src src_len dst cap =
      ((conv_top step_32_8 src src_len cap).1.length, (conv_top step_32_8 src src_len cap).2,
        (conv_top step_32_8 src src_len cap).1 ++
          dst.drop (conv_top step_32_8 src src_len cap).1.length) :=
  top_of_loop step_32_8 pasu_utf32_to_utf8_loop utf32_to_utf8_loop_eq src src_len cap dst h

theorem utf16_to_utf32_eq (src : Option (List Nat)) (src_len cap : Nat) (dst : List Nat)
    (h : cap ≤ dst.length) :
    pasu_utf16_to_utf32 src src_len dst cap =
      ((conv_top step_16_32 src src_len cap).1.length, (conv_top step_16_32 src src_len cap).2,
        (conv_top step_16_32 src src_len cap).1 ++
          dst.drop (conv_top step_16_32 src src_len cap).1.length) :=
  top_of_loop step_16_32 pasu_utf16_to_utf32_loop utf16_to_utf32_loop_eq src src_len cap dst h

theorem utf32_to_utf16_eq (src : Option (List Nat)) (src_len cap : Nat) (dst : List Nat)
    (h : cap ≤ dst.length) :
    pasu_utf32_to_utf16 src src_len dst cap =
      ((conv_top step_32_16 src src_len cap).1.length, (conv_top step_32_16 src src_len cap).2,
        (conv_top step_32_16 src src_len cap).1 ++
          dst.drop (conv_top step_32_16 src src_len cap).1.length) :=
  top_of_loop step_32_16 pasu_utf32_to_utf16_loop utf32_to_utf16_loop_eq src src_len cap dst h

/-- C14. No conversion writes past its stated capacity. For each of the six
buffer converters and every `src`, `src_len` and `dst_capacity` there is a
list `out` of at most `dst_capacity` elements, the same for every
destination, such that on every destination buffer holding at least
`dst_capacity` elements the converter returns `out.length` and leaves the
destination as `out` followed by the old elements from index `out.length`
on: the elements below the returned count are written whatever they held and
every element at or above it is left unchanged. -/
theorem converters_within_capacity (src : Option (List Nat)) (src_len dst_capacity : Nat) :
    (∃ out st, out.length ≤ dst_capacity ∧ ∀ dst : List Nat, dst_capacity ≤ dst.length →
      pasu_utf8_to_utf16 src src_len dst dst_capacity
        = (out.length, st, out ++ dst.drop out.length)) ∧
    (∃ out st, out.length ≤ dst_capacity ∧ ∀ dst : List Nat, dst_capacity ≤ dst.length →
      pasu_utf16_to_utf8 src src_len dst dst_capacity
        = (out.length, st, out ++ dst.drop out.length)) ∧
    (∃ out st, out.length ≤ dst_capacity ∧ ∀ dst : List Nat, dst_capacity ≤ dst.length →
      pasu_utf8_to_utf32 src src_len dst dst_capacity
        = (out.length, st, out ++ dst.drop out.length)) ∧
    (∃ out st, out.length ≤ dst_capacity ∧ ∀ dst : List Nat, dst_capacity ≤ dst.length →
      pasu_utf32_to_utf8 src src_len dst dst_capacity
        = (out.length, st, out ++ dst.drop out.length)) ∧
    (∃ out st, out.length ≤ dst_capacity ∧ ∀ dst : List Nat, dst_capacity ≤ dst.length →
      pasu_utf16_to_utf32 src src_len dst dst_capacity
        = (out.length, st, out ++ dst.drop out.length)) ∧
    (∃ out st, out.length ≤ dst_capacity ∧ ∀ dst : List Nat, dst_capacity ≤ dst.length →
      pasu_utf32_to_utf16 src src_len dst dst_capacity
        = (out.length, st, out ++ dst.drop out.length)) :=
  ⟨⟨_, _, conv_top_length_le step_8_16 src src_len dst_capacity,
      fun dst h => utf8_to_utf16_eq src src_len dst_capacity dst h⟩,
   ⟨_, _, conv_top_length_le step_16_8 src src_len dst_capacity,
      fun dst h => utf16_to_utf8_eq src src_len dst_capacity dst h⟩,
   ⟨_, _, conv_top_length_le step_8_32 src src_len dst_capacity,
      fun dst h => utf8_to_utf32_eq src src_len dst_capacity dst h⟩,
   ⟨_, _, conv_top_length_le step_32_8 src src_len dst_capacity,
      fun dst h => utf32_to_utf8_eq src src_len dst_capacity dst h⟩,
   ⟨_, _, conv_top_length_le step_16_32 src src_len dst_capacity,
      fun dst h => utf16_to_utf32_eq src src_len dst_capacity dst h⟩,
   ⟨_, _, conv_top_length_le step_32_16 src src_len dst_capacity,
      fun dst h => utf32_to_utf16_eq src src_len dst_capacity dst h⟩⟩

/-- Witness of C14: the three bytes of the euro sign converted to UTF-16 into
a four-unit destination of which only one unit is offered. -/
theorem converters_within_capacity_witness :
    ∃ out st, out.length ≤ 1 ∧
      pasu_utf8_to_utf16 (some [0xE2, 0x82, 0xAC]) 3 [7, 7, 7, 7] 1
        = (out.length, st, out ++ [7, 7, 7, 7].drop out.length) := by
  obtain ⟨out, st, hlen, h⟩ := (converters_within_capacity (some [0xE2, 0x82, 0xAC]) 3 1).1
  exact ⟨out, st, hlen, h [7, 7, 7, 7] (by decide)⟩

/-- The result length of a converter that computes `conv_top step`. -/
theorem conv_result_length (out : List Nat) (cap : Nat) (dst : List Nat)
    (ho : out.length ≤ cap) (h : cap ≤ dst.length) :
    (out ++ dst.drop out.length).length = dst.length := by
  rw [List.length_append, List.length_drop]
  omega

/-- The shared body of the C-string converters null-terminates the
destination, for any converter that keeps the length of the destination. -/
theorem cstr_convert_terminated
    (convert : Option (List Nat) → Nat → List Nat → Nat → Nat × pasu_status × List Nat)
    (hconv : ∀ (s : Option (List Nat)) (n c : Nat) (d : List Nat), c ≤ d.length →
      (convert s n d c).2.2.length = d.length)
    (src : Option (List Nat)) (dst : List Nat) (dst_capacity : Nat)
    (h0 : 0 < dst_capacity) (hc : dst_capacity ≤ dst.length) :
    ∃ r st d, cstr_convert convert src (some dst) dst_capacity = (r, st, some d) ∧
      r < dst_capacity ∧ d[r]? = some 0 := by
  have hset0 : (dst.set 0 0)[0]? = some 0 := by
    exact List.getElem?_set_self (by omega)
  unfold cstr_convert
  simp only
  rw [if_neg (by omega)]
  cases src with
  | none => exact ⟨0, _, _, rfl, h0, hset0⟩
  | some s =>
    simp only
    by_cases hl : pasu_cstr_len s = 0
    · rw [if_pos hl]
      exact ⟨0, _, _, rfl, h0, hset0⟩
    · rw [if_neg hl]
      by_cases h1 : dst_capacity ≤ 1
      · rw [if_pos h1]
        exact ⟨0, _, _, rfl, h0, hset0⟩
      · rw [if_neg h1]
        refine ⟨_, _, _, rfl, ?_, ?_⟩
        · split_ifs <;> omega
        · have hlen := hconv (some s) (pasu_cstr_len s) (dst_capacity - 1) dst (by omega)
          generalize convert (some s) (pasu_cstr_len s) dst (dst_capacity - 1) = r at hlen ⊢
          have hw : (if r.1 ≥ dst_capacity then dst_capacity - 1 else r.1) < r.2.2.length := by
            rw [hlen]; split_ifs <;> omega
          exact List.getElem?_set_self hw

/-! ## Fuel, `pasu_utf8_length`, and the C-string converters -/

/-- Fuel adequacy of `conv_run`: when a successful step consumes at least one
unit, any two amounts of fuel covering the rest of the input give the same
result, so the fuel never runs out before the input does. -/
theorem conv_run_fuel (step : List Nat → Nat → pasu_status × List Nat × Nat)
    (hstep : ∀ (s : List Nat) (n : Nat), 1 ≤ n → (step s n).1 = PASU_OK → 1 ≤ (step s n).2.2)
    (src : List Nat) (src_len cap : Nat) :
    ∀ (fuel fuel2 i : Nat) (out : List Nat), src_len - i ≤ fuel → src_len - i ≤ fuel2 →
      conv_run step src src_len cap fuel i out = conv_run step src src_len cap fuel2 i out := by
  intro fuel
  induction fuel with
  | zero =>
    intro fuel2 i out h1 _
    cases fuel2 with
    | zero => rfl
    | succ g =>
      unfold conv_run
      rw [if_neg (by omega)]
  | succ f ih =>
    intro fuel2 i out h1 h2
    cases fuel2 with
    | zero =>
      unfold conv_run
      rw [if_neg (by omega)]
    | succ g =>
      unfold conv_run
      by_cases hi : i < src_len
      · rw [if_pos hi, if_pos hi]
        simp only
        by_cases hs : (step (src.drop i) (src_len - i)).1 ≠ PASU_OK
        · rw [if_pos hs, if_pos hs]
        · rw [if_neg hs, if_neg hs]
          have hu := hstep (src.drop i) (src_len - i) (by omega) (not_not.1 hs)
          by_cases hc : out.length + (step (src.drop i) (src_len - i)).2.1.length > cap
          · rw [if_pos hc, if_pos hc]
          · rw [if_neg hc, if_neg hc]
            exact ih g _ _ (by omega) (by omega)
      · rw [if_neg hi, if_neg hi]

theorem step_8_16_progress (s : List Nat) (n : Nat) (hn : 1 ≤ n)
    (_h : (step_8_16 s n).1 = PASU_OK) : 1 ≤ (step_8_16 s n).2.2 := by
  have hb := (utf8_decode_used_bounds s n hn _ rfl).1
  unfold step_8_16
  simp only
  split_ifs <;> exact hb

theorem step_16_8_progress (s : List Nat) (n : Nat) (hn : 1 ≤ n)
    (_h : (step_16_8 s n).1 = PASU_OK) : 1 ≤ (step_16_8 s n).2.2 := by
  have hb := (utf16_decode_used_bounds s n hn _ rfl).1
  unfold step_16_8
  simp only
  split_ifs <;> exact hb

theorem step_8_32_progress (s : List Nat) (n : Nat) (hn : 1 ≤ n)
    (_h : (step_8_32 s n).1 = PASU_OK) : 1 ≤ (step_8_32 s n).2.2 :=
  (utf8_decode_used_bounds s n hn _ rfl).1

theorem step_16_32_progress (s : List Nat) (n : Nat) (hn : 1 ≤ n)
    (_h : (step_16_32 s n).1 = PASU_OK) : 1 ≤ (step_16_32 s n).2.2 :=
  (utf16_decode_used_bounds s n hn _ rfl).1

theorem step_32_8_progress (s : List Nat) (n : Nat) (_hn : 1 ≤ n)
    (_h : (step_32_8 s n).1 = PASU_OK) : 1 ≤ (step_32_8 s n).2.2 :=
  Nat.le_refl 1

theorem step_32_16_progress (s : List Nat) (n : Nat) (_hn : 1 ≤ n)
    (_h : (step_32_16 s n).1 = PASU_OK) : 1 ≤ (step_32_16 s n).2.2 :=
  Nat.le_refl 1

/-- Fuel adequacy of the six converter loops: the fuel `src_len` the
converters start with is enough, more fuel changes nothing. -/
theorem converter_loops_fuel (src : List Nat) (src_len cap fuel : Nat) (dst : List Nat)
    (hf : src_len ≤ fuel) (hc : cap ≤ dst.length) :
    pasu_utf8_to_utf16_loop src src_len cap fuel 0 0 dst
      = pasu_utf8_to_utf16_loop src src_len cap src_len 0 0 dst ∧
    pasu_utf16_to_utf8_loop src src_len cap fuel 0 0 dst
      = pasu_utf16_to_utf8_loop src src_len cap src_len 0 0 dst ∧
    pasu_utf8_to_utf32_loop src src_len cap fuel 0 0 dst
      = pasu_utf8_to_utf32_loop src src_len cap src_len 0 0 dst ∧
    pasu_utf32_to_utf8_loop src src_len cap fuel 0 0 dst
      = pasu_utf32_to_utf8_loop src src_len cap src_len 0 0 dst ∧
    pasu_utf16_to_utf32_loop src src_len cap fuel 0 0 dst
      = pasu_utf16_to_utf32_loop src src_len cap src_len 0 0 dst ∧
    pasu_utf32_to_utf16_loop src src_len cap fuel 0 0 dst
      = pasu_utf32_to_utf16_loop src src_len cap src_len 0 0 dst := by
  refine ⟨?_, ?_, ?_, ?_, ?_, ?_⟩
  · rw [utf8_to_utf16_loop_eq src src_len cap fuel 0 0 dst (Nat.zero_le _) hc,
      utf8_to_utf16_loop_eq src src_len cap src_len 0 0 dst (Nat.zero_le _) hc,
      conv_run_fuel step_8_16 step_8_16_progress src src_len cap fuel src_len 0 _ (by omega)
        (by omega)]
  · rw [utf16_to_utf8_loop_eq src src_len cap fuel 0 0 dst (Nat.zero_le _) hc,
      utf16_to_utf8_loop_eq src src_len cap src_len 0 0 dst (Nat.zero_le _) hc,
      conv_run_fuel step_16_8 step_16_8_progress src src_len cap fuel src_len 0 _ (by omega)
        (by omega)]
  · rw [utf8_to_utf32_loop_eq src src_len cap fuel 0 0 dst (Nat.zero_le _) hc,
      utf8_to_utf32_loop_eq src src_len cap src_len 0 0 dst (Nat.zero_le _) hc,
      conv_run_fuel step_8_32 step_8_32_progress src src_len cap fuel src_len 0 _ (by omega)
        (by omega)]
  · rw [utf32_to_utf8_loop_eq src src_len cap fuel 0 0 dst (Nat.zero_le _) hc,
      utf32_to_utf8_loop_eq src src_len cap src_len 0 0 dst (Nat.zero_le _) hc,
      conv_run_fuel step_32_8 step_32_8_progress src src_len cap fuel src_len 0 _ (by omega)
        (by omega)]
  · rw [utf16_to_utf32_loop_eq src src_len cap fuel 0 0 dst (Nat.zero_le _) hc,
      utf16_to_utf32_loop_eq src src_len cap src_len 0 0 dst (Nat.zero_le _) hc,
      conv_run_fuel step_16_32 step_16_32_progress src src_len cap fuel src_len 0 _ (by omega)
        (by omega)]
  · rw [utf32_to_utf16_loop_eq src src_len cap fuel 0 0 dst (Nat.zero_le _) hc,
      utf32_to_utf16_loop_eq src src_len cap src_len 0 0 dst (Nat.zero_le _) hc,
      conv_run_fuel step_32_16 step_32_16_progress src src_len cap fuel src_len 0 _ (by omega)
        (by omega)]

/-- Fuel adequacy of the loop of `pasu_utf8_length`. -/
theorem utf8_length_loop_fuel (str : List Nat) (len : Nat) :
    ∀ (fuel fuel2 pos count : Nat), len - pos ≤ fuel → len - pos ≤ fuel2 →
      pasu_utf8_length_loop str len fuel pos count
        = pasu_utf8_length_loop str len fuel2 pos count := by
  intro fuel
  induction fuel with
  | zero =>
    intro fuel2 pos count h1 _
    cases fuel2 with
    | zero => rfl
    | succ g =>
      unfold pasu_utf8_length_loop
      rw [if_neg (by omega)]
  | succ f ih =>
    intro fuel2 pos count h1 h2
    cases fuel2 with
    | zero =>
      unfold pasu_utf8_length_loop
      rw [if_neg (by omega)]
    | succ g =>
      unfold pasu_utf8_length_loop
      by_cases hi : pos < len
      · rw [if_pos hi, if_pos hi]
        simp only
        by_cases hs : (pasu_utf8_decode (some (str.drop pos)) (len - pos)).1 ≠ PASU_OK
        · rw [if_pos hs, if_pos hs]
        · rw [if_neg hs, if_neg hs]
          have hu := (utf8_decode_used_bounds (str.drop pos) (len - pos) (by omega) _ rfl).1
          exact ih g _ _ (by omega) (by omega)
      · rw [if_neg hi, if_neg hi]

/-- The loops of `pasu_utf8_to_utf32` and `pasu_utf8_length` run in step while
the count has not passed the position and the capacity covers the input. -/
theorem utf8_to_utf32_loop_counts (src : List Nat) (len cap : Nat) (hcap : len ≤ cap) :
    ∀ (fuel i j : Nat) (dst : List Nat), j ≤ i →
      (pasu_utf8_to_utf32_loop src len cap fuel i j dst).1
          = (pasu_utf8_length_loop src len fuel i j).1 ∧
      (pasu_utf8_to_utf32_loop src len cap fuel i j dst).2.1
          = (pasu_utf8_length_loop src len fuel i j).2 := by
  intro fuel
  induction fuel with
  | zero => intro i j dst _; exact ⟨rfl, rfl⟩
  | succ f ih =>
    intro i j dst hj
    unfold pasu_utf8_to_utf32_loop pasu_utf8_length_loop
    by_cases hi : i < len
    · rw [if_pos hi, if_pos hi]
      simp only
      by_cases hs : (pasu_utf8_decode (some (src.drop i)) (len - i)).1 ≠ PASU_OK
      · rw [if_pos hs, if_pos hs]
        exact ⟨rfl, rfl⟩
      · rw [if_neg hs, if_neg hs, if_neg (by omega)]
        have hu := (utf8_decode_used_bounds (src.drop i) (len - i) (by omega) _ rfl).1
        exact ih _ _ _ (by omega)
    · rw [if_neg hi, if_neg hi]
      exact ⟨rfl, rfl⟩

/-- The value both functions of C18 compute on the witness input. -/
theorem utf8_length_example :
    pasu_utf8_length (some [0x48, 0xE2, 0x82, 0xAC, 0x80]) 5 = (2, PASU_E_INVALID) := by
  decide

theorem utf8_to_utf16_keeps_length (s : Option (List Nat)) (n c : Nat) (d : List Nat)
    (h : c ≤ d.length) : (pasu_utf8_to_utf16 s n d c).2.2.length = d.length := by
  rw [utf8_to_utf16_eq s n c d h]
  exact conv_result_length _ c d (conv_top_length_le _ _ _ _) h

theorem utf16_to_utf8_keeps_length (s : Option (List Nat)) (n c : Nat) (d : List Nat)
    (h : c ≤ d.length) : (pasu_utf16_to_utf8 s n d c).2.2.length = d.length := by
  rw [utf16_to_utf8_eq s n c d h]
  exact conv_result_length _ c d (conv_top_length_le _ _ _ _) h

theorem utf8_to_utf32_keeps_length (s : Option (List Nat)) (n c : Nat) (d : List Nat)
    (h : c ≤ d.length) : (pasu_utf8_to_utf32 s n d c).2.2.length = d.length := by
  rw [utf8_to_utf32_eq s n c d h]
  exact conv_result_length _ c d (conv_top_length_le _ _ _ _) h

theorem utf32_to_utf8_keeps_length (s : Option (List Nat)) (n c : Nat) (d : List Nat)
    (h : c ≤ d.length) : (pasu_utf32_to_utf8 s n d c).2.2.length = d.length := by
  rw [utf32_to_utf8_eq s n c d h]
  exact conv_result_length _ c d (conv_top_length_le _ _ _ _) h

theorem utf16_to_utf32_keeps_length (s : Option (List Nat)) (n c : Nat) (d : List Nat)
    (h : c ≤ d.length) : (pasu_utf16_to_utf32 s n d c).2.2.length = d.length := by
  rw [utf16_to_utf32_eq s n c d h]
  exact conv_result_length _ c d (conv_top_length_le _ _ _ _) h

theorem utf32_to_utf16_keeps_length (s : Option (List Nat)) (n c : Nat) (d : List Nat)
    (h : c ≤ d.length) : (pasu_utf32_to_utf16 s n d c).2.2.length = d.length := by
  rw [utf32_to_utf16_eq s n c d h]
  exact conv_result_length _ c d (conv_top_length_le _ _ _ _) h

/-- C12. The C-string converters always leave `dst` null-terminated: for each
of the six, every `src` (NULL and ill-formed input included) and every
non-null `dst` holding `dst_capacity > 0` elements, the returned count `r`
satisfies `r < dst_capacity` and `dst[r] = 0` on return, whatever the
status. -/
theorem cstr_null_terminated (src : Option (List Nat)) (dst : List Nat) (dst_capacity : Nat)
    (h0 : 0 < dst_capacity) (hc : dst_capacity ≤ dst.length) :
    (∃ r st d, pasu_utf8_to_utf16_cstr src (some dst) dst_capacity = (r, st, some d) ∧
      r < dst_capacity ∧ d[r]? = some 0) ∧
    (∃ r st d, pasu_utf16_to_utf8_cstr src (some dst) dst_capacity = (r, st, some d) ∧
      r < dst_capacity ∧ d[r]? = some 0) ∧
    (∃ r st d, pasu_utf8_to_utf32_cstr src (some dst) dst_capacity = (r, st, some d) ∧
      r < dst_capacity ∧ d[r]? = some 0) ∧
    (∃ r st d, pasu_utf32_to_utf8_cstr src (some dst) dst_capacity = (r, st, some d) ∧
      r < dst_capacity ∧ d[r]? = some 0) ∧
    (∃ r st d, pasu_utf16_to_utf32_cstr src (some dst) dst_capacity = (r, st, some d) ∧
      r < dst_capacity ∧ d[r]? = some 0) ∧
    (∃ r st d, pasu_utf32_to_utf16_cstr src (some dst) dst_capacity = (r, st, some d) ∧
      r < dst_capacity ∧ d[r]? = some 0) :=
  ⟨cstr_convert_terminated pasu_utf8_to_utf16 utf8_to_utf16_keeps_length src dst dst_capacity h0 hc,
   cstr_convert_terminated pasu_utf16_to_utf8 utf16_to_utf8_keeps_length src dst dst_capacity h0 hc,
   cstr_convert_terminated pasu_utf8_to_utf32 utf8_to_utf32_keeps_length src dst dst_capacity h0 hc,
   cstr_convert_terminated pasu_utf32_to_utf8 utf32_to_utf8_keeps_length src dst dst_capacity h0 hc,
   cstr_convert_terminated pasu_utf16_to_utf32 utf16_to_utf32_keeps_length src dst dst_capacity
     h0 hc,
   cstr_convert_terminated pasu_utf32_to_utf16 utf32_to_utf16_keeps_length src dst dst_capacity
     h0 hc⟩

/-- Witness of C12: an ill-formed source (a lead byte without its
continuation) and a destination of three elements. -/
theorem cstr_null_terminated_witness :
    (0 < 3 ∧ 3 ≤ [9, 9, 9].length) ∧
    (∃ r st d, pasu_utf8_to_utf16_cstr (some [0x41, 0xC3, 0]) (some [9, 9, 9]) 3
        = (r, st, some d) ∧ r < 3 ∧ d[r]? = some 0) :=
  ⟨⟨by decide, by decide⟩,
    (cstr_null_terminated (some [0x41, 0xC3, 0]) [9, 9, 9] 3 (by decide) (by decide)).1⟩

/-- The value `pasu_utf8_to_utf16_cstr` computes on the witness input of C12:
one unit written, then the terminator, and the status of the decoding
error. -/
theorem utf8_to_utf16_cstr_example :
    pasu_utf8_to_utf16_cstr (some [0x41, 0xC3, 0]) (some [9, 9, 9]) 3
      = (1, PASU_E_TRUNC, some [0x41, 0, 9]) := by
  decide

/-- C13. A truncated UTF-8 sequence makes `pasu_utf8_to_utf16` report
`PASU_E_TRUNC`, a status other than the four its documentation lists
(`PASU_E_INVALID`, `PASU_E_RANGE`, `PASU_E_SURROG`, `PASU_E_NOSPACE`). -/
theorem utf8_to_utf16_reports_trunc :
    pasu_utf8_to_utf16 (some [0xC3]) 1 [0, 0, 0, 0] 4 = (0, PASU_E_TRUNC, [0, 0, 0, 0]) := by
  decide

/-! ## Converting a sequence of encoded code points -/

theorem encode_all_length_ge (enc : Nat → List Nat) :
    ∀ cs : List Nat, (∀ cp ∈ cs, 1 ≤ (enc cp).length) → cs.length ≤ (encode_all enc cs).length := by
  intro cs
  induction cs with
  | nil => intro _; exact Nat.le_refl _
  | cons c r ih =>
    intro h
    have h1 := h c (List.mem_cons_self _ _)
    have h2 := ih (fun cp hcp => h cp (List.mem_cons_of_mem _ hcp))
    simp only [encode_all, List.length_cons, List.length_append]
    omega

theorem encode_all_length_le (f g : Nat → List Nat) :
    ∀ cs : List Nat, (∀ cp ∈ cs, (f cp).length ≤ (g cp).length) →
      (encode_all f cs).length ≤ (encode_all g cs).length := by
  intro cs
  induction cs with
  | nil => intro _; exact Nat.le_refl _
  | cons c r ih =>
    intro h
    have h1 := h c (List.mem_cons_self _ _)
    have h2 := ih (fun cp hcp => h cp (List.mem_cons_of_mem _ hcp))
    simp only [encode_all, List.length_append]
    omega

theorem encode_all_singleton : ∀ cs : List Nat, encode_all (fun cp => [cp]) cs = cs := by
  intro cs
  induction cs with
  | nil => rfl
  | cons c r ih => simp only [encode_all, ih, List.singleton_append]

/-- On a source made of the input forms `fin cp` of a list of code points,
each of which one step turns into `fout cp`, `conv_run` produces the
concatenation of the output forms and reports `PASU_OK`. -/
theorem conv_run_encode_all (step : List Nat → Nat → pasu_status × List Nat × Nat)
    (fin fout : Nat → List Nat) (cap : Nat) (rest : List Nat) :
    ∀ (cs pre out : List Nat) (fuel : Nat),
      (∀ cp ∈ cs, 1 ≤ (fin cp).length ∧ ∀ (tail : List Nat) (n : Nat), (fin cp).length ≤ n →
        n ≤ (fin cp ++ tail).length → step (fin cp ++ tail) n = (PASU_OK, fout cp, (fin cp).length)) →
      cs.length ≤ fuel → out.length + (encode_all fout cs).length ≤ cap →
      conv_run step (pre ++ (encode_all fin cs ++ rest)) (pre.length + (encode_all fin cs).length)
        cap fuel pre.length out = (out ++ encode_all fout cs, PASU_OK) := by
  intro cs
  induction cs with
  | nil =>
    intro pre out fuel _ _ _
    simp only [encode_all, List.length_nil, Nat.add_zero, List.append_nil]
    cases fuel with
    | zero => rfl
    | succ f =>
      unfold conv_run
      rw [if_neg (Nat.lt_irrefl _)]
  | cons c r ih =>
    intro pre out fuel hstep hfuel hcap
    obtain ⟨hlen, hs⟩ := hstep c (List.mem_cons_self _ _)
    cases fuel with
    | zero => simp at hfuel
    | succ f =>
      simp only [encode_all, List.length_append] at hcap ⊢
      unfold conv_run
      rw [if_pos (by omega)]
      have hdrop : (pre ++ (fin c ++ encode_all fin r ++ rest)).drop pre.length
          = fin c ++ (encode_all fin r ++ rest) := by
        rw [List.drop_left, List.append_assoc]
      have hn : pre.length + ((fin c).length + (encode_all fin r).length) - pre.length
          = (fin c).length + (encode_all fin r).length := by omega
      rw [hdrop, hn, hs (encode_all fin r ++ rest) _ (by omega)
        (by simp only [List.length_append]; omega)]
      simp only
      rw [if_neg (by simp), if_neg (by omega)]
      have hsrc : pre ++ (fin c ++ encode_all fin r ++ rest)
          = (pre ++ fin c) ++ (encode_all fin r ++ rest) := by
        simp only [List.append_assoc]
      have hl : pre.length + ((fin c).length + (encode_all fin r).length)
          = (pre ++ fin c).length + (encode_all fin r).length := by
        rw [List.length_append]; omega
      have hi : pre.length + (fin c).length = (pre ++ fin c).length := by
        rw [List.length_append]
      rw [hsrc, hl, hi, ih (pre ++ fin c) (out ++ fout c) f
        (fun cp hcp => hstep cp (List.mem_cons_of_mem _ hcp))
        (by simp only [List.length_cons] at hfuel; omega)
        (by rw [List.length_append]; omega), List.append_assoc]

/-- The top-level form of `conv_run_encode_all`. -/
theorem conv_top_encode_all (step : List Nat → Nat → pasu_status × List Nat × Nat)
    (fin fout : Nat → List Nat) (cap : Nat) (rest cs : List Nat)
    (hstep : ∀ cp ∈ cs, 1 ≤ (fin cp).length ∧ ∀ (tail : List Nat) (n : Nat),
      (fin cp).length ≤ n → n ≤ (fin cp ++ tail).length →
      step (fin cp ++ tail) n = (PASU_OK, fout cp, (fin cp).length))
    (hcap : (encode_all fout cs).length ≤ cap) :
    conv_top step (some (encode_all fin cs ++ rest)) (encode_all fin cs).length cap
      = (encode_all fout cs, PASU_OK) := by
  have h := conv_run_encode_all step fin fout cap rest cs [] [] (encode_all fin cs).length hstep
    (encode_all_length_ge fin cs (fun cp hcp => (hstep cp hcp).1))
    (by simp only [List.length_nil, Nat.zero_add]; exact hcap)
  simp only [List.nil_append, List.length_nil, Nat.zero_add] at h
  exact h

/-- Encode then decode for every valid scalar, for any `len` that covers the
encoded bytes and stays within the buffer. -/
theorem utf8_decode_encoded (cp : Nat) (tail : List Nat) (n : Nat)
    (hv : pasu_is_valid_scalar cp = true)
    (h1 : (pasu_utf8_encode cp).2.1.length ≤ n)
    (h2 : n ≤ ((pasu_utf8_encode cp).2.1 ++ tail).length) :
    (pasu_utf8_encode cp).1 = PASU_OK ∧ 1 ≤ (pasu_utf8_encode cp).2.1.length ∧
    pasu_utf8_decode (some ((pasu_utf8_encode cp).2.1 ++ tail)) n
      = (PASU_OK, cp, (pasu_utf8_encode cp).2.1.length) := by
  have hr := (valid_scalar_iff cp).1 hv
  have key : ∀ b : List Nat, pasu_utf8_encode cp = (PASU_OK, b, b.length) → 1 ≤ b.length →
      pasu_utf8_decode (some (b ++ tail.take (n - b.length))) (b ++ tail.take (n - b.length)).length
        = (PASU_OK, cp, b.length) →
      (pasu_utf8_encode cp).1 = PASU_OK ∧ 1 ≤ (pasu_utf8_encode cp).2.1.length ∧
      pasu_utf8_decode (some ((pasu_utf8_encode cp).2.1 ++ tail)) n
        = (PASU_OK, cp, (pasu_utf8_encode cp).2.1.length) := by
    intro b he hb hd
    rw [he] at h1 h2 ⊢
    simp only at h1 h2 ⊢
    refine ⟨trivial, hb, ?_⟩
    have hl : (b ++ tail.take (n - b.length)).length = n := by
      simp only [List.length_append, List.length_take] at h2 ⊢
      omega
    have ht : (b ++ tail).take n = b ++ tail.take (n - b.length) := by
      rw [List.take_append_eq_append_take, List.take_of_length_le h1]
    rw [hl, ← ht, utf8_decode_take] at hd
    exact hd
  by_cases c1 : cp < 0x80
  · obtain ⟨he, hd⟩ := utf8_encode_decode_1 cp (tail.take (n - 1)) c1
    exact key [cp] he (by simp) hd
  · by_cases c2 : cp < 0x800
    · obtain ⟨b0, b1, he, hd⟩ := utf8_encode_decode_2 cp (tail.take (n - 2)) (by omega) c2
      exact key [b0, b1] he (by simp) hd
    · by_cases c3 : cp < 0x10000
      · obtain ⟨b0, b1, b2, he, hd⟩ :=
          utf8_encode_decode_3 cp (tail.take (n - 3)) (by omega) c3 hv
        exact key [b0, b1, b2] he (by simp) hd
      · obtain ⟨b0, b1, b2, b3, he, hd⟩ :=
          utf8_encode_decode_4 cp (tail.take (n - 4)) (by omega) hr.1
        exact key [b0, b1, b2, b3] he (by simp) hd

/-- The UTF-16 counterpart of `utf8_decode_encoded`. -/
theorem utf16_decode_encoded (cp : Nat) (tail : List Nat) (n : Nat)
    (hv : pasu_is_valid_scalar cp = true)
    (h1 : (pasu_utf16_encode cp).2.1.length ≤ n)
    (h2 : n ≤ ((pasu_utf16_encode cp).2.1 ++ tail).length) :
    (pasu_utf16_encode cp).1 = PASU_OK ∧ 1 ≤ (pasu_utf16_encode cp).2.1.length ∧
    pasu_utf16_decode (some ((pasu_utf16_encode cp).2.1 ++ tail)) n
      = (PASU_OK, cp, (pasu_utf16_encode cp).2.1.length) := by
  obtain ⟨u, he, hu, hd⟩ :=
    utf16_encode_decode cp (tail.take (n - (pasu_utf16_encode cp).2.1.length)) hv
  rw [he] at h1 h2 hd ⊢
  simp only at h1 h2 hd ⊢
  refine ⟨trivial, by omega, ?_⟩
  have hl : (u ++ tail.take (n - u.length)).length = n := by
    simp only [List.length_append, List.length_take] at h2 ⊢
    omega
  have ht : (u ++ tail).take n = u ++ tail.take (n - u.length) := by
    rw [List.take_append_eq_append_take, List.take_of_length_le h1]
  rw [hl, ← ht, utf16_decode_take] at hd
  exact hd

theorem utf16_encode_length_le (cp : Nat) (hv : pasu_is_valid_scalar cp = true) :
    (pasu_utf16_encode cp).2.1.length ≤ (pasu_utf8_encode cp).2.1.length := by
  unfold pasu_utf16_encode pasu_utf8_encode
  simp only [hv]
  split_ifs <;> simp <;> omega

/-! ## The round trip through the three encodings -/

/-- A byte buffer on which the loop of `pasu_utf8_length` reports `PASU_OK`
is, from any position the loop reaches, the concatenation of the UTF-8
encodings of valid scalars. -/
theorem utf8_wellformed_decompose (x : List Nat) (hb : ∀ b ∈ x, b < 256) :
    ∀ (fuel pos count : Nat), x.length - pos ≤ fuel →
      (pasu_utf8_length_loop x x.length fuel pos count).2 = PASU_OK →
      ∃ cs : List Nat, (∀ cp ∈ cs, pasu_is_valid_scalar cp = true) ∧
        x.drop pos = encode_all (fun cp => (pasu_utf8_encode cp).2.1) cs := by
  intro fuel
  induction fuel with
  | zero =>
    intro pos count hf _
    exact ⟨[], fun _ h => absurd h (List.not_mem_nil _), List.drop_eq_nil_of_le (by omega)⟩
  | succ f ih =>
    intro pos count hf hok
    unfold pasu_utf8_length_loop at hok
    by_cases hi : pos < x.length
    · rw [if_pos hi] at hok
      simp only at hok
      by_cases hs : (pasu_utf8_decode (some (x.drop pos)) (x.length - pos)).1 ≠ PASU_OK
      · rw [if_pos hs] at hok
        exact absurd hok hs
      · rw [if_neg hs] at hok
        have hu := utf8_decode_used_bounds (x.drop pos) (x.length - pos) (by omega) _ rfl
        obtain ⟨cs, hcs, hx⟩ := ih _ _ (by omega) hok
        have hd : pasu_utf8_decode (some (x.drop pos)) (x.length - pos)
            = (PASU_OK, (pasu_utf8_decode (some (x.drop pos)) (x.length - pos)).2.1,
              (pasu_utf8_decode (some (x.drop pos)) (x.length - pos)).2.2) := by
          rw [← not_not.1 hs]
        obtain ⟨hv, he⟩ := utf8_canon_cases (x.drop pos) (x.length - pos) _ _
          (fun b hbm => hb b (List.mem_of_mem_drop hbm))
          (by rw [List.length_drop]) hd
        refine ⟨(pasu_utf8_decode (some (x.drop pos)) (x.length - pos)).2.1 :: cs, ?_, ?_⟩
        · intro cp hcp
          rcases List.mem_cons.1 hcp with h | h
          · rw [h]; exact hv
          · exact hcs cp h
        · simp only [encode_all]
          rw [he, ← hx]
          simp only
          rw [← List.drop_drop, List.take_append_drop]
    · exact ⟨[], fun _ h => absurd h (List.not_mem_nil _), List.drop_eq_nil_of_le (by omega)⟩

theorem utf16_encode_ok (cp : Nat) (hv : pasu_is_valid_scalar cp = true) :
    (pasu_utf16_encode cp).1 = PASU_OK ∧ 1 ≤ (pasu_utf16_encode cp).2.1.length := by
  obtain ⟨u, he, hu, -⟩ := utf16_encode_decode cp [] hv
  rw [he]
  exact ⟨rfl, by simp only; omega⟩

theorem utf8_encode_ok (cp : Nat) (hv : pasu_is_valid_scalar cp = true) :
    (pasu_utf8_encode cp).1 = PASU_OK ∧ 1 ≤ (pasu_utf8_encode cp).2.1.length := by
  have h := utf8_decode_encoded cp [] (pasu_utf8_encode cp).2.1.length hv (Nat.le_refl _)
    (by simp)
  exact ⟨h.1, h.2.1⟩

/-- UTF-8 to UTF-16 on the encodings of valid scalars. -/
theorem stage_8_16 (cs rest : List Nat) (cap : Nat)
    (hv : ∀ cp ∈ cs, pasu_is_valid_scalar cp = true)
    (hcap : (encode_all (fun cp => (pasu_utf16_encode cp).2.1) cs).length ≤ cap) :
    conv_top step_8_16 (some (encode_all (fun cp => (pasu_utf8_encode cp).2.1) cs ++ rest))
      (encode_all (fun cp => (pasu_utf8_encode cp).2.1) cs).length cap
      = (encode_all (fun cp => (pasu_utf16_encode cp).2.1) cs, PASU_OK) := by
  refine conv_top_encode_all step_8_16 _ _ cap rest cs ?_ hcap
  intro cp hcp
  have h16 := utf16_encode_ok cp (hv cp hcp)
  refine ⟨(utf8_encode_ok cp (hv cp hcp)).2, ?_⟩
  intro tail n h1 h2
  obtain ⟨-, -, hdec⟩ := utf8_decode_encoded cp tail n (hv cp hcp) h1 h2
  unfold step_8_16
  simp only
  rw [hdec]
  simp only [ne_eq, not_true_eq_false, if_false, h16.1]

/-- UTF-16 to UTF-32 on the encodings of valid scalars. -/
theorem stage_16_32 (cs rest : List Nat) (cap : Nat)
    (hv : ∀ cp ∈ cs, pasu_is_valid_scalar cp = true)
    (hcap : cs.length ≤ cap) :
    conv_top step_16_32 (some (encode_all (fun cp => (pasu_utf16_encode cp).2.1) cs ++ rest))
      (encode_all (fun cp => (pasu_utf16_encode cp).2.1) cs).length cap
      = (cs, PASU_OK) := by
  have h := conv_top_encode_all step_16_32 (fun cp => (pasu_utf16_encode cp).2.1)
    (fun cp => [cp]) cap rest cs ?_ (by rw [encode_all_singleton]; exact hcap)
  · rw [encode_all_singleton] at h
    exact h
  · intro cp hcp
    refine ⟨(utf16_encode_ok cp (hv cp hcp)).2, ?_⟩
    intro tail n h1 h2
    obtain ⟨-, -, hdec⟩ := utf16_decode_encoded cp tail n (hv cp hcp) h1 h2
    unfold step_16_32
    simp only
    rw [hdec]

/-- UTF-32 to UTF-8 on valid scalars. -/
theorem stage_32_8 (cs rest : List Nat) (cap : Nat)
    (hv : ∀ cp ∈ cs, pasu_is_valid_scalar cp = true)
    (hcap : (encode_all (fun cp => (pasu_utf8_encode cp).2.1) cs).length ≤ cap) :
    conv_top step_32_8 (some (cs ++ rest)) cs.length cap
      = (encode_all (fun cp => (pasu_utf8_encode cp).2.1) cs, PASU_OK) := by
  have h := conv_top_encode_all step_32_8 (fun cp => [cp])
    (fun cp => (pasu_utf8_encode cp).2.1) cap rest cs ?_ hcap
  · rw [encode_all_singleton] at h
    exact h
  · intro cp hcp
    refine ⟨Nat.le_refl 1, ?_⟩
    intro tail n _ _
    unfold step_32_8
    simp only [List.singleton_append, List.getD_cons_zero, List.length_singleton,
      (utf8_encode_ok cp (hv cp hcp)).1]

/-- C11. Buffer-level round trip through all three encodings: for every
well-formed UTF-8 buffer `x` (bytes on which `pasu_utf8_length` reports
`PASU_OK`) and destination capacities of at least `x.length`,
`pasu_utf8_to_utf16`, then `pasu_utf16_to_utf32` on its output, then
`pasu_utf32_to_utf8` on that output each report `PASU_OK`, and the final byte
count and bytes equal `x`. -/
theorem buffer_round_trip (x d16 d32 d8 : List Nat) (c16 c32 c8 : Nat)
    (hbytes : ∀ b ∈ x, b < 256)
    (hwf : (pasu_utf8_length (some x) x.length).2 = PASU_OK)
    (h16 : x.length ≤ c16) (h32 : x.length ≤ c32) (h8 : x.length ≤ c8)
    (hd16 : c16 ≤ d16.length) (hd32 : c32 ≤ d32.length) (hd8 : c8 ≤ d8.length) :
    (pasu_utf8_to_utf16 (some x) x.length d16 c16).2.1 = PASU_OK ∧
    (pasu_utf16_to_utf32 (some (pasu_utf8_to_utf16 (some x) x.length d16 c16).2.2)
      (pasu_utf8_to_utf16 (some x) x.length d16 c16).1 d32 c32).2.1 = PASU_OK ∧
    (pasu_utf32_to_utf8
      (some (pasu_utf16_to_utf32 (some (pasu_utf8_to_utf16 (some x) x.length d16 c16).2.2)
        (pasu_utf8_to_utf16 (some x) x.length d16 c16).1 d32 c32).2.2)
      (pasu_utf16_to_utf32 (some (pasu_utf8_to_utf16 (some x) x.length d16 c16).2.2)
        (pasu_utf8_to_utf16 (some x) x.length d16 c16).1 d32 c32).1 d8 c8)
      = (x.length, PASU_OK, x ++ d8.drop x.length) := by
  obtain ⟨cs, hv, hx⟩ := utf8_wellformed_decompose x hbytes x.length 0 0 (by omega) hwf
  rw [List.drop_zero] at hx
  have hl16 : (encode_all (fun cp => (pasu_utf16_encode cp).2.1) cs).length ≤ x.length := by
    rw [hx]
    exact encode_all_length_le _ _ cs (fun cp hcp => utf16_encode_length_le cp (hv cp hcp))
  have hl32 : cs.length ≤ (encode_all (fun cp => (pasu_utf16_encode cp).2.1) cs).length :=
    encode_all_length_ge _ cs (fun cp hcp => (utf16_encode_ok cp (hv cp hcp)).2)
  have s1 := stage_8_16 cs [] c16 hv (by omega)
  rw [List.append_nil, ← hx] at s1
  have e1 := utf8_to_utf16_eq (some x) x.length c16 d16 hd16
  rw [s1] at e1
  simp only at e1
  have s2 := stage_16_32 cs
    (d16.drop (encode_all (fun cp => (pasu_utf16_encode cp).2.1) cs).length) c32 hv (by omega)
  have e2 := utf16_to_utf32_eq
    (some (encode_all (fun cp => (pasu_utf16_encode cp).2.1) cs ++
      d16.drop (encode_all (fun cp => (pasu_utf16_encode cp).2.1) cs).length))
    (encode_all (fun cp => (pasu_utf16_encode cp).2.1) cs).length c32 d32 hd32
  rw [s2] at e2
  simp only at e2
  have s3 := stage_32_8 cs (d32.drop cs.length) c8 hv (by rw [← hx]; exact h8)
  have e3 := utf32_to_utf8_eq (some (cs ++ d32.drop cs.length)) cs.length c8 d8 hd8
  rw [s3, ← hx] at e3
  simp only at e3
  rw [e1]
  simp only
  rw [e2]
  simp only
  rw [e3]
  exact ⟨trivial, trivial, rfl⟩

/-- Witness of C11: the seven bytes of `A`, U+00E9 and U+1F600, round-tripped
through destinations of eight elements holding arbitrary old content. -/
theorem buffer_round_trip_witness :
    pasu_utf32_to_utf8
      (some (pasu_utf16_to_utf32
        (some (pasu_utf8_to_utf16 (some [0x41, 0xC3, 0xA9, 0xF0, 0x9F, 0x98, 0x80]) 7
          [9, 9, 9, 9, 9, 9, 9, 9] 8).2.2)
        (pasu_utf8_to_utf16 (some [0x41, 0xC3, 0xA9, 0xF0, 0x9F, 0x98, 0x80]) 7
          [9, 9, 9, 9, 9, 9, 9, 9] 8).1 [8, 8, 8, 8, 8, 8, 8, 8] 8).2.2)
      (pasu_utf16_to_utf32
        (some (pasu_utf8_to_utf16 (some [0x41, 0xC3, 0xA9, 0xF0, 0x9F, 0x98, 0x80]) 7
          [9, 9, 9, 9, 9, 9, 9, 9] 8).2.2)
        (pasu_utf8_to_utf16 (some [0x41, 0xC3, 0xA9, 0xF0, 0x9F, 0x98, 0x80]) 7
          [9, 9, 9, 9, 9, 9, 9, 9] 8).1 [8, 8, 8, 8, 8, 8, 8, 8] 8).1
      [7, 7, 7, 7, 7, 7, 7, 7] 8
      = (7, PASU_OK, [0x41, 0xC3, 0xA9, 0xF0, 0x9F, 0x98, 0x80, 7]) :=
  (buffer_round_trip [0x41, 0xC3, 0xA9, 0xF0, 0x9F, 0x98, 0x80] [9, 9, 9, 9, 9, 9, 9, 9]
    [8, 8, 8, 8, 8, 8, 8, 8] [7, 7, 7, 7, 7, 7, 7, 7] 8 8 8
    (by decide) (by decide) (by decide) (by decide) (by decide) (by decide) (by decide)
    (by decide)).2.2


/-! ## `pasu_utf8_length` counts the scalar values -/

/-- The loop of `pasu_utf8_length` on the encodings of the valid scalars `cs`
followed by `rest`, where `rest` is empty or does not decode: it counts the
scalars of `cs` and stops at `rest`. -/
theorem utf8_length_loop_encoded (rest : List Nat)
    (hrest : rest = [] ∨ (pasu_utf8_decode (some rest) rest.length).1 ≠ PASU_OK) :
    ∀ (cs pre : List Nat) (count fuel : Nat),
      (∀ cp ∈ cs, pasu_is_valid_scalar cp = true) → cs.length + rest.length ≤ fuel →
      pasu_utf8_length_loop
          (pre ++ (encode_all (fun cp => (pasu_utf8_encode cp).2.1) cs ++ rest))
          (pre.length + (encode_all (fun cp => (pasu_utf8_encode cp).2.1) cs ++ rest).length)
          fuel pre.length count
        = (count + cs.length,
           if rest = [] then PASU_OK else (pasu_utf8_decode (some rest) rest.length).1) := by
  intro cs
  induction cs with
  | nil =>
    intro pre count fuel _ hf
    simp only [encode_all, List.nil_append, List.length_nil, Nat.add_zero]
    by_cases hr : rest = []
    · subst hr
      simp only [List.append_nil, List.length_nil, Nat.add_zero, if_true]
      cases fuel with
      | zero => rfl
      | succ f =>
        unfold pasu_utf8_length_loop
        rw [if_neg (Nat.lt_irrefl _)]
    · have hd := hrest.resolve_left hr
      have hpos : 0 < rest.length := List.length_pos.2 hr
      cases fuel with
      | zero => simp only [List.length_nil, Nat.zero_add] at hf; omega
      | succ f =>
        unfold pasu_utf8_length_loop
        rw [if_pos (by omega), List.drop_left, Nat.add_sub_cancel_left]
        simp only
        rw [if_pos hd, if_neg hr]
  | cons c cs ih =>
    intro pre count fuel hv hf
    have hvc := hv c (List.mem_cons_self _ _)
    cases fuel with
    | zero => simp only [List.length_cons] at hf; omega
    | succ f =>
      simp only [encode_all, List.append_assoc, List.length_append, List.length_cons] at hf ⊢
      obtain ⟨-, hlen1, hdec⟩ := utf8_decode_encoded c
        (encode_all (fun cp => (pasu_utf8_encode cp).2.1) cs ++ rest)
        ((pasu_utf8_encode c).2.1.length +
          ((encode_all (fun cp => (pasu_utf8_encode cp).2.1) cs).length + rest.length))
        hvc (by omega) (by simp only [List.length_append]; omega)
      unfold pasu_utf8_length_loop
      rw [if_pos (by omega), List.drop_left, Nat.add_sub_cancel_left, hdec]
      simp only
      rw [if_neg (by simp)]
      have hsrc : pre ++ ((pasu_utf8_encode c).2.1 ++
            (encode_all (fun cp => (pasu_utf8_encode cp).2.1) cs ++ rest))
          = (pre ++ (pasu_utf8_encode c).2.1) ++
            (encode_all (fun cp => (pasu_utf8_encode cp).2.1) cs ++ rest) := by
        simp only [List.append_assoc]
      have hl : pre.length + ((pasu_utf8_encode c).2.1.length +
            ((encode_all (fun cp => (pasu_utf8_encode cp).2.1) cs).length + rest.length))
          = (pre ++ (pasu_utf8_encode c).2.1).length +
            (encode_all (fun cp => (pasu_utf8_encode cp).2.1) cs ++ rest).length := by
        simp only [List.length_append]; omega
      have hi : pre.length + (pasu_utf8_encode c).2.1.length
          = (pre ++ (pasu_utf8_encode c).2.1).length := by
        rw [List.length_append]
      rw [hsrc, hl, hi, ih (pre ++ (pasu_utf8_encode c).2.1) (count + 1) f
        (fun cp hcp => hv cp (List.mem_cons_of_mem _ hcp)) (by omega),
        show count + 1 + cs.length = count + (cs.length + 1) by omega]

/-- A buffer fails to decode at its start exactly when it does not start with
the UTF-8 encoding of any valid scalar. -/
theorem utf8_decode_fails_iff (rest : List Nat) (hb : ∀ b ∈ rest, b < 256) :
    (pasu_utf8_decode (some rest) rest.length).1 ≠ PASU_OK ↔
      ∀ (cp : Nat) (t : List Nat), pasu_is_valid_scalar cp = true →
        rest ≠ (pasu_utf8_encode cp).2.1 ++ t := by
  constructor
  · intro hd cp t hv heq
    have h := (utf8_decode_encoded cp t rest.length hv
      (by rw [heq, List.length_append]; omega) (by rw [heq])).2.2
    rw [← heq] at h
    exact hd (by rw [h])
  · intro hno hd
    have hdd : pasu_utf8_decode (some rest) rest.length
        = (PASU_OK, (pasu_utf8_decode (some rest) rest.length).2.1,
          (pasu_utf8_decode (some rest) rest.length).2.2) := by
      rw [← hd]
    obtain ⟨hv, he⟩ := utf8_canon_cases rest rest.length _ _ hb (Nat.le_refl _) hdd
    refine hno _ (rest.drop (pasu_utf8_decode (some rest) rest.length).2.2) hv ?_
    rw [he]
    exact (List.take_append_drop _ _).symm

/-- Every byte buffer is the encodings of a list of valid scalars followed by
a rest that is empty or does not decode. -/
theorem utf8_decompose :
    ∀ (n : Nat) (x : List Nat), x.length ≤ n → (∀ b ∈ x, b < 256) →
      ∃ cs rest : List Nat,
        x = encode_all (fun cp => (pasu_utf8_encode cp).2.1) cs ++ rest ∧
        (∀ cp ∈ cs, pasu_is_valid_scalar cp = true) ∧
        (rest = [] ∨ (pasu_utf8_decode (some rest) rest.length).1 ≠ PASU_OK) := by
  intro n
  induction n with
  | zero =>
    intro x hx _
    have : x = [] := List.length_eq_zero.1 (by omega)
    exact ⟨[], [], by rw [this]; rfl, fun _ h => absurd h (List.not_mem_nil _), Or.inl rfl⟩
  | succ n ih =>
    intro x hx hb
    by_cases hd : (pasu_utf8_decode (some x) x.length).1 ≠ PASU_OK
    · exact ⟨[], x, rfl, fun _ h => absurd h (List.not_mem_nil _), Or.inr hd⟩
    · by_cases hx0 : x = []
      · exact ⟨[], [], by rw [hx0]; rfl, fun _ h => absurd h (List.not_mem_nil _), Or.inl rfl⟩
      · have hpos : 0 < x.length := List.length_pos.2 hx0
        have hu := utf8_decode_used_bounds x x.length (by omega) _ rfl
        have hdd : pasu_utf8_decode (some x) x.length
            = (PASU_OK, (pasu_utf8_decode (some x) x.length).2.1,
              (pasu_utf8_decode (some x) x.length).2.2) := by
          rw [← not_not.1 hd]
        obtain ⟨hv, he⟩ := utf8_canon_cases x x.length _ _ hb (Nat.le_refl _) hdd
        obtain ⟨cs, rest, hxr, hcs, hrest⟩ :=
          ih (x.drop (pasu_utf8_decode (some x) x.length).2.2)
            (by rw [List.length_drop]; omega)
            (fun b hbm => hb b (List.mem_of_mem_drop hbm))
        refine ⟨(pasu_utf8_decode (some x) x.length).2.1 :: cs, rest, ?_, ?_, hrest⟩
        · simp only [encode_all, List.append_assoc]
          rw [he, ← hxr]
          exact (List.take_append_drop _ _).symm
        · intro cp hcp
          rcases List.mem_cons.1 hcp with h | h
          · rw [h]; exact hv
          · exact hcs cp h

/-- The result of `pasu_utf8_length` on the encodings of the valid scalars
`cs` followed by a rest that is empty or does not decode. -/
theorem utf8_length_encoded (cs rest : List Nat)
    (hv : ∀ cp ∈ cs, pasu_is_valid_scalar cp = true)
    (hrest : rest = [] ∨ (pasu_utf8_decode (some rest) rest.length).1 ≠ PASU_OK) :
    pasu_utf8_length (some (encode_all (fun cp => (pasu_utf8_encode cp).2.1) cs ++ rest))
        (encode_all (fun cp => (pasu_utf8_encode cp).2.1) cs ++ rest).length
      = (cs.length,
         if rest = [] then PASU_OK else (pasu_utf8_decode (some rest) rest.length).1) := by
  have hge := encode_all_length_ge (fun cp => (pasu_utf8_encode cp).2.1) cs
    (fun cp hcp => (utf8_encode_ok cp (hv cp hcp)).2)
  have h := utf8_length_loop_encoded rest hrest cs [] 0
    (encode_all (fun cp => (pasu_utf8_encode cp).2.1) cs ++ rest).length hv
    (by rw [List.length_append]; omega)
  simp only [List.nil_append, List.length_nil, Nat.zero_add] at h
  exact h

/-- C18. `pasu_utf8_length` returns the number of Unicode scalar values in the
buffer. It returns the same count and reports the same status as
`pasu_utf8_to_utf32` on the same buffer with a destination capacity of at
least `len`. On the UTF-8 encodings of the valid scalars `cs` followed by a
`rest` that is empty or does not start with the encoding of any valid scalar,
the count is the number of scalars in `cs`; the status is `PASU_OK` exactly
when `rest` is empty (the buffer is well formed), and otherwise it is the
status of the decoding error at `rest`, the first error. Every byte buffer is
of this form. -/
theorem utf8_length_counts_scalars :
    (∀ (src : Option (List Nat)) (len dst_capacity : Nat) (dst : List Nat),
      len ≤ dst_capacity →
      (pasu_utf8_length src len).1 = (pasu_utf8_to_utf32 src len dst dst_capacity).1 ∧
      (pasu_utf8_length src len).2 = (pasu_utf8_to_utf32 src len dst dst_capacity).2.1) ∧
    (∀ (cs rest : List Nat), (∀ cp ∈ cs, pasu_is_valid_scalar cp = true) →
      (∀ b ∈ rest, b < 256) →
      (rest = [] ∨ ∀ (cp : Nat) (t : List Nat), pasu_is_valid_scalar cp = true →
        rest ≠ (pasu_utf8_encode cp).2.1 ++ t) →
      (pasu_utf8_length (some (encode_all (fun cp => (pasu_utf8_encode cp).2.1) cs ++ rest))
        (encode_all (fun cp => (pasu_utf8_encode cp).2.1) cs ++ rest).length).1 = cs.length ∧
      ((pasu_utf8_length (some (encode_all (fun cp => (pasu_utf8_encode cp).2.1) cs ++ rest))
        (encode_all (fun cp => (pasu_utf8_encode cp).2.1) cs ++ rest).length).2 = PASU_OK
          ↔ rest = []) ∧
      (rest ≠ [] →
        (pasu_utf8_length (some (encode_all (fun cp => (pasu_utf8_encode cp).2.1) cs ++ rest))
          (encode_all (fun cp => (pasu_utf8_encode cp).2.1) cs ++ rest).length).2
            = (pasu_utf8_decode (some rest) rest.length).1)) ∧
    (∀ x : List Nat, (∀ b ∈ x, b < 256) →
      ∃ cs rest : List Nat,
        x = encode_all (fun cp => (pasu_utf8_encode cp).2.1) cs ++ rest ∧
        (∀ cp ∈ cs, pasu_is_valid_scalar cp = true) ∧
        (rest = [] ∨ ∀ (cp : Nat) (t : List Nat), pasu_is_valid_scalar cp = true →
          rest ≠ (pasu_utf8_encode cp).2.1 ++ t)) := by
  refine ⟨?_, ?_, ?_⟩
  · intro src len dst_capacity dst hcap
    cases src with
    | none =>
      unfold pasu_utf8_length pasu_utf8_to_utf32
      simp only
      split_ifs <;> exact ⟨rfl, rfl⟩
    | some s =>
      have h := utf8_to_utf32_loop_counts s len dst_capacity hcap len 0 0 dst (Nat.le_refl 0)
      exact ⟨h.1.symm, h.2.symm⟩
  · intro cs rest hv hb hrest
    have hrest2 : rest = [] ∨ (pasu_utf8_decode (some rest) rest.length).1 ≠ PASU_OK :=
      hrest.imp id (fun h => (utf8_decode_fails_iff rest hb).2 h)
    rw [utf8_length_encoded cs rest hv hrest2]
    refine ⟨rfl, ⟨?_, ?_⟩, ?_⟩
    · intro h
      by_contra hr
      rw [if_neg hr] at h
      exact hrest2.resolve_left hr h
    · intro hr
      rw [if_pos hr]
    · intro hr
      rw [if_neg hr]
  · intro x hb
    obtain ⟨cs, rest, hx, hv, hrest⟩ := utf8_decompose x.length x (Nat.le_refl _) hb
    refine ⟨cs, rest, hx, hv, hrest.imp id (fun h => (utf8_decode_fails_iff rest ?_).1 h)⟩
    intro b hbm
    exact hb b (by rw [hx]; exact List.mem_append_right _ hbm)

/-- Witness of C18: `H`, the euro sign and a lone continuation byte. Both
functions stop after two code points with the status of the decoder on the
continuation byte, `PASU_E_INVALID`. -/
theorem utf8_length_counts_scalars_witness :
    ((pasu_utf8_length (some [0x48, 0xE2, 0x82, 0xAC, 0x80]) 5).1
        = (pasu_utf8_to_utf32 (some [0x48, 0xE2, 0x82, 0xAC, 0x80]) 5 [0, 0, 0, 0, 0] 5).1 ∧
      (pasu_utf8_length (some [0x48, 0xE2, 0x82, 0xAC, 0x80]) 5).2
        = (pasu_utf8_to_utf32 (some [0x48, 0xE2, 0x82, 0xAC, 0x80]) 5 [0, 0, 0, 0, 0] 5).2.1) ∧
    ((pasu_utf8_length
        (some (encode_all (fun cp => (pasu_utf8_encode cp).2.1) [0x48, 0x20AC] ++ [0x80]))
        (encode_all (fun cp => (pasu_utf8_encode cp).2.1) [0x48, 0x20AC] ++ [0x80]).length).1
        = [0x48, 0x20AC].length ∧
      (pasu_utf8_length
        (some (encode_all (fun cp => (pasu_utf8_encode cp).2.1) [0x48, 0x20AC] ++ [0x80]))
        (encode_all (fun cp => (pasu_utf8_encode cp).2.1) [0x48, 0x20AC] ++ [0x80]).length).2
        = (pasu_utf8_decode (some [0x80]) [0x80].length).1) :=
  have h := utf8_length_counts_scalars.2.1 [0x48, 0x20AC] [0x80] (by decide) (by decide)
    (Or.inr ((utf8_decode_fails_iff [0x80] (by decide)).1 (by decide)))
  ⟨utf8_length_counts_scalars.1 (some [0x48, 0xE2, 0x82, 0xAC, 0x80]) 5 5 [0, 0, 0, 0, 0]
      (by decide),
   h.1, h.2.2 (by decide)⟩

end PasUnicode

namespace PasZip

open pas_zip_status

theorem local_header_length (name payload : List Nat) :
    (local_header name payload).length = 30 := rfl

theorem central_header_length (name payload : List Nat) (off : Nat) :
    (central_header name payload off).length = 46 := rfl

theorem eocd_record_length (c s o : Nat) : (eocd_record c s o).length = 22 := rfl

theorem local_section_length (files : List (List Nat × List Nat)) :
    (local_section files).length = (files.map (fun f => 30 + f.1.length + f.2.length)).sum := by
  induction files with
  | nil => rfl
  | cons f rest ih =>
    obtain ⟨name, payload⟩ := f
    simp only [local_section, List.length_append, local_header_length, ih, List.map_cons,
      List.sum_cons]
    omega

theorem central_section_length (off : Nat) (files : List (List Nat × List Nat)) :
    (central_section off files).length = (files.map (fun f => 46 + f.1.length)).sum := by
  induction files generalizing off with
  | nil => rfl
  | cons f rest ih =>
    obtain ⟨name, payload⟩ := f
    simp only [central_section, List.length_append, central_header_length, ih, List.map_cons,
      List.sum_cons]
    omega

theorem archive_bytes_length (files : List (List Nat × List Nat)) :
    (archive_bytes files).length = archive_size files := by
  simp only [archive_bytes, archive_size, List.length_append, local_section_length,
    central_section_length, eocd_record_length]
  omega

theorem emit_eq (cap : Nat) (out bytes : List Nat) :
    emit cap out bytes = if out.length + bytes.length ≤ cap then some (out ++ bytes) else none :=
  rfl

theorem write_locals_eq (cap : Nat) (files : List (List Nat × List Nat)) (out : List Nat)
    (hout : out.length ≤ cap) :
    write_locals cap files out =
      if out.length + (local_section files).length ≤ cap then
        some (out ++ local_section files, local_offsets out.length files)
      else none := by
  induction files generalizing out with
  | nil => simp [write_locals, local_section, local_offsets, hout]
  | cons f rest ih =>
    obtain ⟨name, payload⟩ := f
    simp only [write_locals, emit_eq, local_section, local_offsets, List.length_append,
      local_header_length]
    by_cases h1 : out.length + 30 ≤ cap
    · rw [if_pos h1]
      simp only [List.length_append, local_header_length]
      by_cases h2 : out.length + 30 + name.length ≤ cap
      · rw [if_pos h2]
        simp only [List.length_append, local_header_length]
        by_cases h3 : out.length + 30 + name.length + payload.length ≤ cap
        · rw [if_pos h3]
          simp only []
          rw [ih _ (by simp only [List.length_append, local_header_length]; omega)]
          simp only [List.length_append, local_header_length, List.append_assoc]
          by_cases h4 : out.length + (30 + (name.length + (payload.length
              + (local_section rest).length))) ≤ cap
          · rw [if_pos h4, if_pos (by omega)]
            simp only [Nat.add_assoc]
          · rw [if_neg h4, if_neg (by omega)]
        · rw [if_neg h3, if_neg (by omega)]
      · rw [if_neg h2, if_neg (by omega)]
    · rw [if_neg h1, if_neg (by omega)]

theorem write_centrals_eq (cap off : Nat) (files : List (List Nat × List Nat))
    (out : List Nat) (hout : out.length ≤ cap) :
    write_centrals cap files (local_offsets off files) out =
      if out.length + (central_section off files).length ≤ cap then
        some (out ++ central_section off files)
      else none := by
  induction files generalizing out off with
  | nil => simp [write_centrals, central_section, local_offsets, hout]
  | cons f rest ih =>
    obtain ⟨name, payload⟩ := f
    simp only [write_centrals, emit_eq, central_section, local_offsets, List.length_append,
      central_header_length]
    by_cases h1 : out.length + 46 ≤ cap
    · rw [if_pos h1]
      simp only [List.length_append, central_header_length]
      by_cases h2 : out.length + 46 + name.length ≤ cap
      · rw [if_pos h2]
        simp only []
        rw [ih _ _ (by simp only [List.length_append, central_header_length]; omega)]
        simp only [List.length_append, central_header_length, List.append_assoc]
        by_cases h4 : out.length + (46 + (name.length +
            (central_section (off + 30 + name.length + payload.length) rest).length)) ≤ cap
        · rw [if_pos h4, if_pos (by omega)]
        · rw [if_neg h4, if_neg (by omega)]
      · rw [if_neg h2, if_neg (by omega)]
    · rw [if_neg h1, if_neg (by omega)]

/-- The builder is the pure layout guarded by one capacity comparison. -/
theorem pas_zip_create_eq (files : List (List Nat × List Nat)) (cap : Nat) :
    pas_zip_create files cap =
      if archive_size files ≤ cap then (archive_size files, PAS_ZIP_OK, archive_bytes files)
      else (0, PAS_ZIP_E_NOSPACE, []) := by
  have hsz := archive_bytes_length files
  simp only [archive_bytes, List.length_append, eocd_record_length] at hsz
  unfold pas_zip_create
  rw [write_locals_eq _ _ _ (Nat.zero_le _)]
  simp only [List.length_nil, Nat.zero_add, List.nil_append]
  by_cases h1 : (local_section files).length ≤ cap
  · rw [if_pos h1]
    simp only []
    rw [write_centrals_eq _ _ _ _ h1]
    by_cases h2 : (local_section files).length + (central_section 0 files).length ≤ cap
    · rw [if_pos h2]
      simp only [emit_eq, List.length_append, eocd_record_length, Nat.add_sub_cancel_left]
      by_cases h3 : (local_section files).length + (central_section 0 files).length + 22 ≤ cap
      · rw [if_pos h3, if_pos (by omega)]
        simp only [List.length_append, eocd_record_length, archive_bytes, List.append_assoc]
        rw [show (local_section files).length + ((central_section 0 files).length + 22)
          = archive_size files from hsz]
      · rw [if_neg h3, if_neg (by omega)]
    · rw [if_neg h2, if_neg (by omega)]
  · rw [if_neg h1, if_neg (by omega)]

/-! ## Reading inside a concatenation -/

theorem getD_append_at (A X : List Nat) (i : Nat) :
    (A ++ X).getD (A.length + i) 0 = X.getD i 0 := by
  rw [List.getD_append_right _ _ _ _ (by omega)]
  congr 1
  omega

theorem read_u16_append (A X : List Nat) (i bound : Nat)
    (h1 : A.length + i + 2 ≤ bound) (h2 : bound ≤ (A ++ X).length) :
    read_u16 (A ++ X) (A.length + i) bound = some (X.getD i 0 + 256 * X.getD (i + 1) 0) := by
  unfold read_u16
  rw [if_pos ⟨by omega, h2⟩, getD_append_at,
    show A.length + i + 1 = A.length + (i + 1) by omega, getD_append_at]

theorem read_u32_append (A X : List Nat) (i bound : Nat)
    (h1 : A.length + i + 4 ≤ bound) (h2 : bound ≤ (A ++ X).length) :
    read_u32 (A ++ X) (A.length + i) bound =
      some (X.getD i 0 + 256 * X.getD (i + 1) 0 + 65536 * X.getD (i + 2) 0
            + 16777216 * X.getD (i + 3) 0) := by
  unfold read_u32
  rw [if_pos ⟨by omega, h2⟩, getD_append_at,
    show A.length + i + 1 = A.length + (i + 1) by omega, getD_append_at,
    show A.length + i + 2 = A.length + (i + 2) by omega, getD_append_at,
    show A.length + i + 3 = A.length + (i + 3) by omega, getD_append_at]

theorem read_bytes_append (A X : List Nat) (i len bound : Nat)
    (h1 : A.length + i + len ≤ bound) (h2 : bound ≤ (A ++ X).length) :
    read_bytes (A ++ X) (A.length + i) len bound = some ((X.drop i).take len) := by
  unfold read_bytes
  rw [if_pos ⟨by omega, h2⟩]
  congr 2
  rw [List.drop_append_eq_append_drop, List.drop_eq_nil_of_le (by omega)]
  simp

theorem le16_value (v : Nat) : v % 256 + 256 * (v / 256 % 256) = v % 65536 := by omega

theorem le32_value (v : Nat) :
    v % 256 + 256 * (v / 256 % 256) + 65536 * (v / 65536 % 256)
      + 16777216 * (v / 16777216 % 256) = v % 4294967296 := by omega

theorem central_header_eq (name payload : List Nat) (off : Nat) :
    central_header name payload off =
      [80, 75, 1, 2, 20, 0, 20, 0, 0, 0, 0, 0, 0, 0, 0, 0,
       crc32 payload % 256, crc32 payload / 256 % 256, crc32 payload / 65536 % 256,
       crc32 payload / 16777216 % 256,
       payload.length % 256, payload.length / 256 % 256, payload.length / 65536 % 256,
       payload.length / 16777216 % 256,
       payload.length % 256, payload.length / 256 % 256, payload.length / 65536 % 256,
       payload.length / 16777216 % 256,
       name.length % 256, name.length / 256 % 256,
       0, 0, 0, 0, 0, 0, 0, 0, 0, 0, 0, 0,
       off % 256, off / 256 % 256, off / 65536 % 256, off / 16777216 % 256] := rfl

theorem local_header_eq (name payload : List Nat) :
    local_header name payload =
      [80, 75, 3, 4, 20, 0, 0, 0, 0, 0, 0, 0, 0, 0,
       crc32 payload % 256, crc32 payload / 256 % 256, crc32 payload / 65536 % 256,
       crc32 payload / 16777216 % 256,
       payload.length % 256, payload.length / 256 % 256, payload.length / 65536 % 256,
       payload.length / 16777216 % 256,
       payload.length % 256, payload.length / 256 % 256, payload.length / 65536 % 256,
       payload.length / 16777216 % 256,
       name.length % 256, name.length / 256 % 256, 0, 0] := rfl

theorem eocd_record_eq (count cd_size cd_off : Nat) :
    eocd_record count cd_size cd_off =
      [80, 75, 5, 6, 0, 0, 0, 0,
       count % 256, count / 256 % 256, count % 256, count / 256 % 256,
       cd_size % 256, cd_size / 256 % 256, cd_size / 65536 % 256, cd_size / 16777216 % 256,
       cd_off % 256, cd_off / 256 % 256, cd_off / 65536 % 256, cd_off / 16777216 % 256,
       0, 0] := rfl

/-- Parsing the central record of `(name, payload)` written at `A.length`:
every field comes back modulo its width. -/
theorem parse_cd_record_central (A R name payload : List Nat) (off cd_end : Nat)
    (h1 : A.length + 46 + name.length ≤ cd_end)
    (h2 : cd_end ≤ (A ++ (central_header name payload off ++ (name ++ R))).length) :
    parse_cd_record (A ++ (central_header name payload off ++ (name ++ R))) cd_end A.length =
      if off % 4294967296 + 30 + name.length % 65536 + 0 + payload.length % 4294967296
          > (A ++ (central_header name payload off ++ (name ++ R))).length then none
      else some ({ name := name.take (name.length % 65536), method := 0,
                   crc32 := crc32 payload % 4294967296,
                   comp_size := payload.length % 4294967296,
                   uncomp_size := payload.length % 4294967296,
                   local_offset := off % 4294967296,
                   archive := A ++ (central_header name payload off ++ (name ++ R)) },
                 A.length + 46 + name.length % 65536 + 0 + 0) := by
  generalize hbuf : A ++ (central_header name payload off ++ (name ++ R)) = buf at h2 ⊢
  have hnl : name.length % 65536 ≤ name.length := Nat.mod_le _ _
  have r0 : read_u32 buf (A.length + 0) cd_end = some CENTRAL_SIG := by
    rw [← hbuf, read_u32_append _ _ _ _ (by omega) (hbuf ▸ h2), central_header_eq]
    simp only [List.cons_append, List.getD_cons_succ, List.getD_cons_zero, Nat.reduceAdd]
    rfl
  have r10 : read_u16 buf (A.length + 10) cd_end = some 0 := by
    rw [← hbuf, read_u16_append _ _ _ _ (by omega) (hbuf ▸ h2), central_header_eq]
    simp only [List.cons_append, List.getD_cons_succ, List.getD_cons_zero, Nat.reduceAdd]
  have r16 : read_u32 buf (A.length + 16) cd_end = some (crc32 payload % 4294967296) := by
    rw [← hbuf, read_u32_append _ _ _ _ (by omega) (hbuf ▸ h2), central_header_eq]
    simp only [List.cons_append, List.getD_cons_succ, List.getD_cons_zero, Nat.reduceAdd]
    congr 1; omega
  have r20 : read_u32 buf (A.length + 20) cd_end = some (payload.length % 4294967296) := by
    rw [← hbuf, read_u32_append _ _ _ _ (by omega) (hbuf ▸ h2), central_header_eq]
    simp only [List.cons_append, List.getD_cons_succ, List.getD_cons_zero, Nat.reduceAdd]
    congr 1; omega
  have r24 : read_u32 buf (A.length + 24) cd_end = some (payload.length % 4294967296) := by
    rw [← hbuf, read_u32_append _ _ _ _ (by omega) (hbuf ▸ h2), central_header_eq]
    simp only [List.cons_append, List.getD_cons_succ, List.getD_cons_zero, Nat.reduceAdd]
    congr 1; omega
  have r28 : read_u16 buf (A.length + 28) cd_end = some (name.length % 65536) := by
    rw [← hbuf, read_u16_append _ _ _ _ (by omega) (hbuf ▸ h2), central_header_eq]
    simp only [List.cons_append, List.getD_cons_succ, List.getD_cons_zero, Nat.reduceAdd]
    congr 1; omega
  have r30 : read_u16 buf (A.length + 30) cd_end = some 0 := by
    rw [← hbuf, read_u16_append _ _ _ _ (by omega) (hbuf ▸ h2), central_header_eq]
    simp only [List.cons_append, List.getD_cons_succ, List.getD_cons_zero, Nat.reduceAdd]
  have r32 : read_u16 buf (A.length + 32) cd_end = some 0 := by
    rw [← hbuf, read_u16_append _ _ _ _ (by omega) (hbuf ▸ h2), central_header_eq]
    simp only [List.cons_append, List.getD_cons_succ, List.getD_cons_zero, Nat.reduceAdd]
  have r42 : read_u32 buf (A.length + 42) cd_end = some (off % 4294967296) := by
    rw [← hbuf, read_u32_append _ _ _ _ (by omega) (hbuf ▸ h2), central_header_eq]
    simp only [List.cons_append, List.getD_cons_succ, List.getD_cons_zero, Nat.reduceAdd]
    congr 1; omega
  have rn : read_bytes buf (A.length + 46) (name.length % 65536) cd_end
      = some (name.take (name.length % 65536)) := by
    rw [← hbuf, read_bytes_append _ _ _ _ _ (by omega) (hbuf ▸ h2)]
    congr 1
    have : (central_header name payload off ++ (name ++ R)).drop 46 = name ++ R := rfl
    rw [this, List.take_append_of_le_length hnl]
  unfold parse_cd_record
  rw [Nat.add_zero] at r0
  simp only [r0, r10, r16, r20, r24, r28, r30, r32, r42, rn, Option.some_bind, ne_eq,
    not_true_eq_false, if_false]
  rw [if_neg (by omega)]

theorem parse_cd_done (buf : List Nat) (cd_end fuel : Nat) :
    parse_cd buf cd_end fuel cd_end = some [] := by
  cases fuel <;> simp [parse_cd]

theorem parse_cd_step (buf : List Nat) (cd_end fuel pos : Nat) (h : pos ≠ cd_end) :
    parse_cd buf cd_end (fuel + 1) pos =
      match parse_cd_record buf cd_end pos with
      | none => none
      | some (e, next) =>
        match parse_cd buf cd_end fuel next with
        | none => none
        | some es => some (e :: es) := by
  rw [parse_cd, if_neg h]

theorem local_section_cons_length (name payload : List Nat)
    (rest : List (List Nat × List Nat)) :
    (local_section ((name, payload) :: rest)).length
      = 30 + name.length + payload.length + (local_section rest).length := by
  simp only [local_section, List.length_append, local_header_length]
  omega

theorem central_section_cons_length (off : Nat) (name payload : List Nat)
    (rest : List (List Nat × List Nat)) :
    (central_section off ((name, payload) :: rest)).length
      = 46 + name.length
        + (central_section (off + 30 + name.length + payload.length) rest).length := by
  simp only [central_section, List.length_append, central_header_length]
  omega

/-- Walking the central directory written for `files` yields the expected
entry table, provided every field is in range. -/
theorem parse_cd_central_section (buf E : List Nat) (files : List (List Nat × List Nat)) :
    ∀ (P : List Nat) (off fuel : Nat),
      buf = P ++ (central_section off files ++ E) →
      (∀ f ∈ files, f.1.length < 65536) →
      files.length ≤ fuel →
      off + (local_section files).length ≤ buf.length →
      buf.length < 4294967296 →
      parse_cd buf (P.length + (central_section off files).length) fuel P.length
        = some (entries_of buf off files) := by
  induction files with
  | nil =>
    intro P off fuel _ _ _ _ _
    simp only [central_section, List.length_nil, Nat.add_zero, entries_of]
    exact parse_cd_done _ _ _
  | cons f rest ih =>
    obtain ⟨name, payload⟩ := f
    intro P off fuel hbuf hr hfuel hoff h32
    obtain ⟨fuel, rfl⟩ : ∃ k, fuel = k + 1 := ⟨fuel - 1, by simp at hfuel; omega⟩
    have hlen : buf.length = P.length + ((central_section off ((name, payload) :: rest)).length
        + E.length) := by
      rw [hbuf]; simp only [List.length_append]
    rw [central_section_cons_length] at hlen ⊢
    rw [local_section_cons_length] at hoff
    have hname : name.length < 65536 := hr (name, payload) (List.mem_cons_self _ _)
    have hbuf2 : buf = P ++ (central_header name payload off ++ (name ++
        (central_section (off + 30 + name.length + payload.length) rest ++ E))) := by
      rw [hbuf]; simp only [central_section, List.append_assoc]
    rw [parse_cd_step _ _ _ _ (by omega)]
    have hrec := parse_cd_record_central P
      (central_section (off + 30 + name.length + payload.length) rest ++ E) name payload off
      (P.length + (46 + name.length
        + (central_section (off + 30 + name.length + payload.length) rest).length))
      (by omega) (by rw [← hbuf2]; omega)
    rw [← hbuf2] at hrec
    rw [Nat.mod_eq_of_lt (show off < 4294967296 by omega),
      Nat.mod_eq_of_lt hname,
      Nat.mod_eq_of_lt (show payload.length < 4294967296 by omega),
      if_neg (by omega), List.take_length] at hrec
    rw [hrec]
    simp only []
    have hP : P.length + 46 + name.length + 0 + 0
        = (P ++ (central_header name payload off ++ name)).length := by
      simp only [List.length_append, central_header_length]; omega
    have hend : P.length + (46 + name.length
        + (central_section (off + 30 + name.length + payload.length) rest).length)
        = (P ++ (central_header name payload off ++ name)).length
          + (central_section (off + 30 + name.length + payload.length) rest).length := by
      simp only [List.length_append, central_header_length]; omega
    rw [hP, hend]
    rw [ih (P ++ (central_header name payload off ++ name))
      (off + 30 + name.length + payload.length) fuel
      (by rw [hbuf2]; simp only [List.append_assoc])
      (fun f hf => hr f (List.mem_cons_of_mem _ hf))
      (by simp at hfuel; omega) (by omega) h32]
    simp only [entries_of]

theorem eocd_scan_hit (buf : List Nat) (pos steps : Nat)
    (h : read_u32 buf pos buf.length = some EOCD_SIG) :
    eocd_scan buf pos steps = some pos := by
  cases steps <;> simp [eocd_scan, h]

theorem eocd_sig_at (Pre : List Nat) (c s o : Nat) :
    read_u32 (Pre ++ eocd_record c s o) Pre.length
      (Pre ++ eocd_record c s o).length = some EOCD_SIG := by
  have hlen : (Pre ++ eocd_record c s o).length = Pre.length + 22 := by
    simp only [List.length_append, eocd_record_length]
  have := read_u32_append Pre (eocd_record c s o) 0 (Pre ++ eocd_record c s o).length
    (by omega) (Nat.le_refl _)
  rw [Nat.add_zero] at this
  rw [this, eocd_record_eq]
  simp only [List.getD_cons_succ, List.getD_cons_zero, Nat.reduceAdd]
  rfl

/-- The locator finds the trailer of a buffer that ends with an EOCD record. -/
theorem find_eocd_trailer (Pre : List Nat) (c s o : Nat) :
    find_eocd (Pre ++ eocd_record c s o) = some Pre.length := by
  have hlen : (Pre ++ eocd_record c s o).length = Pre.length + 22 := by
    simp only [List.length_append, eocd_record_length]
  have hpos : (Pre ++ eocd_record c s o).length - 22 = Pre.length := by omega
  unfold find_eocd
  rw [if_neg (by omega), hpos]
  exact eocd_scan_hit _ _ _ (eocd_sig_at Pre c s o)

/-- Opening a buffer that ends with an EOCD record: the three trailer fields
come back modulo their width and drive the central-directory walk. -/
theorem open_buffer_trailer (Pre : List Nat) (c s o : Nat) :
    open_buffer (Pre ++ eocd_record c s o) =
      if o % 4294967296 + s % 4294967296 > (Pre ++ eocd_record c s o).length then
        (none, PAS_ZIP_E_INVALID)
      else
        match parse_cd (Pre ++ eocd_record c s o) (o % 4294967296 + s % 4294967296)
            (s % 4294967296) (o % 4294967296) with
        | none => (none, PAS_ZIP_E_INVALID)
        | some entries =>
          if entries.length = c % 65536 then
            (some { data := Pre ++ eocd_record c s o, entries := entries,
                    num_entries := c % 65536 }, PAS_ZIP_OK)
          else (none, PAS_ZIP_E_INVALID) := by
  have hlen : (Pre ++ eocd_record c s o).length = Pre.length + 22 := by
    simp only [List.length_append, eocd_record_length]
  have r10 : read_u16 (Pre ++ eocd_record c s o) (Pre.length + 10)
      (Pre ++ eocd_record c s o).length = some (c % 65536) := by
    rw [read_u16_append _ _ _ _ (by omega) (Nat.le_refl _), eocd_record_eq]
    simp only [List.getD_cons_succ, List.getD_cons_zero, Nat.reduceAdd]
    congr 1; omega
  have r12 : read_u32 (Pre ++ eocd_record c s o) (Pre.length + 12)
      (Pre ++ eocd_record c s o).length = some (s % 4294967296) := by
    rw [read_u32_append _ _ _ _ (by omega) (Nat.le_refl _), eocd_record_eq]
    simp only [List.getD_cons_succ, List.getD_cons_zero, Nat.reduceAdd]
    congr 1; omega
  have r16 : read_u32 (Pre ++ eocd_record c s o) (Pre.length + 16)
      (Pre ++ eocd_record c s o).length = some (o % 4294967296) := by
    rw [read_u32_append _ _ _ _ (by omega) (Nat.le_refl _), eocd_record_eq]
    simp only [List.getD_cons_succ, List.getD_cons_zero, Nat.reduceAdd]
    congr 1; omega
  unfold open_buffer
  rw [find_eocd_trailer]
  simp only [r10, r12, r16]

/-- Opening the archive written for in-range `files` succeeds with the
expected entry table. -/
theorem open_buffer_archive (files : List (List Nat × List Nat)) (hr : in_range files) :
    open_buffer (archive_bytes files) =
      (some { data := archive_bytes files,
              entries := entries_of (archive_bytes files) 0 files,
              num_entries := files.length }, PAS_ZIP_OK) := by
  obtain ⟨hn, hk, h32⟩ := hr
  have hsz := archive_bytes_length files
  have hsz2 := hsz
  simp only [archive_bytes, List.length_append, eocd_record_length] at hsz2
  have hcl := central_section_length 0 files
  have hfuel : files.length ≤ (central_section 0 files).length := by
    rw [hcl]
    clear hn hk h32 hsz hsz2 hcl
    induction files with
    | nil => simp
    | cons f rest ih => simp only [List.length_cons, List.map_cons, List.sum_cons]; omega
  have hassoc : archive_bytes files = (local_section files ++ central_section 0 files) ++
      eocd_record files.length (central_section 0 files).length (local_section files).length := by
    simp only [archive_bytes, List.append_assoc]
  have hparse := parse_cd_central_section (archive_bytes files)
    (eocd_record files.length (central_section 0 files).length (local_section files).length)
    files (local_section files) 0 (central_section 0 files).length rfl hn hfuel
    (by rw [hsz]; omega) (by rw [hsz]; exact h32)
  rw [hassoc, open_buffer_trailer, ← hassoc,
    Nat.mod_eq_of_lt (show (local_section files).length < 4294967296 by omega),
    Nat.mod_eq_of_lt (show (central_section 0 files).length < 4294967296 by omega),
    Nat.mod_eq_of_lt hk, if_neg (by rw [hsz]; omega), hparse]
  simp only []
  rw [if_pos]
  clear hparse hassoc hfuel hcl hsz2 hsz h32 hk hn
  generalize archive_bytes files = buf
  generalize 0 = off
  induction files generalizing off with
  | nil => rfl
  | cons f rest ih =>
    obtain ⟨name, payload⟩ := f
    simp only [entries_of, List.length_cons, ih]

/-- Opening what `pas_zip_create` wrote. -/
theorem open_create (files : List (List Nat × List Nat)) (cap : Nat)
    (hr : in_range files) (hcap : archive_size files ≤ cap) :
    pas_zip_create files cap = (archive_size files, PAS_ZIP_OK, archive_bytes files) ∧
    pas_zip_open (some (pas_zip_create files cap).2.2) (pas_zip_create files cap).1 =
      (some { data := archive_bytes files,
              entries := entries_of (archive_bytes files) 0 files,
              num_entries := files.length }, PAS_ZIP_OK) := by
  have hc : pas_zip_create files cap = (archive_size files, PAS_ZIP_OK, archive_bytes files) := by
    rw [pas_zip_create_eq, if_pos hcap]
  refine ⟨hc, ?_⟩
  rw [hc]
  simp only [pas_zip_open]
  rw [← archive_bytes_length, List.take_length]
  exact open_buffer_archive files hr

theorem local_section_append (pre post : List (List Nat × List Nat)) :
    local_section (pre ++ post) = local_section pre ++ local_section post := by
  induction pre with
  | nil => rfl
  | cons f rest ih =>
    obtain ⟨name, payload⟩ := f
    simp only [List.cons_append, local_section, List.append_eq, ih, List.append_assoc]

/-- Lookup in the expected entry table returns the first entry with the name. -/
theorem find_entries_of_some (buf : List Nat) (off : Nat)
    (pre post : List (List Nat × List Nat)) (name payload : List Nat)
    (hpre : ∀ f ∈ pre, f.1 ≠ name) :
    (entries_of buf off (pre ++ (name, payload) :: post)).find?
        (fun e => decide (e.name = name))
      = some { name := name, method := 0, crc32 := crc32 payload % 4294967296,
               comp_size := payload.length, uncomp_size := payload.length,
               local_offset := off + (local_section pre).length, archive := buf } := by
  induction pre generalizing off with
  | nil => simp [entries_of, local_section]
  | cons f rest ih =>
    obtain ⟨n, p⟩ := f
    have hn : n ≠ name := hpre (n, p) (List.mem_cons_self _ _)
    simp only [List.cons_append, entries_of, List.append_eq, List.find?_cons, hn, decide_False]
    rw [ih _ (fun f hf => hpre f (List.mem_cons_of_mem _ hf)), local_section_cons_length]
    congr 2
    omega

/-- With pairwise distinct names, every pair is the first with its name. -/
theorem split_at_pair (files : List (List Nat × List Nat)) (name payload : List Nat)
    (hnd : (files.map Prod.fst).Nodup) (hmem : (name, payload) ∈ files) :
    ∃ pre post, files = pre ++ (name, payload) :: post ∧ ∀ f ∈ pre, f.1 ≠ name := by
  obtain ⟨pre, post, rfl⟩ := List.append_of_mem hmem
  refine ⟨pre, post, rfl, ?_⟩
  intro f hf hname
  rw [List.map_append, List.map_cons, List.nodup_append] at hnd
  exact hnd.2.2 (List.mem_map_of_mem Prod.fst hf) (by rw [hname]; simp)

/-- Re-validation of the local header written for `(name, payload)` at
`A.length` succeeds and locates the payload. -/
theorem check_local_header_local (A R name payload : List Nat) (file : pas_zip_file_t)
    (harch : file.archive = A ++ (local_header name payload ++ (name ++ (payload ++ R))))
    (hoff : file.local_offset = A.length)
    (hc : file.comp_size = payload.length % 4294967296)
    (hu : file.uncomp_size = payload.length % 4294967296) :
    check_local_header file = some (A.length + 30 + name.length % 65536 + 0) := by
  have hlen : file.archive.length
      = A.length + (30 + (name.length + (payload.length + R.length))) := by
    rw [harch]; simp only [List.length_append, local_header_length]
  have r0 : read_u32 file.archive (A.length + 0) file.archive.length = some LOCAL_SIG := by
    rw [harch, read_u32_append _ _ _ _ (by rw [← harch]; omega) (Nat.le_refl _), local_header_eq]
    simp only [List.cons_append, List.getD_cons_succ, List.getD_cons_zero, Nat.reduceAdd]
    rfl
  have r18 : read_u32 file.archive (A.length + 18) file.archive.length
      = some (payload.length % 4294967296) := by
    rw [harch, read_u32_append _ _ _ _ (by rw [← harch]; omega) (Nat.le_refl _), local_header_eq]
    simp only [List.cons_append, List.getD_cons_succ, List.getD_cons_zero, Nat.reduceAdd]
    congr 1; omega
  have r22 : read_u32 file.archive (A.length + 22) file.archive.length
      = some (payload.length % 4294967296) := by
    rw [harch, read_u32_append _ _ _ _ (by rw [← harch]; omega) (Nat.le_refl _), local_header_eq]
    simp only [List.cons_append, List.getD_cons_succ, List.getD_cons_zero, Nat.reduceAdd]
    congr 1; omega
  have r26 : read_u16 file.archive (A.length + 26) file.archive.length
      = some (name.length % 65536) := by
    rw [harch, read_u16_append _ _ _ _ (by rw [← harch]; omega) (Nat.le_refl _), local_header_eq]
    simp only [List.cons_append, List.getD_cons_succ, List.getD_cons_zero, Nat.reduceAdd]
    congr 1; omega
  have r28 : read_u16 file.archive (A.length + 28) file.archive.length = some 0 := by
    rw [harch, read_u16_append _ _ _ _ (by rw [← harch]; omega) (Nat.le_refl _), local_header_eq]
    simp only [List.cons_append, List.getD_cons_succ, List.getD_cons_zero, Nat.reduceAdd]
  rw [Nat.add_zero] at r0
  unfold check_local_header
  simp only [hoff, r0, r18, r22, r26, r28, Option.some_bind, hc, hu, ne_eq, not_true_eq_false,
    or_self, if_false]

/-- Extraction of the stored entry written for `(name, payload)` at
`A.length`, all fields being in range. -/
theorem extract_local (codec : Option pas_zip_codec) (A R name payload : List Nat)
    (file : pas_zip_file_t) (dst : List Nat) (cap : Nat)
    (harch : file.archive = A ++ (local_header name payload ++ (name ++ (payload ++ R))))
    (hoff : file.local_offset = A.length)
    (hm : file.method = 0)
    (hc : file.comp_size = payload.length)
    (hu : file.uncomp_size = payload.length)
    (hn : name.length < 65536) (hp : payload.length < 4294967296) :
    pas_zip_extract codec file dst cap =
      if cap < payload.length then (0, PAS_ZIP_E_NOSPACE, dst)
      else (payload.length, PAS_ZIP_OK, payload ++ dst.drop payload.length) := by
  have hchk := check_local_header_local A R name payload file harch hoff
    (by rw [hc, Nat.mod_eq_of_lt hp]) (by rw [hu, Nat.mod_eq_of_lt hp])
  rw [Nat.mod_eq_of_lt hn, Nat.add_zero] at hchk
  have hlen : file.archive.length
      = A.length + (30 + (name.length + (payload.length + R.length))) := by
    rw [harch]; simp only [List.length_append, local_header_length]
  have hrd : read_bytes file.archive (A.length + 30 + name.length) payload.length
      file.archive.length = some payload := by
    have hre : file.archive = (A ++ (local_header name payload ++ name)) ++ (payload ++ R) := by
      rw [harch]; simp only [List.append_assoc]
    have hl2 : A.length + 30 + name.length
        = (A ++ (local_header name payload ++ name)).length + 0 := by
      simp only [List.length_append, local_header_length]; omega
    rw [hl2]
    conv_lhs => arg 1; rw [hre]
    rw [read_bytes_append _ _ _ _ _ (by rw [← hl2]; omega) (by rw [← hre])]
    simp
  unfold pas_zip_extract
  rw [hchk]
  simp only [hm, if_true, hu, hrd]

/-- The archive for `files`, split around one of its local records. -/
theorem archive_bytes_split (pre post : List (List Nat × List Nat)) (name payload : List Nat) :
    ∃ R, archive_bytes (pre ++ (name, payload) :: post)
      = local_section pre ++ (local_header name payload ++ (name ++ (payload ++ R))) := by
  refine ⟨local_section post ++ (central_section 0 (pre ++ (name, payload) :: post) ++
    eocd_record (pre ++ (name, payload) :: post).length
      (central_section 0 (pre ++ (name, payload) :: post)).length
      (local_section (pre ++ (name, payload) :: post)).length), ?_⟩
  simp only [archive_bytes, local_section_append, local_section, List.append_assoc]

/-- Extraction from the expected entry of the first pair named `name`. -/
theorem extract_created (codec : Option pas_zip_codec)
    (pre post : List (List Nat × List Nat)) (name payload : List Nat)
    (hr : in_range (pre ++ (name, payload) :: post)) (dst : List Nat) (cap : Nat) :
    pas_zip_extract codec
      { name := name, method := 0, crc32 := crc32 payload % 4294967296,
        comp_size := payload.length, uncomp_size := payload.length,
        local_offset := 0 + (local_section pre).length,
        archive := archive_bytes (pre ++ (name, payload) :: post) } dst cap =
      if cap < payload.length then (0, PAS_ZIP_E_NOSPACE, dst)
      else (payload.length, PAS_ZIP_OK, payload ++ dst.drop payload.length) := by
  obtain ⟨R, hR⟩ := archive_bytes_split pre post name payload
  obtain ⟨hn, _, h32⟩ := hr
  have hname : name.length < 65536 := hn (name, payload) (by simp)
  have hsz := archive_bytes_length (pre ++ (name, payload) :: post)
  rw [hR] at hsz
  simp only [List.length_append, local_header_length] at hsz
  exact extract_local codec (local_section pre) R name payload _ dst cap hR
    (by simp) rfl rfl rfl hname (by omega)

/-- Opening the archive of a single entry whose name is `2^16` bytes long is
rejected: the 16-bit name-length field wraps to 0, so the walk expects the
next central record where the name bytes are. -/
theorem open_buffer_overlong_name (name : List Nat) (hlen : name.length = 65536)
    (hsig : name.getD 0 0 + 256 * name.getD 1 0 + 65536 * name.getD 2 0
        + 16777216 * name.getD 3 0 ≠ CENTRAL_SIG) :
    open_buffer (archive_bytes [(name, [])]) = (none, PAS_ZIP_E_INVALID) := by
  have hL : (local_section [(name, [])]).length = 65566 := by
    simp only [local_section, List.length_append, local_header_length, hlen, List.length_nil]
  have hC : (central_section 0 [(name, [])]).length = 65582 := by
    simp only [central_section, List.length_append, central_header_length, hlen,
      List.length_nil]
  have hsz : (archive_bytes [(name, [])]).length = 131170 := by
    simp only [archive_bytes, List.length_append, hL, hC, eocd_record_length]
  have hassoc : archive_bytes [(name, [])] = (local_section [(name, [])] ++
      central_section 0 [(name, [])]) ++ eocd_record [(name, ([] : List Nat))].length
        (central_section 0 [(name, [])]).length (local_section [(name, [])]).length := by
    simp only [archive_bytes, List.append_assoc]
  -- the first record parses, with an empty name
  have hb1 : archive_bytes [(name, [])] = local_section [(name, [])] ++
      (central_header name [] 0 ++ (name ++ eocd_record 1 65582 65566)) := by
    unfold archive_bytes
    rw [hL, hC]
    simp only [central_section, List.append_assoc, List.length_cons, List.length_nil,
      List.append_nil, Nat.zero_add]
  have hrec := parse_cd_record_central (local_section [(name, [])])
    (eocd_record 1 65582 65566) name [] 0 131148
    (by rw [hL, hlen]) (by rw [← hb1, hsz]; omega)
  rw [← hb1, hsz, hL, hlen] at hrec
  simp only [List.length_nil, Nat.zero_mod, Nat.reduceMod, Nat.reduceAdd, List.take_zero] at hrec
  rw [if_neg (by omega)] at hrec
  -- the second record is read from the name bytes
  have hb2 : archive_bytes [(name, [])] =
      (local_section [(name, [])] ++ central_header name [] 0) ++
        (name ++ eocd_record 1 65582 65566) := by
    rw [hb1]; simp only [List.append_assoc]
  have hl2 : (local_section [(name, [])] ++ central_header name [] 0).length = 65612 := by
    simp only [List.length_append, hL, central_header_length]
  have hrd := read_u32_append (local_section [(name, [])] ++ central_header name [] 0)
    (name ++ eocd_record 1 65582 65566) 0 131148 (by rw [hl2]; omega) (by rw [← hb2, hsz]; omega)
  rw [← hb2, hl2] at hrd
  have hg : ∀ i, i < 4 → (name ++ eocd_record 1 65582 65566).getD i 0 = name.getD i 0 := by
    intro i hi
    rw [List.getD_append _ _ _ _ (by omega)]
  rw [hg 0 (by omega), hg (0 + 1) (by omega), hg (0 + 2) (by omega), hg (0 + 3) (by omega)] at hrd
  have hrec2 : parse_cd_record (archive_bytes [(name, [])]) 131148 65612 = none := by
    unfold parse_cd_record
    rw [show (65612 : Nat) = 65612 + 0 from rfl, hrd]
    simp only [Option.some_bind, Nat.zero_add]
    rw [if_pos hsig]
  rw [hassoc, open_buffer_trailer, ← hassoc, hL, hC, hsz]
  simp only [List.length_cons, List.length_nil, Nat.reduceMod, Nat.reduceAdd]
  rw [if_neg (by omega)]
  rw [show (65582 : Nat) = 65580 + 1 + 1 from rfl,
    parse_cd_step _ _ _ _ (by omega), hrec]
  simp only []
  rw [parse_cd_step _ _ _ _ (by omega), hrec2]

theorem archive_size_single (name payload : List Nat) :
    archive_size [(name, payload)]
      = 30 + name.length + payload.length + (46 + name.length) + 22 := by
  simp only [archive_size, List.map_cons, List.map_nil, List.sum_cons, List.sum_nil,
    Nat.add_zero]

theorem archive_size_long_name : archive_size long_name_files = 131170 := by
  unfold long_name_files
  rw [archive_size_single, List.length_replicate]
  simp only [List.length_nil, Nat.reduceAdd]

theorem long_name_getD (i : Nat) (hi : i < 4) : (List.replicate 65536 97).getD i 0 = 97 := by
  rw [List.getD_eq_getElem _ _ (by rw [List.length_replicate]; omega), List.getElem_replicate]

theorem open_buffer_long_name :
    open_buffer (archive_bytes long_name_files) = (none, PAS_ZIP_E_INVALID) :=
  open_buffer_overlong_name (List.replicate 65536 97) (List.length_replicate _ _)
    (by rw [long_name_getD 0 (by omega), long_name_getD 1 (by omega),
          long_name_getD 2 (by omega), long_name_getD 3 (by omega)]; decide)

/-- For the entry of `long_name_files` the builder succeeds and the opener
rejects what it wrote. -/
theorem open_long_name :
    pas_zip_create long_name_files 131170 = (131170, PAS_ZIP_OK, archive_bytes long_name_files) ∧
    pas_zip_open (some (pas_zip_create long_name_files 131170).2.2)
      (pas_zip_create long_name_files 131170).1 = (none, PAS_ZIP_E_INVALID) := by
  have hc : pas_zip_create long_name_files 131170
      = (131170, PAS_ZIP_OK, archive_bytes long_name_files) := by
    rw [pas_zip_create_eq, archive_size_long_name, if_pos (Nat.le_refl _)]
  refine ⟨hc, ?_⟩
  rw [hc]
  simp only [pas_zip_open]
  have hlen : (archive_bytes long_name_files).length = 131170 := by
    rw [archive_bytes_length, archive_size_long_name]
  rw [← hlen, List.take_length]
  exact open_buffer_long_name

/-- C1, as stated, fails: `long_name_files` is a non-empty sequence with
pairwise distinct names and the destination is large enough, `pas_zip_create`
succeeds, yet no handle is opened from the written bytes, so no entry can be
found and extracted for the stored name. -/
theorem round_trip_long_name_fails :
    long_name_files ≠ [] ∧ (long_name_files.map Prod.fst).Nodup ∧
    (pas_zip_create long_name_files 131170).2.1 = PAS_ZIP_OK ∧
    ¬ ∃ zip file,
      (pas_zip_open (some (pas_zip_create long_name_files 131170).2.2)
        (pas_zip_create long_name_files 131170).1).1 = some zip ∧
      pas_zip_find zip (List.replicate 65536 97) = some file ∧
      pas_zip_extract none file [] 0 = (0, PAS_ZIP_OK, []) := by
  obtain ⟨hc, ho⟩ := open_long_name
  refine ⟨by unfold long_name_files; exact List.cons_ne_nil _ _,
    by unfold long_name_files; rw [List.map_cons, List.map_nil]; exact List.nodup_singleton _,
    by rw [hc], ?_⟩
  rintro ⟨zip, file, hz, -, -⟩
  rw [ho] at hz
  exact absurd hz (by simp)

/-- C1, amended. ZIP round trip: for every sequence of (name, payload) pairs
with pairwise distinct names that is within the range of the header fields
(names shorter than `2^16` bytes, fewer than `2^16` entries, archive smaller
than `2^32` bytes) and every destination of sufficient capacity,
`pas_zip_create` succeeds, `pas_zip_open` on the written bytes succeeds, and
for every pair `pas_zip_find` returns an entry whose extraction into a buffer
of capacity at least the payload size returns `PAS_ZIP_OK`, a byte count
equal to the payload size, and the payload in the first bytes of the buffer. -/
theorem zip_round_trip (codec : Option pas_zip_codec) (files : List (List Nat × List Nat))
    (cap : Nat) (hnd : (files.map Prod.fst).Nodup) (hr : in_range files)
    (hcap : archive_size files ≤ cap) :
    (pas_zip_create files cap).2.1 = PAS_ZIP_OK ∧
    ∃ zip, pas_zip_open (some (pas_zip_create files cap).2.2) (pas_zip_create files cap).1
        = (some zip, PAS_ZIP_OK) ∧
      ∀ name payload, (name, payload) ∈ files →
        ∃ file, pas_zip_find zip name = some file ∧
          ∀ (dst : List Nat) (dcap : Nat), payload.length ≤ dcap →
            pas_zip_extract codec file dst dcap
              = (payload.length, PAS_ZIP_OK, payload ++ dst.drop payload.length) := by
  obtain ⟨hc, ho⟩ := open_create files cap hr hcap
  refine ⟨by rw [hc], _, ho, ?_⟩
  intro name payload hmem
  obtain ⟨pre, post, hsplit, hpre⟩ := split_at_pair files name payload hnd hmem
  subst hsplit
  refine ⟨_, find_entries_of_some _ 0 pre post name payload hpre, ?_⟩
  intro dst dcap hd
  rw [extract_created codec pre post name payload hr dst dcap, if_neg (by omega)]

/-- Witness for C1 on the three entries of `test_find.c`. -/
theorem zip_round_trip_witness :
    (test_find_files.map Prod.fst).Nodup ∧ in_range test_find_files ∧
    archive_size test_find_files ≤ 1024 ∧
    (pas_zip_create test_find_files 1024).2.1 = PAS_ZIP_OK ∧
    ∃ zip, pas_zip_open (some (pas_zip_create test_find_files 1024).2.2)
        (pas_zip_create test_find_files 1024).1 = (some zip, PAS_ZIP_OK) ∧
      ∀ name payload, (name, payload) ∈ test_find_files →
        ∃ file, pas_zip_find zip name = some file ∧
          ∀ (dst : List Nat) (dcap : Nat), payload.length ≤ dcap →
            pas_zip_extract none file dst dcap
              = (payload.length, PAS_ZIP_OK, payload ++ dst.drop payload.length) :=
  ⟨by decide, by decide, by decide,
   zip_round_trip none test_find_files 1024 (by decide) (by decide) (by decide)⟩

/-- Every entry of the expected table is the entry of some input pair. -/
theorem mem_entries_of (buf : List Nat) (off : Nat) (files : List (List Nat × List Nat))
    (e : pas_zip_file_t) (he : e ∈ entries_of buf off files) :
    ∃ pre name payload post, files = pre ++ (name, payload) :: post ∧
      e = { name := name, method := 0, crc32 := crc32 payload % 4294967296,
            comp_size := payload.length, uncomp_size := payload.length,
            local_offset := off + (local_section pre).length, archive := buf } := by
  induction files generalizing off with
  | nil => simp [entries_of] at he
  | cons f rest ih =>
    obtain ⟨n, p⟩ := f
    simp only [entries_of, List.mem_cons] at he
    rcases he with rfl | he
    · exact ⟨[], n, p, rest, rfl, rfl⟩
    · obtain ⟨pre, name, payload, post, hsplit, rfl⟩ := ih _ he
      refine ⟨(n, p) :: pre, name, payload, post, by rw [hsplit]; rfl, ?_⟩
      rw [local_section_cons_length]
      congr 1
      omega

/-- A parsed central record is at least 46 bytes long and ends inside the
central directory. -/
theorem parse_cd_record_next (buf : List Nat) (cd_end pos : Nat) (e : pas_zip_file_t)
    (next : Nat) (h : parse_cd_record buf cd_end pos = some (e, next)) :
    pos + 46 ≤ next ∧ next ≤ cd_end := by
  unfold parse_cd_record at h
  obtain ⟨sig, -, h⟩ := Option.bind_eq_some.1 h
  by_cases hs : sig ≠ CENTRAL_SIG
  · rw [if_pos hs] at h
    exact absurd h (by simp)
  rw [if_neg hs] at h
  obtain ⟨method, -, h⟩ := Option.bind_eq_some.1 h
  obtain ⟨crc, -, h⟩ := Option.bind_eq_some.1 h
  obtain ⟨csize, -, h⟩ := Option.bind_eq_some.1 h
  obtain ⟨usize, -, h⟩ := Option.bind_eq_some.1 h
  obtain ⟨nlen, -, h⟩ := Option.bind_eq_some.1 h
  obtain ⟨elen, -, h⟩ := Option.bind_eq_some.1 h
  obtain ⟨clen, -, h⟩ := Option.bind_eq_some.1 h
  obtain ⟨off, -, h⟩ := Option.bind_eq_some.1 h
  obtain ⟨name, -, h⟩ := Option.bind_eq_some.1 h
  by_cases h1 : pos + 46 + nlen + elen + clen > cd_end
  · rw [if_pos h1] at h
    exact absurd h (by simp)
  rw [if_neg h1] at h
  by_cases h2 : off + 30 + nlen + elen + csize > buf.length
  · rw [if_pos h2] at h
    exact absurd h (by simp)
  rw [if_neg h2] at h
  have hnext := (Prod.mk.inj (Option.some.inj h)).2
  omega

theorem parse_cd_past_end (buf : List Nat) (cd_end fuel pos : Nat) (h : cd_end < pos) :
    parse_cd buf cd_end fuel pos = none := by
  cases fuel with
  | zero => rw [parse_cd, if_neg (by omega)]
  | succ k =>
    rw [parse_cd_step _ _ _ _ (by omega)]
    have : parse_cd_record buf cd_end pos = none := by
      unfold parse_cd_record read_u32
      rw [if_neg (by omega)]
      rfl
    rw [this]

/-- The central-directory walk does not depend on the fuel once the fuel
covers the bytes that remain: the walk never stops for lack of fuel. -/
theorem parse_cd_fuel (buf : List Nat) (cd_end : Nat) :
    ∀ (fuel1 fuel2 pos : Nat), cd_end - pos ≤ fuel1 → cd_end - pos ≤ fuel2 →
      parse_cd buf cd_end fuel1 pos = parse_cd buf cd_end fuel2 pos := by
  intro fuel1
  induction fuel1 with
  | zero =>
    intro fuel2 pos h1 _
    by_cases hp : pos = cd_end
    · subst hp; rw [parse_cd_done, parse_cd_done]
    · rw [parse_cd_past_end _ _ _ _ (by omega), parse_cd_past_end _ _ _ _ (by omega)]
  | succ k ih =>
    intro fuel2 pos h1 h2
    by_cases hp : pos = cd_end
    · subst hp; rw [parse_cd_done, parse_cd_done]
    · by_cases hlt : cd_end < pos
      · rw [parse_cd_past_end _ _ _ _ hlt, parse_cd_past_end _ _ _ _ hlt]
      · obtain ⟨j, rfl⟩ : ∃ j, fuel2 = j + 1 := ⟨fuel2 - 1, by omega⟩
        rw [parse_cd_step _ _ _ _ hp, parse_cd_step _ _ _ _ hp]
        cases hrec : parse_cd_record buf cd_end pos with
        | none => rfl
        | some r =>
          obtain ⟨e, next⟩ := r
          have hn := parse_cd_record_next buf cd_end pos e next hrec
          simp only []
          rw [ih j next (by omega) (by omega)]

/-- C7, as stated, fails: `corrupt_local_archive` opens (the opener never
reads local headers), its entry `a` is stored uncompressed with size 3, and
extraction into a destination of capacity 2 reports `PAS_ZIP_E_INVALID`, not
`PAS_ZIP_E_NOSPACE`, because the local header is re-validated first. -/
theorem extract_corrupt_local_header :
    ∃ zip file, pas_zip_open (some corrupt_local_archive) 103 = (some zip, PAS_ZIP_OK) ∧
      pas_zip_find zip [97] = some file ∧
      pas_zip_is_compressed file = false ∧ pas_zip_size file = 3 ∧
      pas_zip_extract none file [9, 9] 2 = (0, PAS_ZIP_E_INVALID, [9, 9]) :=
  ⟨_, _, rfl, rfl, rfl, rfl, rfl⟩

/-- C7, amended. For every entry stored uncompressed whose local file header
passes re-validation, and every destination capacity strictly smaller than
the entry's uncompressed size, `pas_zip_extract` returns 0 bytes written with
`PAS_ZIP_E_NOSPACE` and leaves the destination unchanged. This covers every
entry of an archive opened from the output of `pas_zip_create` on input
within the range of the header fields. -/
theorem extract_too_small :
    (∀ (codec : Option pas_zip_codec) (file : pas_zip_file_t) (dst : List Nat) (cap : Nat),
      (check_local_header file).isSome = true → pas_zip_is_compressed file = false →
      cap < pas_zip_size file →
      pas_zip_extract codec file dst cap = (0, PAS_ZIP_E_NOSPACE, dst)) ∧
    (∀ (codec : Option pas_zip_codec) (files : List (List Nat × List Nat)) (cap : Nat),
      in_range files → archive_size files ≤ cap →
      ∃ zip, pas_zip_open (some (pas_zip_create files cap).2.2) (pas_zip_create files cap).1
          = (some zip, PAS_ZIP_OK) ∧
        ∀ file ∈ zip.entries, ∀ (dst : List Nat) (dcap : Nat), dcap < pas_zip_size file →
          pas_zip_extract codec file dst dcap = (0, PAS_ZIP_E_NOSPACE, dst)) := by
  constructor
  · intro codec file dst cap hv hm hcap
    obtain ⟨start, hs⟩ := Option.isSome_iff_exists.1 hv
    have hm0 : file.method = 0 := by
      simpa [pas_zip_is_compressed] using hm
    unfold pas_zip_extract
    rw [hs]
    simp only [hm0, if_true]
    rw [if_pos (show cap < file.uncomp_size from hcap)]
  · intro codec files cap hr hcap
    obtain ⟨-, ho⟩ := open_create files cap hr hcap
    refine ⟨_, ho, ?_⟩
    intro file hfile dst dcap hd
    obtain ⟨pre, name, payload, post, hsplit, rfl⟩ := mem_entries_of _ _ _ _ hfile
    subst hsplit
    rw [extract_created codec pre post name payload hr dst dcap,
      if_pos (show dcap < payload.length from hd)]

/-- Witness for C7 on the entry of `test_extract.c` (11 bytes) with a
destination of capacity 5. -/
theorem extract_too_small_witness :
    in_range test_extract_files ∧ archive_size test_extract_files ≤ 1024 ∧
    ∃ zip, pas_zip_open (some (pas_zip_create test_extract_files 1024).2.2)
        (pas_zip_create test_extract_files 1024).1 = (some zip, PAS_ZIP_OK) ∧
      ∀ file ∈ zip.entries, ∀ (dst : List Nat) (dcap : Nat), dcap < pas_zip_size file →
        pas_zip_extract none file dst dcap = (0, PAS_ZIP_E_NOSPACE, dst) :=
  ⟨by decide, by decide,
   extract_too_small.2 none test_extract_files 1024 (by decide) (by decide)⟩

/-- C8. `pas_zip_open` rejects buffers that cannot hold an end-of-central-
directory record: for every buffer and every size `n < 22` it returns no
handle and `PAS_ZIP_E_INVALID`, and with a null buffer it returns no handle
whatever the size `m`, in particular for `m > 0`. -/
theorem open_rejects_short (buf : List Nat) (n m : Nat) (hn : n < 22) :
    pas_zip_open (some buf) n = (none, PAS_ZIP_E_INVALID) ∧
    (pas_zip_open none m).1 = none := by
  refine ⟨?_, rfl⟩
  have hlen : (buf.take n).length < 22 := by
    rw [List.length_take]; omega
  simp only [pas_zip_open, open_buffer, find_eocd]
  rw [if_pos hlen]

/-- Witness for C8: three zero bytes, and a null buffer with size 100. -/
theorem open_rejects_short_witness :
    3 < 22 ∧
    pas_zip_open (some [0, 0, 0]) 3 = (none, PAS_ZIP_E_INVALID) ∧
    (pas_zip_open none 100).1 = none :=
  ⟨by decide, open_rejects_short [0, 0, 0] 3 100 (by decide)⟩

/-- C10. For every input to `pas_zip_create` and every destination capacity
smaller than the size of the archive it would produce, `pas_zip_create`
returns 0 bytes written with `PAS_ZIP_E_NOSPACE`; `archive_size files` is
that size, the count returned whenever the capacity suffices. -/
theorem create_insufficient_space (files : List (List Nat × List Nat)) (cap : Nat)
    (h : cap < archive_size files) :
    (pas_zip_create files cap).1 = 0 ∧
    (pas_zip_create files cap).2.1 = PAS_ZIP_E_NOSPACE ∧
    ∀ big, archive_size files ≤ big →
      (pas_zip_create files big).1 = archive_size files ∧
      (pas_zip_create files big).2.1 = PAS_ZIP_OK := by
  refine ⟨?_, ?_, ?_⟩
  · rw [pas_zip_create_eq, if_neg (by omega)]
  · rw [pas_zip_create_eq, if_neg (by omega)]
  · intro big hbig
    rw [pas_zip_create_eq, if_pos hbig]
    exact ⟨rfl, rfl⟩

/-- Witness for C10: the archive of `test_find.c` takes 290 bytes and does
not fit in 289. -/
theorem create_insufficient_space_witness :
    289 < archive_size test_find_files ∧
    (pas_zip_create test_find_files 289).1 = 0 ∧
    (pas_zip_create test_find_files 289).2.1 = PAS_ZIP_E_NOSPACE ∧
    ∀ big, archive_size test_find_files ≤ big →
      (pas_zip_create test_find_files big).1 = archive_size test_find_files ∧
      (pas_zip_create test_find_files big).2.1 = PAS_ZIP_OK :=
  ⟨by decide, create_insufficient_space test_find_files 289 (by decide)⟩

/-! ## Archives that reach `2^32` bytes; stored entries -/

end PasZip
